import Mathlib

/-!
future-star-center-backend: session and credential lifecycle.

A shallow embedding of the authentication service
(`internal/service/auth_service.go`), of its two repositories
(`internal/repository/mongo_user_repository.go`,
`internal/repository/redis_session_repository.go`), of the domain types
(`internal/domain/user.go`) and of the helpers in `pkg/utils/crypto.go`.

Conventions of the embedding.

* Instants and durations are integers counting nanoseconds.  Arithmetic on them is
  unbounded: the saturation of `time.Duration` at the ends of the 64-bit range is
  not modelled.
* The process clock, the failures of the store drivers, and the random sources are
  inputs of the program.  They are carried by the `World` as finite schedules that
  the calls consume in order: every `time.Now()` consumes one entry of `ticks`,
  every command sent to MongoDB or Redis consumes one entry of `faults`.  An
  exhausted schedule means: the clock stands still, no command fails.
* MongoDB is a list of user documents in insertion order with the unique index on
  `email` that `main.go` creates.  Redis is two finite maps, one for the keys
  `session:<id>` and one for the keys `user_sessions:<user id>`; every entry carries
  the deadline of its time-to-live, and an entry whose deadline has been reached is
  absent for every command.  Stored values are kept decoded: `json.Marshal` and
  `json.Unmarshal` of a `Session` are taken to round-trip.  A duration reaches Redis
  the way the client go-redis sends it: `Set` in whole milliseconds, or in whole
  seconds when the duration is a whole number of seconds, `Expire` in whole seconds,
  both rounded down.  The server measures the time-to-live from the instant of the
  command, on the clock of the process.
* `bcrypt` and the JWT signer are parameters (`Deps`).
* `Get` and `Delete` of the session repository call each other, so both take a fuel
  argument and return `none` when it runs out.
* Output written with `fmt.Printf` is not part of the state.
-/

namespace FutureStar

/-! ## Values -/

/-! Values of `time.Time` are integers, the nanoseconds since the Unix epoch; values
of `time.Duration` are integers, a signed count of nanoseconds. -/

/-- The constant `time.Second`. -/
def Second : Int := 1000000000

/-- The constant `time.Millisecond`. -/
def Millisecond : Int := 1000000

/-- The method `Time.Unix`: whole seconds since the epoch, rounded down. -/
def Unix (t : Int) : Int := Int.fdiv t Second

/-- The constructor `time.Unix(sec, 0)`. -/
def timeUnix (sec : Int) : Int := sec * Second

/-- Go error values.  `new` is `errors.New`, `wrap` is `fmt.Errorf("<msg>: %w", cause)`;
the remaining constructors are the sentinels and failures of the store drivers. -/
inductive Err where
  | new (msg : String)
  | wrap (msg : String) (cause : Err)
  | mongoNoDocuments
  | mongoDuplicateKey
  | redisNil
  | driver (cmd : String)
  | randomSource
deriving DecidableEq, Repr

/-- Equality of results is decidable, so that runs can be compared by evaluation. -/
instance instDecidableEqExcept {ε α : Type} [DecidableEq ε] [DecidableEq α] :
    DecidableEq (Except ε α) := fun a b =>
  match a, b with
  | .ok x, .ok y => if h : x = y then isTrue (by rw [h]) else isFalse (by intro h'; cases h'; exact h rfl)
  | .error x, .error y =>
    if h : x = y then isTrue (by rw [h]) else isFalse (by intro h'; cases h'; exact h rfl)
  | .ok _, .error _ => isFalse (by intro h; cases h)
  | .error _, .ok _ => isFalse (by intro h; cases h)

/-- The type `primitive.ObjectID`, kept as its canonical text: 24 lowercase
hexadecimal digits. -/
structure ObjectID where
  hex : String
deriving DecidableEq, Repr

/-- The method `ObjectID.Hex`. -/
def ObjectID.Hex (id : ObjectID) : String := id.hex

/-- A character accepted by `hex.DecodeString`. -/
def isHexChar (c : Char) : Bool :=
  ('0' ≤ c && c ≤ '9') || ('a' ≤ c && c ≤ 'f') || ('A' ≤ c && c ≤ 'F')

/-- The function `primitive.ObjectIDFromHex`: the text must be 24 hexadecimal digits;
upper-case digits are accepted and denote the same identifier. -/
def ObjectIDFromHex (s : String) : Option ObjectID :=
  if s.data.length = 24 ∧ s.data.all isHexChar = true then
    some ⟨String.mk (s.data.map Char.toLower)⟩
  else none

/-- The type `domain.UserRole`, a string. -/
abbrev UserRole := String

def RoleAdmin : UserRole := "admin"
def RoleTherapist : UserRole := "therapist"
def RoleStaff : UserRole := "staff"

/-- The method `UserRole.IsValid`. -/
def UserRole.IsValid (r : UserRole) : Bool :=
  r == RoleAdmin || r == RoleTherapist || r == RoleStaff

/-- The type `domain.User`. -/
structure User where
  ID : ObjectID
  Email : String
  Password : String
  FirstName : String
  LastName : String
  Role : UserRole
  IsActive : Bool
  EmailVerified : Bool
  LastLogin : Option Int
  PasswordResetToken : Option String
  PasswordResetExpiry : Option Int
  CreatedAt : Int
  UpdatedAt : Int
deriving DecidableEq, Repr

/-- The type `domain.Session`. -/
structure Session where
  ID : String
  UserID : String
  Email : String
  Role : UserRole
  CreatedAt : Int
  ExpiresAt : Int
deriving DecidableEq, Repr

/-- A Redis key's content together with the deadline of its time-to-live
(`none`: the key never expires). -/
structure Entry (α : Type) where
  val : α
  deadline : Option Int
deriving DecidableEq, Repr

/-- A key is still present at instant `now` when its deadline has not been reached. -/
def Entry.live {α : Type} (e : Entry α) (now : Int) : Bool :=
  match e.deadline with
  | none => true
  | some d => decide (now < d)

/-- The two stores and the inputs the program draws from its environment. -/
structure World where
  /-- The `users` collection, in insertion order. -/
  users : List User
  /-- The Redis keys `session:<id>`, by `<id>`. -/
  sessions : String → Option (Entry Session)
  /-- The Redis keys `user_sessions:<user id>`, by `<user id>`: sets of session ids. -/
  userSessions : String → Option (Entry (List String))
  /-- The last reading of the clock. -/
  now : Int
  /-- The advances of the clock before each of the coming readings. -/
  ticks : List Nat
  /-- For each of the coming store commands, whether the driver reports a failure. -/
  faults : List Bool
  /-- The coming results of `uuid.New().String()`. -/
  uuids : List String
  /-- The coming results of `primitive.NewObjectID()`. -/
  objectIDs : List ObjectID
  /-- The coming bytes of `crypto/rand`. -/
  entropy : List Nat
  /-- For each of the coming reads of `crypto/rand`, whether it fails. -/
  randFaults : List Bool

/-- The world after one reading of the clock. -/
def World.tick (w : World) : World :=
  { w with now := w.now + (w.ticks.headD 0 : Nat), ticks := w.ticks.tail }

/-- The function `time.Now`: the clock advances by the next tick and is read. -/
def timeNow (w : World) : Int × World := (w.tick.now, w.tick)

/-- Whether the store command being sent fails in the driver. -/
def World.faulty (w : World) : Bool := w.faults.headD false

/-- The world after one store command has been answered. -/
def World.sent (w : World) : World := { w with faults := w.faults.tail }

/-- The function `uuid.New().String()`. -/
def uuidNew (w : World) : String × World :=
  (w.uuids.headD "", { w with uuids := w.uuids.tail })

/-- The function `primitive.NewObjectID`. -/
def NewObjectID (w : World) : ObjectID × World :=
  (w.objectIDs.headD ⟨""⟩, { w with objectIDs := w.objectIDs.tail })

/-- The function `rand.Read` of `crypto/rand` on a buffer of `n` bytes: `none` when the
source fails, otherwise `n` bytes. -/
def randRead (w : World) (n : Nat) : Option (List Nat) × World :=
  if w.randFaults.headD false then
    (none, { w with randFaults := w.randFaults.tail })
  else
    (some ((List.range n).map (fun i => (w.entropy.getD i 0) % 256)),
      { w with randFaults := w.randFaults.tail, entropy := w.entropy.drop n })

/-- The values of the configuration that the service reads (`config.Config`). -/
structure Config where
  JWTSecret : String
  JWTExpiresIn : Int
  SessionExpiresIn : Int
  PasswordResetExpiresIn : Int

/-- The libraries the service is linked with, and its configuration.

`bcryptGenerate salt password` is `bcrypt.GenerateFromPassword` at the default cost
with the salt it drew; `bcryptCompare hash password` tells whether
`bcrypt.CompareHashAndPassword` returns no error.

`GenerateJWT` is `utils.GenerateJWT`, a signer whose result is left open here. -/
structure Deps where
  config : Config
  bcryptGenerate : List Nat → String → Except Err String
  bcryptCompare : String → String → Bool
  GenerateJWT : User → String → Int → Except Err String

/-! ## `pkg/utils/crypto.go` -/

namespace utils

/-- The function `HashPassword`.  The length test is on the bytes of the password;
`bcrypt` then draws its 16-byte salt from `crypto/rand`. -/
def HashPassword (deps : Deps) (w : World) (password : String) : Except Err String × World :=
  if password.utf8ByteSize < 8 then
    (.error (.new "password must be at least 8 characters long"), w)
  else
    match (randRead w 16).1 with
    | none => (.error .randomSource, (randRead w 16).2)
    | some salt => (deps.bcryptGenerate salt password, (randRead w 16).2)

/-- The function `CheckPassword`. -/
def CheckPassword (deps : Deps) (password hash : String) : Bool :=
  deps.bcryptCompare hash password

/-- The digit table of `encoding/hex`. -/
def hextable : List Char := "0123456789abcdef".data

/-- The function `hex.EncodeToString`: two digits per byte, high nibble first. -/
def hexEncodeToString (bytes : List Nat) : String :=
  String.mk (bytes.flatMap (fun v => [hextable.getD (v / 16) '0', hextable.getD (v % 16) '0']))

/-- The function `GenerateRandomToken`. -/
def GenerateRandomToken (w : World) (length : Nat) : Except Err String × World :=
  match (randRead w length).1 with
  | none => (.error .randomSource, (randRead w length).2)
  | some bytes => (.ok (hexEncodeToString bytes), (randRead w length).2)

end utils

/-! ## `internal/domain/user.go` -/

/-- The method `Session.IsValid`: `time.Now().Before(s.ExpiresAt)`. -/
def Session.IsValid (s : Session) (w : World) : Bool × World :=
  (decide ((timeNow w).1 < s.ExpiresAt), (timeNow w).2)

/-- The method `User.GetFullName`. -/
def User.GetFullName (u : User) : String := u.FirstName ++ " " ++ u.LastName

/-! ## The MongoDB driver on the `users` collection -/

/-- Replaces the first document that satisfies `p` by its image under `f`. -/
def updateFirst (p : User → Bool) (f : User → User) : List User → List User
  | [] => []
  | u :: us => if p u then f u :: us else u :: updateFirst p f us

/-- Removes the first document that satisfies `p`. -/
def deleteFirst (p : User → Bool) : List User → List User
  | [] => []
  | u :: us => if p u then us else u :: deleteFirst p us

/-- The command `FindOne(filter).Decode`: the first matching document, or
`mongo.ErrNoDocuments`. -/
def mongoFindOne (w : World) (filter : User → Bool) : Except Err User × World :=
  if w.faulty then (.error (.driver "FindOne"), w.sent)
  else
    match w.users.find? filter with
    | some u => (.ok u, w.sent)
    | none => (.error .mongoNoDocuments, w.sent)

/-- The command `InsertOne`: refused with a duplicate-key error when a document has
the same `_id` or, by the unique index, the same `email`. -/
def mongoInsertOne (w : World) (u : User) : Option Err × World :=
  if w.faulty then (some (.driver "InsertOne"), w.sent)
  else if w.users.any (fun v => v.ID == u.ID || v.Email == u.Email) then
    (some .mongoDuplicateKey, w.sent)
  else (none, { w.sent with users := w.users ++ [u] })

/-- The command `UpdateOne(filter, update)`: applies `update` to the first matching
document and answers the matched count.  The unique index refuses an update that
moves the document to the `email` of another one. -/
def mongoUpdateOne (w : World) (filter : User → Bool) (update : User → User) :
    Except Err Nat × World :=
  if w.faulty then (.error (.driver "UpdateOne"), w.sent)
  else
    match w.users.find? filter with
    | none => (.ok 0, w.sent)
    | some u =>
      if (update u).Email ≠ u.Email ∧ w.users.any (fun v => v.Email == (update u).Email) = true then
        (.error .mongoDuplicateKey, w.sent)
      else (.ok 1, { w.sent with users := updateFirst filter update w.users })

/-- The command `DeleteOne(filter)`: answers the deleted count. -/
def mongoDeleteOne (w : World) (filter : User → Bool) : Except Err Nat × World :=
  if w.faulty then (.error (.driver "DeleteOne"), w.sent)
  else
    match w.users.find? filter with
    | none => (.ok 0, w.sent)
    | some _ => (.ok 1, { w.sent with users := deleteFirst filter w.users })

/-! ## The Redis client -/

/-- The constant `redis.KeepTTL`. -/
def KeepTTL : Int := -1

/-- The key `session:<id>` as the commands see it at the current instant. -/
def World.sessionAt (w : World) (id : String) : Option (Entry Session) :=
  match w.sessions id with
  | some e => if e.live w.now then some e else none
  | none => none

/-- The key `user_sessions:<user id>` as the commands see it at the current instant. -/
def World.userSessionsAt (w : World) (uid : String) : Option (Entry (List String)) :=
  match w.userSessions uid with
  | some e => if e.live w.now then some e else none
  | none => none

/-- Point update of a finite map. -/
def setKey {α : Type} (m : String → Option α) (k : String) (v : Option α) :
    String → Option α :=
  fun k' => if k' = k then v else m k'

/-- The command `GET session:<id>`; an absent key is `redis.Nil`. -/
def redisGet (w : World) (id : String) : Except Err Session × World :=
  if w.faulty then (.error (.driver "GET"), w.sent)
  else
    match w.sessionAt id with
    | some e => (.ok e.val, w.sent)
    | none => (.error .redisNil, w.sent)

/-- The function `usePrecise` of go-redis: whether a duration is sent in
milliseconds. -/
def usePrecise (dur : Int) : Bool := decide (dur < Second) || Int.tmod dur Second != 0

/-- The function `formatMs` of go-redis: the whole milliseconds of a duration, rounded
towards zero; a positive duration under one millisecond is sent as one. -/
def formatMs (dur : Int) : Int :=
  if 0 < dur ∧ dur < Millisecond then 1 else Int.tdiv dur Millisecond

/-- The function `formatSec` of go-redis: the whole seconds of a duration, rounded
towards zero; a positive duration under one second is sent as one. -/
def formatSec (dur : Int) : Int :=
  if 0 < dur ∧ dur < Second then 1 else Int.tdiv dur Second

/-- The call `client.Set(ctx, "session:<id>", value, expiration)`: a positive
expiration is sent as the key's time-to-live, with `PX` in milliseconds or with `EX`
in seconds; `KeepTTL` keeps the time-to-live the key has; every other expiration
leaves the key without one. -/
def redisSet (w : World) (id : String) (value : Session) (expiration : Int) :
    Option Err × World :=
  if w.faulty then (some (.driver "SET"), w.sent)
  else
    let deadline : Option Int :=
      if 0 < expiration then
        if usePrecise expiration then some (w.now + formatMs expiration * Millisecond)
        else some (w.now + formatSec expiration * Second)
      else if expiration = KeepTTL then
        match w.sessionAt id with
        | some e => e.deadline
        | none => none
      else none
    (none, { w.sent with sessions := setKey w.sessions id (some ⟨value, deadline⟩) })

/-- The command `DEL session:<id>`. -/
def redisDelSession (w : World) (id : String) : Option Err × World :=
  if w.faulty then (some (.driver "DEL"), w.sent)
  else (none, { w.sent with sessions := setKey w.sessions id none })

/-- The command `DEL user_sessions:<user id>`. -/
def redisDelUserSessions (w : World) (uid : String) : Option Err × World :=
  if w.faulty then (some (.driver "DEL"), w.sent)
  else (none, { w.sent with userSessions := setKey w.userSessions uid none })

/-- The command `SADD user_sessions:<user id> member`: a new set has no
time-to-live, an existing one keeps its own. -/
def redisSAdd (w : World) (uid member : String) : Option Err × World :=
  if w.faulty then (some (.driver "SADD"), w.sent)
  else
    match w.userSessionsAt uid with
    | some e =>
      (none, { w.sent with
        userSessions := setKey w.userSessions uid
          (some ⟨if member ∈ e.val then e.val else e.val ++ [member], e.deadline⟩) })
    | none =>
      (none, { w.sent with userSessions := setKey w.userSessions uid (some ⟨[member], none⟩) })

/-- The command `SREM user_sessions:<user id> member`; a set left empty is removed. -/
def redisSRem (w : World) (uid member : String) : Option Err × World :=
  if w.faulty then (some (.driver "SREM"), w.sent)
  else
    match w.userSessionsAt uid with
    | some e =>
      (none, { w.sent with
        userSessions := setKey w.userSessions uid
          (if e.val.erase member = [] then none else some ⟨e.val.erase member, e.deadline⟩) })
    | none => (none, w.sent)

/-- The call `client.Expire(ctx, "user_sessions:<user id>", expiration)`: the command
`EXPIRE` with the whole seconds of the expiration.  A positive number of seconds
becomes the key's time-to-live, any other deletes the key. -/
def redisExpire (w : World) (uid : String) (expiration : Int) : Option Err × World :=
  if w.faulty then (some (.driver "EXPIRE"), w.sent)
  else
    match w.userSessionsAt uid with
    | some e =>
      (none, { w.sent with
        userSessions := setKey w.userSessions uid
          (if 0 < formatSec expiration then
            some ⟨e.val, some (w.now + formatSec expiration * Second)⟩
          else none) })
    | none => (none, w.sent)

/-- The command `SMEMBERS user_sessions:<user id>`; an absent key is the empty set. -/
def redisSMembers (w : World) (uid : String) : Except Err (List String) × World :=
  if w.faulty then (.error (.driver "SMEMBERS"), w.sent)
  else
    match w.userSessionsAt uid with
    | some e => (.ok e.val, w.sent)
    | none => (.ok [], w.sent)

/-! ## `internal/repository/mongo_user_repository.go` -/

namespace mongoUserRepository

/-- The method `Create`.  The identifier, the two timestamps and the two flags are
written into the caller's record before the insertion, so the record is returned
as well. -/
def Create (w : World) (user : User) : Option Err × User × World :=
  let id := NewObjectID w
  let t1 := timeNow id.2
  let t2 := timeNow t1.2
  let user1 : User :=
    { user with
      ID := id.1, CreatedAt := t1.1, UpdatedAt := t2.1, IsActive := true, EmailVerified := false }
  let r := mongoInsertOne t2.2 user1
  match r.1 with
  | some e =>
    if e = .mongoDuplicateKey then
      (some (.new "user with this email already exists"), user1, r.2)
    else (some e, user1, r.2)
  | none => (none, user1, r.2)

/-- The method `GetByID`. -/
def GetByID (w : World) (id : String) : Except Err User × World :=
  match ObjectIDFromHex id with
  | none => (.error (.new "invalid user ID"), w)
  | some objectID =>
    let r := mongoFindOne w (fun u => u.ID == objectID)
    match r.1 with
    | .error e =>
      if e = .mongoNoDocuments then (.error (.new "user not found"), r.2) else (.error e, r.2)
    | .ok user => (.ok user, r.2)

/-- The method `GetByEmail`. -/
def GetByEmail (w : World) (email : String) : Except Err User × World :=
  let r := mongoFindOne w (fun u => u.Email == email)
  match r.1 with
  | .error e =>
    if e = .mongoNoDocuments then (.error (.new "user not found"), r.2) else (.error e, r.2)
  | .ok user => (.ok user, r.2)

/-- The method `Update`: the whole record is written over the document with its
identifier. -/
def Update (w : World) (user : User) : Option Err × World :=
  let t := timeNow w
  let user1 : User := { user with UpdatedAt := t.1 }
  let r := mongoUpdateOne t.2 (fun u => u.ID == user1.ID) (fun _ => user1)
  match r.1 with
  | .error e => (some e, r.2)
  | .ok matched => if matched = 0 then (some (.new "user not found"), r.2) else (none, r.2)

/-- The method `Delete`. -/
def Delete (w : World) (id : String) : Option Err × World :=
  match ObjectIDFromHex id with
  | none => (some (.new "invalid user ID"), w)
  | some objectID =>
    let r := mongoDeleteOne w (fun u => u.ID == objectID)
    match r.1 with
    | .error e => (some e, r.2)
    | .ok deleted => if deleted = 0 then (some (.new "user not found"), r.2) else (none, r.2)

/-- The method `UpdateLastLogin`. -/
def UpdateLastLogin (w : World) (id : String) : Option Err × World :=
  match ObjectIDFromHex id with
  | none => (some (.new "invalid user ID"), w)
  | some objectID =>
    let t := timeNow w
    let r := mongoUpdateOne t.2 (fun u => u.ID == objectID)
      (fun u => { u with LastLogin := some t.1, UpdatedAt := t.1 })
    match r.1 with
    | .error e => (some e, r.2)
    | .ok matched => if matched = 0 then (some (.new "user not found"), r.2) else (none, r.2)

/-- The method `SetPasswordResetToken`. -/
def SetPasswordResetToken (w : World) (email token : String) (expiry : Int) :
    Option Err × World :=
  let expiryTime := timeUnix expiry
  let t := timeNow w
  let r := mongoUpdateOne t.2 (fun u => u.Email == email)
    (fun u => { u with
      PasswordResetToken := some token, PasswordResetExpiry := some expiryTime,
      UpdatedAt := t.1 })
  match r.1 with
  | .error e => (some e, r.2)
  | .ok matched => if matched = 0 then (some (.new "user not found"), r.2) else (none, r.2)

/-- The filter of `GetByPasswordResetToken`: the stored token is the given one and
the stored expiry is strictly later than `now`. -/
def resetTokenFilter (token : String) (now : Int) (u : User) : Bool :=
  u.PasswordResetToken == some token &&
    (match u.PasswordResetExpiry with
     | some expiry => decide (now < expiry)
     | none => false)

/-- The method `GetByPasswordResetToken`. -/
def GetByPasswordResetToken (w : World) (token : String) : Except Err User × World :=
  let t := timeNow w
  let r := mongoFindOne t.2 (resetTokenFilter token t.1)
  match r.1 with
  | .error e =>
    if e = .mongoNoDocuments then (.error (.new "invalid or expired reset token"), r.2)
    else (.error e, r.2)
  | .ok user => (.ok user, r.2)

/-- The method `ClearPasswordResetToken`. -/
def ClearPasswordResetToken (w : World) (id : String) : Option Err × World :=
  match ObjectIDFromHex id with
  | none => (some (.new "invalid user ID"), w)
  | some objectID =>
    let t := timeNow w
    let r := mongoUpdateOne t.2 (fun u => u.ID == objectID)
      (fun u => { u with
        PasswordResetToken := none, PasswordResetExpiry := none, UpdatedAt := t.1 })
    match r.1 with
    | .error e => (some e, r.2)
    | .ok matched => if matched = 0 then (some (.new "user not found"), r.2) else (none, r.2)

end mongoUserRepository

/-! ## `internal/repository/redis_session_repository.go` -/

namespace redisSessionRepository

/-- The method `Create`. -/
def Create (w : World) (session : Session) : Option Err × World :=
  let t := timeNow w
  let duration : Int := session.ExpiresAt - t.1
  let r1 := redisSet t.2 session.ID session duration
  match r1.1 with
  | some e => (some e, r1.2)
  | none =>
    let r2 := redisSAdd r1.2 session.UserID session.ID
    match r2.1 with
    | some e => (some e, r2.2)
    | none =>
      let r3 := redisExpire r2.2 session.UserID duration
      match r3.1 with
      | some e => (some e, r3.2)
      | none => (none, r3.2)

mutual

/-- The method `Get`.  An entry that is stored but no longer valid is handed to
`Delete` before the answer `session expired`. -/
def Get : Nat → World → String → Option (Except Err Session × World)
  | 0, _, _ => none
  | fuel + 1, w, sessionID =>
    match (redisGet w sessionID).1 with
    | .error e =>
      if e = .redisNil then some (.error (.new "session not found"), (redisGet w sessionID).2)
      else some (.error e, (redisGet w sessionID).2)
    | .ok session =>
      if (session.IsValid (redisGet w sessionID).2).1 then
        some (.ok session, (session.IsValid (redisGet w sessionID).2).2)
      else
        match Delete fuel (session.IsValid (redisGet w sessionID).2).2 sessionID with
        | none => none
        | some r => some (.error (.new "session expired"), r.2)

/-- The method `Delete`.  It asks `Get` for the session to learn its owner; any error
of `Get` counts as "already deleted". -/
def Delete : Nat → World → String → Option (Option Err × World)
  | 0, _, _ => none
  | fuel + 1, w, sessionID =>
    match Get fuel w sessionID with
    | none => none
    | some r =>
      match r.1 with
      | .error _ => some (none, r.2)
      | .ok session =>
        some (redisDelSession (redisSRem r.2 session.UserID sessionID).2 sessionID)

end

/-- The method `DeleteAllUserSessions`; the results of the individual deletions are
dropped. -/
def DeleteAllUserSessions (w : World) (userID : String) : Option Err × World :=
  let r := redisSMembers w userID
  match r.1 with
  | .error e => (some e, r.2)
  | .ok sessionIDs =>
    redisDelUserSessions
      (sessionIDs.foldl (fun w2 sessionID => (redisDelSession w2 sessionID).2) r.2) userID

/-- The method `Update`. -/
def Update (w : World) (session : Session) : Option Err × World :=
  let t := timeNow w
  redisSet t.2 session.ID session (session.ExpiresAt - t.1)

end redisSessionRepository

/-! ## `internal/service` -/

/-- The type `service.RegisterRequest`. -/
structure RegisterRequest where
  Email : String
  Password : String
  FirstName : String
  LastName : String
  Role : UserRole
deriving DecidableEq, Repr

/-- The type `service.LoginRequest`. -/
structure LoginRequest where
  Email : String
  Password : String
deriving DecidableEq, Repr

/-- The type `service.ResetPasswordRequest`. -/
structure ResetPasswordRequest where
  Token : String
  NewPassword : String
deriving DecidableEq, Repr

/-- The type `service.UserResponse`. -/
structure UserResponse where
  ID : String
  Email : String
  FirstName : String
  LastName : String
  Role : UserRole
  IsActive : Bool
  EmailVerified : Bool
  CreatedAt : Int
deriving DecidableEq, Repr

/-- The type `service.AuthResponse`. -/
structure AuthResponse where
  User : UserResponse
  Token : String
  SessionID : String
  ExpiresAt : Int
deriving DecidableEq, Repr

/-- The function `ToUserResponse`. -/
def ToUserResponse (user : User) : UserResponse :=
  { ID := user.ID.Hex, Email := user.Email, FirstName := user.FirstName,
    LastName := user.LastName, Role := user.Role, IsActive := user.IsActive,
    EmailVerified := user.EmailVerified, CreatedAt := Unix user.CreatedAt }

/-- The errors the service builds itself, by their message. -/
def ErrEmailTaken : Err := .new "user with this email already exists"
def ErrInvalidCredentials : Err := .new "invalid email or password"
def ErrAccountDeactivated : Err := .new "account is deactivated"
def ErrUserDeactivated : Err := .new "user account is deactivated"
def ErrInvalidOrExpiredToken : Err := .new "invalid or expired reset token"
def ErrSessionNotFound : Err := .new "session not found"
def ErrSessionExpired : Err := .new "session expired"
def ErrWeakPassword : Err := .new "password must be at least 8 characters long"

namespace authService

/-- The session literal that `Register` and `Login` build: a fresh identifier, then
two successive readings of the clock, the second one shifted by the configured
lifetime. -/
def newSession (deps : Deps) (w : World) (user : User) : Session × World :=
  let id := uuidNew w
  let t1 := timeNow id.2
  let t2 := timeNow t1.2
  ({ ID := id.1, UserID := user.ID.Hex, Email := user.Email, Role := user.Role,
     CreatedAt := t1.1, ExpiresAt := t2.1 + deps.config.SessionExpiresIn }, t2.2)

/-- The common tail of `Register` and `Login`: sign the token, build the session,
store it, answer. -/
def issue (deps : Deps) (w : World) (user : User) : Except Err AuthResponse × World :=
  match deps.GenerateJWT user deps.config.JWTSecret deps.config.JWTExpiresIn with
  | .error e => (.error (.wrap "failed to generate token" e), w)
  | .ok token =>
    let s := newSession deps w user
    let r := redisSessionRepository.Create s.2 s.1
    match r.1 with
    | some e => (.error (.wrap "failed to create session" e), r.2)
    | none =>
      (.ok { User := ToUserResponse user, Token := token, SessionID := s.1.ID,
             ExpiresAt := Unix s.1.ExpiresAt }, r.2)

/-- The method `Register`. -/
def Register (deps : Deps) (w : World) (req : RegisterRequest) :
    Except Err AuthResponse × World :=
  let r1 := mongoUserRepository.GetByEmail w req.Email
  match r1.1 with
  | .ok _ => (.error (.new "user with this email already exists"), r1.2)
  | .error _ =>
    if !req.Role.IsValid then (.error (.new "invalid role"), r1.2)
    else
      let r2 := utils.HashPassword deps r1.2 req.Password
      match r2.1 with
      | .error e => (.error (.wrap "failed to hash password" e), r2.2)
      | .ok hashedPassword =>
        let r3 := mongoUserRepository.Create r2.2
          { ID := ⟨"000000000000000000000000"⟩, Email := req.Email,
            Password := hashedPassword, FirstName := req.FirstName,
            LastName := req.LastName, Role := req.Role, IsActive := false,
            EmailVerified := false, LastLogin := none, PasswordResetToken := none,
            PasswordResetExpiry := none, CreatedAt := 0, UpdatedAt := 0 }
        match r3.1 with
        | some e => (.error (.wrap "failed to create user" e), r3.2.2)
        | none => issue deps r3.2.2 r3.2.1

/-- The method `Login`. -/
def Login (deps : Deps) (w : World) (req : LoginRequest) : Except Err AuthResponse × World :=
  let r := mongoUserRepository.GetByEmail w req.Email
  match r.1 with
  | .error _ => (.error (.new "invalid email or password"), r.2)
  | .ok user =>
    if !user.IsActive then (.error (.new "account is deactivated"), r.2)
    else if !utils.CheckPassword deps req.Password user.Password then
      (.error (.new "invalid email or password"), r.2)
    else
      issue deps (mongoUserRepository.UpdateLastLogin r.2 user.ID.Hex).2 user

/-- The method `Logout`. -/
def Logout (fuel : Nat) (w : World) (sessionID : String) : Option (Option Err × World) :=
  redisSessionRepository.Delete fuel w sessionID

/-- The method `RequestPasswordReset`. -/
def RequestPasswordReset (deps : Deps) (w : World) (email : String) : Option Err × World :=
  let r1 := mongoUserRepository.GetByEmail w email
  match r1.1 with
  | .error _ => (none, r1.2)
  | .ok user =>
    let r2 := utils.GenerateRandomToken r1.2 32
    match r2.1 with
    | .error e => (some (.wrap "failed to generate reset token" e), r2.2)
    | .ok token =>
      let t := timeNow r2.2
      let expiry := Unix (t.1 + deps.config.PasswordResetExpiresIn)
      let r3 := mongoUserRepository.SetPasswordResetToken t.2 user.Email token expiry
      match r3.1 with
      | some e => (some (.wrap "failed to save reset token" e), r3.2)
      | none => (none, r3.2)

/-- The method `ResetPassword`. -/
def ResetPassword (deps : Deps) (w : World) (req : ResetPasswordRequest) :
    Option Err × World :=
  let r1 := mongoUserRepository.GetByPasswordResetToken w req.Token
  match r1.1 with
  | .error _ => (some (.new "invalid or expired reset token"), r1.2)
  | .ok user =>
    let r2 := utils.HashPassword deps r1.2 req.NewPassword
    match r2.1 with
    | .error e => (some (.wrap "failed to hash password" e), r2.2)
    | .ok hashedPassword =>
      let r3 := mongoUserRepository.Update r2.2 { user with Password := hashedPassword }
      match r3.1 with
      | some e => (some (.wrap "failed to update password" e), r3.2)
      | none =>
        let r4 := mongoUserRepository.ClearPasswordResetToken r3.2 user.ID.Hex
        match r4.1 with
        | some e => (some (.wrap "failed to clear reset token" e), r4.2)
        | none => (none, (redisSessionRepository.DeleteAllUserSessions r4.2 user.ID.Hex).2)

/-- The method `GetSession`. -/
def GetSession (fuel : Nat) (w : World) (sessionID : String) :
    Option (Except Err Session × World) :=
  redisSessionRepository.Get fuel w sessionID

/-- The method `ValidateSession`. -/
def ValidateSession (fuel : Nat) (w : World) (sessionID : String) :
    Option (Except Err User × World) :=
  match redisSessionRepository.Get fuel w sessionID with
  | none => none
  | some r1 =>
    match r1.1 with
    | .error e => some (.error e, r1.2)
    | .ok session =>
      let r2 := mongoUserRepository.GetByID r1.2 session.UserID
      match r2.1 with
      | .error e => some (.error e, r2.2)
      | .ok user =>
        if !user.IsActive then some (.error (.new "user account is deactivated"), r2.2)
        else some (.ok user, r2.2)

end authService

/-! ## `internal/middleware/auth.go` -/

namespace strings

/-- The function `strings.HasPrefix`. -/
def HasPrefix (s pre : String) : Bool := pre.data.isPrefixOf s.data

/-- The function `strings.TrimPrefix`. -/
def TrimPrefix (s pre : String) : String :=
  if HasPrefix s pre then String.mk (s.data.drop pre.data.length) else s

end strings

namespace echo

/-- What the middleware reads of a request through `echo.Context`. -/
structure Context where
  /-- The call `c.Request().Header.Get(name)`: the first value of the header, the empty
  string without one. -/
  header : String → String
  /-- The call `c.Cookie(name)`: the value of the first cookie of that name, `none` for
  `http.ErrNoCookie`. -/
  cookie : String → Option String
  /-- The call `c.QueryParam(name)`: the first value of the parameter, the empty string
  without one. -/
  queryParam : String → String

end echo

namespace middleware

/-- The function `getSessionID`. -/
def getSessionID (c : echo.Context) : String :=
  let sessionID := c.header "X-Session-ID"
  if sessionID != "" then sessionID
  else
    let auth := c.header "Authorization"
    if auth != "" && strings.HasPrefix auth "Bearer " then strings.TrimPrefix auth "Bearer "
    else
      match c.cookie "session_id" with
      | some value => if value != "" then value else c.queryParam "session_id"
      | none => c.queryParam "session_id"

/-- The identifier an `Authorization` header carries, in the words of the
specification: what follows `Bearer `, and none for every other header. -/
def bearerToken (auth : String) : String :=
  if strings.HasPrefix auth "Bearer " then String.mk (auth.data.drop 7) else ""

/-- The first string of the list that is not empty, the empty string when there is
none. -/
def firstNonEmpty : List String → String
  | [] => ""
  | s :: rest => if s != "" then s else firstNonEmpty rest

/-- The session identifier in the words of the specification: the first one that is
not empty among the four sources in their order of priority, and the empty string
when none of them carries one. -/
def firstIdentifier (c : echo.Context) : String :=
  firstNonEmpty [c.header "X-Session-ID", bearerToken (c.header "Authorization"),
    (c.cookie "session_id").getD "", c.queryParam "session_id"]

end middleware

/-! ## Sequences of calls -/

/-- A call of the service. -/
inductive Op where
  | register (req : RegisterRequest)
  | login (req : LoginRequest)
  | logout (fuel : Nat) (sessionID : String)
  | requestPasswordReset (email : String)
  | resetPassword (req : ResetPasswordRequest)
  | getSession (fuel : Nat) (sessionID : String)
  | validateSession (fuel : Nat) (sessionID : String)

/-- The world after a call that may not return: when it does not, the process is
lost, and the stores, which live outside it, are as they were. -/
def afterCall {α : Type} (w : World) : Option (α × World) → World
  | some r => r.2
  | none => w

/-- The world after one call of the service. -/
def step (deps : Deps) (w : World) : Op → World
  | .register req => (authService.Register deps w req).2
  | .login req => (authService.Login deps w req).2
  | .logout fuel sessionID => afterCall w (authService.Logout fuel w sessionID)
  | .requestPasswordReset email => (authService.RequestPasswordReset deps w email).2
  | .resetPassword req => (authService.ResetPassword deps w req).2
  | .getSession fuel sessionID => afterCall w (authService.GetSession fuel w sessionID)
  | .validateSession fuel sessionID =>
    afterCall w (authService.ValidateSession fuel w sessionID)

/-- The world after a sequence of calls. -/
def run (deps : Deps) (w : World) (ops : List Op) : World := ops.foldl (step deps) w

/-- What every call keeps of the environment it starts from: the clock does not go
back, the coming ticks are among those that were coming, and a schedule without
failures stays without failures. -/
structure Env (w w' : World) : Prop where
  now_le : w.now ≤ w'.now
  ticks : ∀ k ∈ w'.ticks, k ∈ w.ticks
  faults : w.faults = [] → w'.faults = []

/-- The call left both Redis maps as they were. -/
structure SameRedis (w w' : World) : Prop where
  sessions : w'.sessions = w.sessions
  userSessions : w'.userSessions = w.userSessions

/-- Some user document has the address. -/
def HasEmail (users : List User) (email : String) : Prop := ∃ u ∈ users, u.Email = email

/-- The invariant of the session store under sequences of `Create`: no stored session
expires later than `bound`; and as long as a stored session has a second or more to
live, its id is listed in the index of its user, a key that expires less than a
second before the session does. -/
def Listed (bound : Int) (w : World) : Prop :=
  ∀ (id : String) (e : Entry Session), w.sessions id = some e →
    e.val.ExpiresAt ≤ bound ∧
    (w.now + Second ≤ e.val.ExpiresAt →
      ∃ ie : Entry (List String), w.userSessions e.val.UserID = some ie ∧ id ∈ ie.val ∧
        ∀ d, ie.deadline = some d → e.val.ExpiresAt < d + Second)

/-- The invariant of the session store under the calls of the service: `Listed`, with
no stored session expiring later than one lifetime from the current instant. -/
def Indexed (lifetime : Int) (w : World) : Prop := Listed (w.now + lifetime) w

/-- The call left the clock as it was: no reading in between. -/
def SameClock (w w' : World) : Prop := w'.now = w.now ∧ w'.ticks = w.ticks

/-- The entry of the id is stale: at the next reading of the clock the key
`session:<id>` is still present although the session it holds has expired. -/
def Stale (w : World) (id : String) : Prop :=
  ∃ e, w.tick.sessionAt id = some e ∧ e.val.ExpiresAt ≤ w.tick.now

/-- The command at position `i`, counting from 0 the store commands sent after `w`,
was sent before `w'` and failed in the driver. -/
def FailedAt (i : Nat) (w w' : World) : Prop :=
  w.faults[i]? = some true ∧ w'.faults.length + i < w.faults.length

/-! ## Sample data

Concrete dependencies, users and worlds on which the statements below are
evaluated. -/

/-- A stand-in for `bcrypt`: the hash is the password behind a fixed tag.  The
configuration holds the defaults of `config.Load`. -/
def sampleDeps : Deps :=
  { config :=
      { JWTSecret := "your-super-secret-jwt-key", JWTExpiresIn := 86400 * Second,
        SessionExpiresIn := 7200 * Second, PasswordResetExpiresIn := 3600 * Second },
    bcryptGenerate := fun _ password => .ok ("$2a$" ++ password),
    bcryptCompare := fun hash password => hash == "$2a$" ++ password,
    GenerateJWT := fun user _ _ => .ok ("jwt:" ++ user.ID.Hex) }

/-- No user, no session, a clock that stands still at 0 and no failure. -/
def emptyWorld : World :=
  { users := [], sessions := fun _ => none, userSessions := fun _ => none, now := 0,
    ticks := [], faults := [], uuids := [], objectIDs := [], entropy := [], randFaults := [] }

/-- An active account whose password is `pw12345678`. -/
def alice : User :=
  { ID := ⟨"00000000000000000000000a"⟩, Email := "a@x.com", Password := "$2a$pw12345678",
    FirstName := "A", LastName := "B", Role := RoleStaff, IsActive := true,
    EmailVerified := false, LastLogin := none, PasswordResetToken := none,
    PasswordResetExpiry := none, CreatedAt := 0, UpdatedAt := 0 }

/-- A deactivated account whose password is `pw12345678`. -/
def bob : User :=
  { ID := ⟨"00000000000000000000000b"⟩, Email := "b@x.com", Password := "$2a$pw12345678",
    FirstName := "B", LastName := "C", Role := RoleTherapist, IsActive := false,
    EmailVerified := false, LastLogin := none, PasswordResetToken := none,
    PasswordResetExpiry := none, CreatedAt := 0, UpdatedAt := 0 }

/-- The two accounts, at instant 1000, with a clock that advances by one at each
reading. -/
def twoUsers : World :=
  { emptyWorld with
    users := [alice, bob], now := 1000, ticks := [1, 1, 1, 1, 1, 1, 1, 1],
    uuids := ["s1", "s2", "s3"], objectIDs := [⟨"00000000000000000000000d"⟩] }

/-- A session of `alice` whose expiry instant, 500, lies in the past of `staleWorld`. -/
def staleSession : Session :=
  { ID := "s1", UserID := "00000000000000000000000a", Email := "a@x.com",
    Role := RoleStaff, CreatedAt := 400, ExpiresAt := 500 }

/-- At instant 1000 the key `session:s1` still holds `staleSession`; the key has no
time-to-live. -/
def staleWorld : World :=
  { emptyWorld with
    users := [alice], now := 1000,
    sessions := fun k => if k = "s1" then some ⟨staleSession, none⟩ else none }

/-- An active account that holds the reset token `tok`, good until instant 5000. -/
def carol : User :=
  { ID := ⟨"00000000000000000000000c"⟩, Email := "c@x.com", Password := "$2a$oldpassword",
    FirstName := "C", LastName := "D", Role := RoleAdmin, IsActive := true,
    EmailVerified := false, LastLogin := none, PasswordResetToken := some "tok",
    PasswordResetExpiry := some 5000, CreatedAt := 0, UpdatedAt := 0 }

/-- The accounts `alice` and `carol` at the given instant, with a clock that advances
by one at each reading and an empty session store. -/
def carolWorld (now : Int) : World :=
  { emptyWorld with users := [alice, carol], now := now, ticks := [1, 1, 1, 1, 1, 1, 1, 1] }

/-- A session of `bob`, good until instant 8000. -/
def bobSession : Session :=
  { ID := "b1", UserID := "00000000000000000000000b", Email := "b@x.com",
    Role := RoleTherapist, CreatedAt := 900, ExpiresAt := 8000 }

/-- The world `twoUsers` with `bobSession` stored under `b1` and listed in the index of
`bob`, both keys living until instant 8000. -/
def bobSessionWorld : World :=
  { twoUsers with
    sessions := fun k => if k = "b1" then some ⟨bobSession, some 8000⟩ else none
    userSessions := fun k =>
      if k = "00000000000000000000000b" then some ⟨["b1"], some 8000⟩ else none }

/-- A registration for an address that neither `alice` nor `bob` has. -/
def newcomer : RegisterRequest :=
  { Email := "n@x.com", Password := "pw12345678", FirstName := "N", LastName := "M",
    Role := RoleStaff }

/-- The answer of `Register` to `newcomer` in the world `twoUsers`. -/
def newcomerResponse : AuthResponse :=
  { User :=
      { ID := "00000000000000000000000d", Email := "n@x.com", FirstName := "N",
        LastName := "M", Role := RoleStaff, IsActive := true, EmailVerified := false,
        CreatedAt := 0 },
    Token := "jwt:00000000000000000000000d", SessionID := "s1", ExpiresAt := 7200 }

/-- The dependencies `sampleDeps` with a session lifetime of zero
(`SESSION_EXPIRES_IN=0s`). -/
def zeroLifetimeDeps : Deps :=
  { sampleDeps with config := { sampleDeps.config with SessionExpiresIn := 0 } }

/-- A request whose `Authorization` header is `Bearer ` followed by nothing, and whose
cookie `session_id` is `abc`. -/
def bearerOnly : echo.Context :=
  { header := fun name => if name = "Authorization" then "Bearer " else "",
    cookie := fun name => if name = "session_id" then some "abc" else none,
    queryParam := fun _ => "" }

/-- The dependencies `sampleDeps` with a negative session lifetime
(`SESSION_EXPIRES_IN=-1h`). -/
def negativeLifetimeDeps : Deps :=
  { sampleDeps with config := { sampleDeps.config with SessionExpiresIn := -3600 * Second } }

@[simp] theorem sent_users (w : World) : w.sent.users = w.users := rfl
@[simp] theorem sent_sessions (w : World) : w.sent.sessions = w.sessions := rfl
@[simp] theorem sent_userSessions (w : World) : w.sent.userSessions = w.userSessions := rfl
@[simp] theorem sent_now (w : World) : w.sent.now = w.now := rfl
@[simp] theorem sent_ticks (w : World) : w.sent.ticks = w.ticks := rfl
@[simp] theorem tick_users (w : World) : w.tick.users = w.users := rfl
@[simp] theorem tick_sessions (w : World) : w.tick.sessions = w.sessions := rfl
@[simp] theorem tick_userSessions (w : World) : w.tick.userSessions = w.userSessions := rfl
@[simp] theorem tick_faults (w : World) : w.tick.faults = w.faults := rfl

theorem tick_now (w : World) : w.tick.now = w.now + ((w.ticks.headD 0 : Nat) : Int) := rfl

theorem tick_now_ge (w : World) : w.now ≤ w.tick.now := by
  rw [tick_now]
  omega

theorem faulty_of_no_faults {w : World} (h : w.faults = []) : w.faulty = false := by
  simp [World.faulty, h]

theorem sent_of_no_faults {w : World} (h : w.faults = []) : w.sent = w := by
  cases w
  simp_all [World.sent]

/-! ## The lookup by e-mail -/

/-- The method `GetByEmail` consumes one command; it answers an error or the first
document with the address. -/
theorem GetByEmail_cases (w : World) (email : String) :
    (mongoUserRepository.GetByEmail w email).2 = w.sent ∧
    ((∃ e, (mongoUserRepository.GetByEmail w email).1 = .error e) ∨
      ∃ u, (mongoUserRepository.GetByEmail w email).1 = .ok u ∧
        w.users.find? (fun u => u.Email == email) = some u) := by
  unfold mongoUserRepository.GetByEmail mongoFindOne
  by_cases hf : w.faulty = true
  · simp [hf]
  · cases hfind : w.users.find? (fun u => u.Email == email) <;> simp [hf, hfind]

/-- The method `GetByEmail` when the command is answered and a document has the
address. -/
theorem GetByEmail_found (w : World) (email : String) (u : User) (hf : w.faulty = false)
    (h : w.users.find? (fun u => u.Email == email) = some u) :
    (mongoUserRepository.GetByEmail w email).1 = .ok u := by
  simp [mongoUserRepository.GetByEmail, mongoFindOne, hf, h]

/-! ## C1: the outcome of a failed login -/

/-- C1, by the letter, fails: for the deactivated account `bob` a wrong password is
answered `account is deactivated`, not `invalid email or password`; the active flag
is examined before the password. -/
theorem Login_deactivated_wrong_password :
    twoUsers.users.find? (fun u => u.Email == "b@x.com") = some bob ∧
    bob.IsActive = false ∧
    utils.CheckPassword sampleDeps "wrongpw" bob.Password = false ∧
    (authService.Login sampleDeps twoUsers ⟨"b@x.com", "wrongpw"⟩).1
      = .error ErrAccountDeactivated ∧
    (authService.Login sampleDeps twoUsers ⟨"b@x.com", "wrongpw"⟩).1
      ≠ .error ErrInvalidCredentials := by
  decide

/-- C1, amended: whenever the lookup by e-mail yields no user, or yields an active
user whose stored hash the password does not verify against, `Login` fails with the
one error `invalid email or password`, whatever the schedule of driver failures, and
leaves the user documents and the session store as they were.  When the lookup is
answered with a deactivated user, `Login` fails with `account is deactivated`
whatever the password, and likewise changes nothing. -/
theorem Login_invalid_credentials (deps : Deps) (w : World) (req : LoginRequest) :
    ((∀ u, w.users.find? (fun u => u.Email == req.Email) = some u →
        u.IsActive = true ∧ utils.CheckPassword deps req.Password u.Password = false) →
      (authService.Login deps w req).1 = .error ErrInvalidCredentials ∧
        (authService.Login deps w req).2.users = w.users ∧
        (authService.Login deps w req).2.sessions = w.sessions ∧
        (authService.Login deps w req).2.userSessions = w.userSessions) ∧
    (∀ u, w.faulty = false → w.users.find? (fun u => u.Email == req.Email) = some u →
      u.IsActive = false →
      (authService.Login deps w req).1 = .error ErrAccountDeactivated ∧
        (authService.Login deps w req).2.users = w.users ∧
        (authService.Login deps w req).2.sessions = w.sessions ∧
        (authService.Login deps w req).2.userSessions = w.userSessions) := by
  constructor
  · intro h
    obtain ⟨hw, hcase⟩ := GetByEmail_cases w req.Email
    rcases hcase with ⟨e, he⟩ | ⟨u, hu, hfind⟩
    · simp [authService.Login, he, hw, ErrInvalidCredentials]
    · obtain ⟨ha, hp⟩ := h u hfind
      simp [authService.Login, hu, hw, ErrInvalidCredentials, ha, hp]
  · intro u hf hfind hact
    have hget := GetByEmail_found w req.Email u hf hfind
    have hw := (GetByEmail_cases w req.Email).1
    simp [authService.Login, hget, hw, hact, ErrAccountDeactivated]

/-- C1, amended, at work: a wrong password for the active account `alice` and any
password for an address nobody has are answered alike; the deactivated account `bob`
is answered `account is deactivated`. -/
theorem Login_invalid_credentials_witness :
    twoUsers.users.find? (fun u => u.Email == "a@x.com") = some alice ∧
    twoUsers.users.find? (fun u => u.Email == "nobody@x.com") = none ∧
    (authService.Login sampleDeps twoUsers ⟨"a@x.com", "wrongpw"⟩).1
      = .error ErrInvalidCredentials ∧
    (authService.Login sampleDeps twoUsers ⟨"nobody@x.com", "wrongpw"⟩).1
      = .error ErrInvalidCredentials ∧
    (authService.Login sampleDeps twoUsers ⟨"b@x.com", "pw12345678"⟩).1
      = .error ErrAccountDeactivated :=
  ⟨by decide, by decide,
   ((Login_invalid_credentials sampleDeps twoUsers ⟨"a@x.com", "wrongpw"⟩).1 (by
      intro u hu
      have h0 : twoUsers.users.find? (fun u => u.Email == "a@x.com") = some alice := by decide
      have hu' : twoUsers.users.find? (fun u => u.Email == "a@x.com") = some u := hu
      rw [h0] at hu'
      cases hu'
      decide)).1,
   ((Login_invalid_credentials sampleDeps twoUsers ⟨"nobody@x.com", "wrongpw"⟩).1 (by
      intro u hu
      have h0 : twoUsers.users.find? (fun u => u.Email == "nobody@x.com") = none := by decide
      have hu' : twoUsers.users.find? (fun u => u.Email == "nobody@x.com") = some u := hu
      rw [h0] at hu'
      cases hu')).1,
   ((Login_invalid_credentials sampleDeps twoUsers ⟨"b@x.com", "pw12345678"⟩).2 bob
      (by decide) (by decide) (by decide)).1⟩

/-! ## C2: reading an entry that is stored but has expired -/

/-- As long as no command fails, `Get` and `Delete` never return on an entry that is
stored without a time-to-live and whose expiry instant has passed: `Get` finds the
entry invalid and calls `Delete`, which calls `Get` on the same, unchanged entry. -/
theorem Get_Delete_stale (fuel : Nat) :
    ∀ (w : World) (id : String) (e : Entry Session),
      w.sessions id = some e → e.deadline = none → e.val.ExpiresAt ≤ w.now → w.faults = [] →
      redisSessionRepository.Get fuel w id = none ∧
        redisSessionRepository.Delete fuel w id = none := by
  induction fuel with
  | zero => intro w id e _ _ _ _; exact ⟨rfl, rfl⟩
  | succ n ih =>
    intro w id e hs hd hexp hf
    have hget : redisGet w id = (.ok e.val, w) := by
      simp [redisGet, faulty_of_no_faults hf, sent_of_no_faults hf, World.sessionAt, hs,
        Entry.live, hd]
    have hvalid : (e.val.IsValid w).1 = false := by
      have := tick_now_ge w
      simp [Session.IsValid, timeNow]
      omega
    have hw2 : (e.val.IsValid w).2 = w.tick := rfl
    have ih' := ih w.tick id e (by simpa using hs) hd (le_trans hexp (tick_now_ge w))
      (by simpa using hf)
    constructor
    · simp [redisSessionRepository.Get, hget, hvalid, hw2, ih'.2]
    · simp [redisSessionRepository.Delete, (ih w id e hs hd hexp hf).1]

/-- C2 on the code: in `staleWorld` the entry `s1` is stored and its expiry instant
has passed, yet `Get`, and with it `GetSession` and `ValidateSession`, returns
nothing, whatever the fuel: neither `session expired` nor a deletion is reached. -/
theorem Get_stale_entry_never_returns (fuel : Nat) :
    staleWorld.sessions "s1" = some ⟨staleSession, none⟩ ∧
      staleSession.ExpiresAt ≤ staleWorld.now ∧
      redisSessionRepository.Get fuel staleWorld "s1" = none ∧
      authService.GetSession fuel staleWorld "s1" = none ∧
      authService.ValidateSession fuel staleWorld "s1" = none := by
  have h := (Get_Delete_stale fuel staleWorld "s1" ⟨staleSession, none⟩ rfl rfl
    (by decide) rfl).1
  exact ⟨rfl, by decide, h, h, by simp [authService.ValidateSession, h]⟩

/-- A stored, expired entry without time-to-live is within reach of the service: with
a session lifetime of zero, `Register` succeeds and stores the session `s1` of
`newcomer` already expired and, the expiration handed to `client.Set` not being
positive, without time-to-live; `GetSession` and `ValidateSession` then never return
for `s1`. -/
theorem Register_zero_lifetime_stale (fuel : Nat) :
    ((authService.Register zeroLifetimeDeps twoUsers newcomer).1.map
      (fun r => r.SessionID)) = .ok "s1" ∧
    ((authService.Register zeroLifetimeDeps twoUsers newcomer).2.sessions "s1").map
      (fun e => (e.val.ExpiresAt, e.deadline)) = some (1004, none) ∧
    (authService.Register zeroLifetimeDeps twoUsers newcomer).2.now = 1005 ∧
    authService.GetSession fuel
      (authService.Register zeroLifetimeDeps twoUsers newcomer).2 "s1" = none ∧
    authService.ValidateSession fuel
      (authService.Register zeroLifetimeDeps twoUsers newcomer).2 "s1" = none := by
  have hs : (authService.Register zeroLifetimeDeps twoUsers newcomer).2.sessions "s1"
      = some ⟨{ ID := "s1", UserID := "00000000000000000000000d", Email := "n@x.com",
                Role := RoleStaff, CreatedAt := 1003, ExpiresAt := 1004 }, none⟩ := by
    decide
  have h := (Get_Delete_stale fuel _ "s1" _ hs rfl (by decide) (by decide)).1
  exact ⟨by decide, by decide, by decide, h, by simp [authService.ValidateSession, h]⟩

/-! ## C5: a reset with a token that is unknown or no longer good -/

@[simp] theorem tick_faulty (w : World) : w.tick.faulty = w.faulty := rfl

/-- The method `GetByPasswordResetToken` in closed form: one reading of the clock, one
command. -/
theorem GetByPasswordResetToken_eq (w : World) (token : String) :
    mongoUserRepository.GetByPasswordResetToken w token =
      if w.faulty = true then (.error (.driver "FindOne"), w.tick.sent)
      else
        match w.users.find? (mongoUserRepository.resetTokenFilter token w.tick.now) with
        | some u => (.ok u, w.tick.sent)
        | none => (.error ErrInvalidOrExpiredToken, w.tick.sent) := by
  unfold mongoUserRepository.GetByPasswordResetToken mongoFindOne timeNow
  by_cases hf : w.faulty = true
  · simp [hf]
  · cases hfind : w.users.find? (mongoUserRepository.resetTokenFilter token w.tick.now) <;>
      simp [hf, hfind, ErrInvalidOrExpiredToken]

/-- C5: when no document holds the token together with an expiry strictly later than
the instant the lookup reads from the clock (an expiry equal to that instant is too
early), `ResetPassword` fails with `invalid or expired reset token` and leaves every
user document, hence every password hash and reset-token field, and the whole
session store unchanged; this holds whatever the schedule of driver failures. -/
theorem ResetPassword_invalid_token (deps : Deps) (w : World) (req : ResetPasswordRequest)
    (h : ∀ u ∈ w.users, u.PasswordResetToken = some req.Token →
      ∀ expiry, u.PasswordResetExpiry = some expiry → expiry ≤ w.tick.now) :
    (authService.ResetPassword deps w req).1 = some ErrInvalidOrExpiredToken ∧
      (authService.ResetPassword deps w req).2.users = w.users ∧
      (authService.ResetPassword deps w req).2.sessions = w.sessions ∧
      (authService.ResetPassword deps w req).2.userSessions = w.userSessions := by
  have hnone : w.users.find? (mongoUserRepository.resetTokenFilter req.Token w.tick.now)
      = none := by
    rw [List.find?_eq_none]
    intro u hmem hp
    simp only [mongoUserRepository.resetTokenFilter, Bool.and_eq_true, beq_iff_eq] at hp
    obtain ⟨htok, hexp⟩ := hp
    cases hx : u.PasswordResetExpiry with
    | none => simp [hx] at hexp
    | some expiry =>
      have := h u hmem htok expiry hx
      simp [hx] at hexp
      omega
  by_cases hf : w.faulty = true <;>
    simp [authService.ResetPassword, GetByPasswordResetToken_eq, hf, hnone, ErrInvalidOrExpiredToken]

/-- C5 at work: the token of `carol` expires at 5000 and the lookup reads 5000. -/
theorem ResetPassword_invalid_token_witness :
    carol.PasswordResetExpiry = some (carolWorld 4999).tick.now ∧
    (authService.ResetPassword sampleDeps (carolWorld 4999) ⟨"tok", "newpassword"⟩).1
      = some ErrInvalidOrExpiredToken ∧
    (authService.ResetPassword sampleDeps (carolWorld 4999) ⟨"tok", "newpassword"⟩).2.users
      = [alice, carol] :=
  ⟨by decide,
   (ResetPassword_invalid_token sampleDeps (carolWorld 4999) ⟨"tok", "newpassword"⟩
      (by decide)).1,
   (ResetPassword_invalid_token sampleDeps (carolWorld 4999) ⟨"tok", "newpassword"⟩
      (by decide)).2.1⟩

/-! ## C10: a reset request for an address nobody has -/

/-- C10: when no user document has the address, `RequestPasswordReset` returns no
error and leaves the user documents and the session store unchanged: no record is
created and no token is stored on any record. -/
theorem RequestPasswordReset_unknown_email (deps : Deps) (w : World) (email : String)
    (h : ∀ u ∈ w.users, u.Email ≠ email) :
    (authService.RequestPasswordReset deps w email).1 = none ∧
      (authService.RequestPasswordReset deps w email).2.users = w.users ∧
      (authService.RequestPasswordReset deps w email).2.sessions = w.sessions ∧
      (authService.RequestPasswordReset deps w email).2.userSessions = w.userSessions := by
  obtain ⟨hw, hcase⟩ := GetByEmail_cases w email
  rcases hcase with ⟨e, he⟩ | ⟨u, hu, hfind⟩
  · have : mongoUserRepository.GetByEmail w email = (.error e, w.sent) := Prod.ext he hw
    simp [authService.RequestPasswordReset, this]
  · exfalso
    have hmem := List.mem_of_find?_eq_some hfind
    have hp := List.find?_some hfind
    exact h u hmem (by simpa using hp)

/-- C10 at work: nobody has the address `nobody@x.com` among `alice` and `bob`. -/
theorem RequestPasswordReset_unknown_email_witness :
    (authService.RequestPasswordReset sampleDeps twoUsers "nobody@x.com").1 = none ∧
      (authService.RequestPasswordReset sampleDeps twoUsers "nobody@x.com").2.users = [alice, bob] :=
  ⟨(RequestPasswordReset_unknown_email sampleDeps twoUsers "nobody@x.com" (by decide)).1,
   (RequestPasswordReset_unknown_email sampleDeps twoUsers "nobody@x.com" (by decide)).2.1⟩

/-! ## C9: validating a session of a deactivated user -/

/-- The method `GetByID` when no command fails. -/
theorem GetByID_eq (w : World) (id : String) (hf : w.faults = []) :
    mongoUserRepository.GetByID w id =
      match ObjectIDFromHex id with
      | none => (.error (.new "invalid user ID"), w)
      | some objectID =>
        match w.users.find? (fun u => u.ID == objectID) with
        | some u => (.ok u, w)
        | none => (.error (.new "user not found"), w) := by
  unfold mongoUserRepository.GetByID mongoFindOne
  cases ObjectIDFromHex id with
  | none => rfl
  | some objectID =>
    cases hfind : w.users.find? (fun u => u.ID == objectID) <;>
      simp [faulty_of_no_faults hf, sent_of_no_faults hf, hfind]

/-- The command `GET` when no command fails. -/
theorem redisGet_eq (w : World) (id : String) (hf : w.faults = []) :
    redisGet w id =
      match w.sessionAt id with
      | some e => (.ok e.val, w)
      | none => (.error .redisNil, w) := by
  unfold redisGet
  cases w.sessionAt id <;> simp [faulty_of_no_faults hf, sent_of_no_faults hf]

theorem sessionAt_live {w : World} {id : String} {e : Entry Session}
    (hs : w.sessions id = some e) (hl : e.live w.now = true) : w.sessionAt id = some e := by
  simp [World.sessionAt, hs, hl]

/-- A live and valid entry is returned by `Get`, at the cost of one clock reading. -/
theorem Get_valid (fuel : Nat) (w : World) (id : String) (e : Entry Session)
    (hf : w.faults = []) (hs : w.sessions id = some e) (hl : e.live w.now = true)
    (hv : w.tick.now < e.val.ExpiresAt) :
    redisSessionRepository.Get (fuel + 1) w id = some (.ok e.val, w.tick) := by
  have hvalid : (e.val.IsValid w).1 = true := by simpa [Session.IsValid, timeNow] using hv
  have hw2 : (e.val.IsValid w).2 = w.tick := rfl
  simp [redisSessionRepository.Get, redisGet_eq w id hf, sessionAt_live hs hl, hvalid, hw2]

/-- C9: let the session be stored, still present, and unexpired at the instant
`ValidateSession` reads from the clock, its user id being that of a document whose
active flag is false.  Whatever the schedule of driver failures, `ValidateSession`
returns an error and leaves the session record, the index and the users untouched.
When no command fails, the error is `user account is deactivated`, the world differs
only by that one reading of the clock, and `GetSession` for the same id still returns
the session as long as it is unexpired. -/
theorem ValidateSession_deactivated (fuel : Nat) (w : World) (sessionID : String)
    (e : Entry Session) (objectID : ObjectID) (u : User)
    (hs : w.sessions sessionID = some e) (hl : e.live w.now = true)
    (hv : w.tick.now < e.val.ExpiresAt)
    (hid : ObjectIDFromHex e.val.UserID = some objectID)
    (hu : w.users.find? (fun u => u.ID == objectID) = some u)
    (hact : u.IsActive = false) :
    (∃ err w', authService.ValidateSession (fuel + 1) w sessionID = some (.error err, w') ∧
      w'.sessions = w.sessions ∧ w'.userSessions = w.userSessions ∧ w'.users = w.users) ∧
    (w.faults = [] →
      authService.ValidateSession (fuel + 1) w sessionID
          = some (.error ErrUserDeactivated, w.tick) ∧
        (e.live w.tick.now = true → w.tick.tick.now < e.val.ExpiresAt →
          authService.GetSession (fuel + 1) w.tick sessionID
            = some (.ok e.val, w.tick.tick))) := by
  constructor
  · by_cases hf : w.faulty = true
    · have hget : redisSessionRepository.Get (fuel + 1) w sessionID
          = some (.error (.driver "GET"), w.sent) := by
        simp [redisSessionRepository.Get, redisGet, hf]
      exact ⟨.driver "GET", w.sent, by simp [authService.ValidateSession, hget], rfl, rfl, rfl⟩
    · have hf' : w.faulty = false := by simpa using hf
      have hvalid : (e.val.IsValid w.sent).1 = true := by
        simpa [Session.IsValid, timeNow] using hv
      have hget : redisSessionRepository.Get (fuel + 1) w sessionID
          = some (.ok e.val, w.sent.tick) := by
        have hw2 : (e.val.IsValid w.sent).2 = w.sent.tick := rfl
        simp [redisSessionRepository.Get, redisGet, hf', sessionAt_live hs hl, hvalid, hw2]
      by_cases hf2 : w.sent.tick.faulty = true
      · refine ⟨.driver "FindOne", w.sent.tick.sent, ?_, rfl, rfl, rfl⟩
        simp [authService.ValidateSession, hget, mongoUserRepository.GetByID, hid,
          mongoFindOne, hf2]
      · have hf2' : w.sent.tick.faulty = false := by simpa using hf2
        refine ⟨ErrUserDeactivated, w.sent.tick.sent, ?_, rfl, rfl, rfl⟩
        simp [authService.ValidateSession, hget, mongoUserRepository.GetByID, hid,
          mongoFindOne, hf2', hu, hact, ErrUserDeactivated]
  · intro hf
    constructor
    · simp [authService.ValidateSession, Get_valid fuel w sessionID e hf hs hl hv,
        GetByID_eq w.tick e.val.UserID (by simpa using hf), hid, hu, hact, ErrUserDeactivated]
    · intro hl' hv'
      exact Get_valid fuel w.tick sessionID e (by simpa using hf) (by simpa using hs) hl' hv'

/-- C9 at work on the deactivated account `bob` and his session `b1`. -/
theorem ValidateSession_deactivated_witness :
    bobSessionWorld.sessions "b1" = some ⟨bobSession, some 8000⟩ ∧
    bob.IsActive = false ∧
    authService.ValidateSession 1 bobSessionWorld "b1"
      = some (.error ErrUserDeactivated, bobSessionWorld.tick) ∧
    authService.GetSession 1 bobSessionWorld.tick "b1"
      = some (.ok bobSession, bobSessionWorld.tick.tick) :=
  have h := (ValidateSession_deactivated 0 bobSessionWorld "b1" ⟨bobSession, some 8000⟩
    ⟨"00000000000000000000000b"⟩ bob rfl rfl (by decide) (by decide) (by decide)
    (by decide)).2 rfl
  ⟨rfl, rfl, h.1, h.2 (by decide) (by decide)⟩

/-! ## Frames: what the calls leave alone -/

theorem Env.refl (w : World) : Env w w := ⟨le_refl _, fun _ h => h, fun h => h⟩

theorem Env.trans {a b c : World} (h1 : Env a b) (h2 : Env b c) : Env a c :=
  ⟨le_trans h1.now_le h2.now_le, fun k hk => h1.ticks k (h2.ticks k hk),
    fun h => h2.faults (h1.faults h)⟩

theorem SameRedis.rrefl (w : World) : SameRedis w w := ⟨rfl, rfl⟩

theorem SameRedis.rtrans {a b c : World} (h1 : SameRedis a b) (h2 : SameRedis b c) :
    SameRedis a c :=
  ⟨h2.sessions.trans h1.sessions, h2.userSessions.trans h1.userSessions⟩

theorem tick_env (w : World) : Env w w.tick :=
  ⟨tick_now_ge w, fun _ hk => List.mem_of_mem_tail hk, fun h => h⟩

theorem sent_env (w : World) : Env w w.sent :=
  ⟨le_refl _, fun _ h => h, fun h => by simp [World.sent, h]⟩

theorem tick_redis (w : World) : SameRedis w w.tick := ⟨rfl, rfl⟩

theorem sent_redis (w : World) : SameRedis w w.sent := ⟨rfl, rfl⟩

theorem randRead_env (w : World) (n : Nat) : Env w (randRead w n).2 := by
  unfold randRead; split <;> exact ⟨le_refl _, fun _ h => h, fun h => h⟩

theorem randRead_redis (w : World) (n : Nat) : SameRedis w (randRead w n).2 := by
  unfold randRead; split <;> exact ⟨rfl, rfl⟩

@[simp] theorem randRead_users (w : World) (n : Nat) : (randRead w n).2.users = w.users := by
  unfold randRead; split <;> rfl

theorem HashPassword_env (deps : Deps) (w : World) (p : String) :
    Env w (utils.HashPassword deps w p).2 := by
  unfold utils.HashPassword
  split
  · exact Env.refl w
  · split <;> exact randRead_env w 16

theorem HashPassword_redis (deps : Deps) (w : World) (p : String) :
    SameRedis w (utils.HashPassword deps w p).2 := by
  unfold utils.HashPassword
  split
  · exact SameRedis.rrefl w
  · split <;> exact randRead_redis w 16

@[simp] theorem HashPassword_users (deps : Deps) (w : World) (p : String) :
    (utils.HashPassword deps w p).2.users = w.users := by
  unfold utils.HashPassword
  split
  · rfl
  · split <;> simp

@[simp] theorem GenerateRandomToken_users (w : World) (n : Nat) :
    (utils.GenerateRandomToken w n).2.users = w.users := by
  unfold utils.GenerateRandomToken
  split <;> simp

/-! ### The MongoDB commands -/

@[simp] theorem mongoFindOne_snd (w : World) (p : User → Bool) :
    (mongoFindOne w p).2 = w.sent := by
  unfold mongoFindOne
  split
  · rfl
  · split <;> rfl

theorem mongoInsertOne_redis (w : World) (u : User) : SameRedis w (mongoInsertOne w u).2 := by
  unfold mongoInsertOne
  split
  · exact ⟨rfl, rfl⟩
  · split <;> exact ⟨rfl, rfl⟩

theorem mongoUpdateOne_env (w : World) (p : User → Bool) (f : User → User) :
    Env w (mongoUpdateOne w p f).2 := by
  unfold mongoUpdateOne
  split
  · exact sent_env w
  · split
    · exact sent_env w
    · split
      · exact sent_env w
      · exact ⟨le_refl _, fun _ h => h, fun h => by simp [World.sent, h]⟩

theorem mongoUpdateOne_redis (w : World) (p : User → Bool) (f : User → User) :
    SameRedis w (mongoUpdateOne w p f).2 := by
  unfold mongoUpdateOne
  split
  · exact ⟨rfl, rfl⟩
  · split
    · exact ⟨rfl, rfl⟩
    · split <;> exact ⟨rfl, rfl⟩

/-! ### The user repository -/

theorem uuidNew_env (w : World) : Env w (uuidNew w).2 :=
  ⟨le_refl _, fun _ h => h, fun h => h⟩

theorem userCreate_redis (w : World) (u : User) :
    SameRedis w (mongoUserRepository.Create w u).2.2 := by
  have h : SameRedis w (mongoInsertOne (timeNow (timeNow (NewObjectID w).2).2).2
      { u with
        ID := (NewObjectID w).1, CreatedAt := (timeNow (NewObjectID w).2).1,
        UpdatedAt := (timeNow (timeNow (NewObjectID w).2).2).1, IsActive := true,
        EmailVerified := false }).2 :=
    SameRedis.rtrans (b := (timeNow (timeNow (NewObjectID w).2).2).2) ⟨rfl, rfl⟩
      (mongoInsertOne_redis _ _)
  unfold mongoUserRepository.Create
  simp only []
  split
  · split <;> exact h
  · exact h

@[simp] theorem GetByEmail_snd (w : World) (email : String) :
    (mongoUserRepository.GetByEmail w email).2 = w.sent := by
  unfold mongoUserRepository.GetByEmail
  simp only []
  split
  · split <;> simp
  · simp

@[simp] theorem GetByID_users (w : World) (id : String) :
    (mongoUserRepository.GetByID w id).2.users = w.users := by
  unfold mongoUserRepository.GetByID
  split
  · rfl
  · simp only []
    split
    · split <;> simp
    · simp

@[simp] theorem GetByPasswordResetToken_snd (w : World) (token : String) :
    (mongoUserRepository.GetByPasswordResetToken w token).2 = w.tick.sent := by
  unfold mongoUserRepository.GetByPasswordResetToken
  simp only []
  split
  · split <;> simp [timeNow]
  · simp [timeNow]

theorem Update_env (w : World) (u : User) : Env w (mongoUserRepository.Update w u).2 := by
  have h := (tick_env w).trans (mongoUpdateOne_env w.tick
    (fun v => v.ID == u.ID) (fun _ => { u with UpdatedAt := w.tick.now }))
  unfold mongoUserRepository.Update
  simp only []
  split
  · exact h
  · split <;> exact h

theorem Update_redis (w : World) (u : User) :
    SameRedis w (mongoUserRepository.Update w u).2 := by
  have h := (tick_redis w).rtrans (mongoUpdateOne_redis w.tick
    (fun v => v.ID == u.ID) (fun _ => { u with UpdatedAt := w.tick.now }))
  unfold mongoUserRepository.Update
  simp only []
  split
  · exact h
  · split <;> exact h

theorem UpdateLastLogin_env (w : World) (id : String) :
    Env w (mongoUserRepository.UpdateLastLogin w id).2 := by
  unfold mongoUserRepository.UpdateLastLogin
  split
  · exact Env.refl w
  · rename_i objectID _
    have h := (tick_env w).trans (mongoUpdateOne_env w.tick (fun v => v.ID == objectID)
      (fun v => { v with LastLogin := some w.tick.now, UpdatedAt := w.tick.now }))
    simp only []
    split
    · exact h
    · split <;> exact h

theorem UpdateLastLogin_redis (w : World) (id : String) :
    SameRedis w (mongoUserRepository.UpdateLastLogin w id).2 := by
  unfold mongoUserRepository.UpdateLastLogin
  split
  · exact SameRedis.rrefl w
  · rename_i objectID _
    have h := (tick_redis w).rtrans (mongoUpdateOne_redis w.tick (fun v => v.ID == objectID)
      (fun v => { v with LastLogin := some w.tick.now, UpdatedAt := w.tick.now }))
    simp only []
    split
    · exact h
    · split <;> exact h

theorem ClearPasswordResetToken_env (w : World) (id : String) :
    Env w (mongoUserRepository.ClearPasswordResetToken w id).2 := by
  unfold mongoUserRepository.ClearPasswordResetToken
  split
  · exact Env.refl w
  · rename_i objectID _
    have h := (tick_env w).trans (mongoUpdateOne_env w.tick (fun v => v.ID == objectID)
      (fun v => { v with
        PasswordResetToken := none, PasswordResetExpiry := none, UpdatedAt := w.tick.now }))
    simp only []
    split
    · exact h
    · split <;> exact h

theorem ClearPasswordResetToken_redis (w : World) (id : String) :
    SameRedis w (mongoUserRepository.ClearPasswordResetToken w id).2 := by
  unfold mongoUserRepository.ClearPasswordResetToken
  split
  · exact SameRedis.rrefl w
  · rename_i objectID _
    have h := (tick_redis w).rtrans (mongoUpdateOne_redis w.tick (fun v => v.ID == objectID)
      (fun v => { v with
        PasswordResetToken := none, PasswordResetExpiry := none, UpdatedAt := w.tick.now }))
    simp only []
    split
    · exact h
    · split <;> exact h

/-! ### The Redis commands -/

theorem redisGet_snd (w : World) (id : String) : (redisGet w id).2 = w.sent := by
  unfold redisGet
  split
  · rfl
  · split <;> rfl

theorem redisSMembers_snd (w : World) (uid : String) : (redisSMembers w uid).2 = w.sent := by
  unfold redisSMembers
  split
  · rfl
  · split <;> rfl

theorem redisSet_env (w : World) (id : String) (v : Session) (d : Int) :
    Env w (redisSet w id v d).2 := by
  unfold redisSet
  split
  · exact sent_env w
  · exact ⟨le_refl _, fun _ h => h, fun h => by simp [World.sent, h]⟩

@[simp] theorem redisSet_users (w : World) (id : String) (v : Session) (d : Int) :
    (redisSet w id v d).2.users = w.users := by
  unfold redisSet
  split <;> rfl

theorem redisDelSession_env (w : World) (id : String) : Env w (redisDelSession w id).2 := by
  unfold redisDelSession
  split
  · exact sent_env w
  · exact ⟨le_refl _, fun _ h => h, fun h => by simp [World.sent, h]⟩

@[simp] theorem redisDelSession_users (w : World) (id : String) :
    (redisDelSession w id).2.users = w.users := by
  unfold redisDelSession
  split <;> rfl

@[simp] theorem redisDelUserSessions_users (w : World) (uid : String) :
    (redisDelUserSessions w uid).2.users = w.users := by
  unfold redisDelUserSessions
  split <;> rfl

theorem redisSAdd_env (w : World) (uid member : String) : Env w (redisSAdd w uid member).2 := by
  unfold redisSAdd
  split
  · exact sent_env w
  · split <;> exact ⟨le_refl _, fun _ h => h, fun h => by simp [World.sent, h]⟩

@[simp] theorem redisSAdd_users (w : World) (uid member : String) :
    (redisSAdd w uid member).2.users = w.users := by
  unfold redisSAdd
  split
  · rfl
  · split <;> rfl

theorem redisSRem_env (w : World) (uid member : String) : Env w (redisSRem w uid member).2 := by
  unfold redisSRem
  split
  · exact sent_env w
  · split
    · exact ⟨le_refl _, fun _ h => h, fun h => by simp [World.sent, h]⟩
    · exact sent_env w

@[simp] theorem redisSRem_users (w : World) (uid member : String) :
    (redisSRem w uid member).2.users = w.users := by
  unfold redisSRem
  split
  · rfl
  · split <;> rfl

theorem redisExpire_env (w : World) (uid : String) (d : Int) :
    Env w (redisExpire w uid d).2 := by
  unfold redisExpire
  split
  · exact sent_env w
  · split
    · exact ⟨le_refl _, fun _ h => h, fun h => by simp [World.sent, h]⟩
    · exact sent_env w

@[simp] theorem redisExpire_users (w : World) (uid : String) (d : Int) :
    (redisExpire w uid d).2.users = w.users := by
  unfold redisExpire
  split
  · rfl
  · split <;> rfl

/-! ### The session repository -/

theorem sessionCreate_env (w : World) (s : Session) :
    Env w (redisSessionRepository.Create w s).2 := by
  have h1 := (tick_env w).trans (redisSet_env w.tick s.ID s (s.ExpiresAt - w.tick.now))
  have h2 := h1.trans (redisSAdd_env _ s.UserID s.ID)
  have h3 := h2.trans (redisExpire_env _ s.UserID (s.ExpiresAt - w.tick.now))
  unfold redisSessionRepository.Create
  simp only [timeNow]
  split
  · exact h1
  · split
    · exact h2
    · split <;> exact h3

@[simp] theorem sessionCreate_users (w : World) (s : Session) :
    (redisSessionRepository.Create w s).2.users = w.users := by
  unfold redisSessionRepository.Create
  simp only [timeNow]
  split
  · simp
  · split
    · simp
    · split <;> simp

theorem foldl_Del_users (ids : List String) :
    ∀ w : World, (ids.foldl (fun w2 id => (redisDelSession w2 id).2) w).users = w.users := by
  induction ids with
  | nil => intro w; rfl
  | cons id rest ih => intro w; simp [List.foldl, ih]

@[simp] theorem DeleteAllUserSessions_users (w : World) (uid : String) :
    (redisSessionRepository.DeleteAllUserSessions w uid).2.users = w.users := by
  unfold redisSessionRepository.DeleteAllUserSessions
  simp only [redisSMembers_snd]
  split
  · rfl
  · simp [foldl_Del_users]

/-! ### The tail of `Register` and `Login` -/

theorem newSession_env (deps : Deps) (w : World) (u : User) :
    Env w (authService.newSession deps w u).2 :=
  ((uuidNew_env w).trans (tick_env _)).trans (tick_env _)

@[simp] theorem newSession_users (deps : Deps) (w : World) (u : User) :
    (authService.newSession deps w u).2.users = w.users := rfl

@[simp] theorem issue_users (deps : Deps) (w : World) (u : User) :
    (authService.issue deps w u).2.users = w.users := by
  unfold authService.issue
  split
  · rfl
  · simp only []
    split <;> simp

/-! ### The session store after single commands -/

@[simp] theorem redisSAdd_sessions (w : World) (uid member : String) :
    (redisSAdd w uid member).2.sessions = w.sessions := by
  unfold redisSAdd
  split
  · rfl
  · split <;> rfl

@[simp] theorem redisSRem_sessions (w : World) (uid member : String) :
    (redisSRem w uid member).2.sessions = w.sessions := by
  unfold redisSRem
  split
  · rfl
  · split <;> rfl

@[simp] theorem redisExpire_sessions (w : World) (uid : String) (d : Int) :
    (redisExpire w uid d).2.sessions = w.sessions := by
  unfold redisExpire
  split
  · rfl
  · split <;> rfl

@[simp] theorem redisDelUserSessions_sessions (w : World) (uid : String) :
    (redisDelUserSessions w uid).2.sessions = w.sessions := by
  unfold redisDelUserSessions
  split <;> rfl

@[simp] theorem setKey_same {α : Type} (m : String → Option α) (k : String) (v : Option α) :
    setKey m k v k = v := by
  simp [setKey]

theorem setKey_other {α : Type} (m : String → Option α) {k k' : String} (v : Option α)
    (h : k' ≠ k) : setKey m k v k' = m k' := by
  simp [setKey, h]

/-- When the command is answered, `SET` stores the value under the key. -/
theorem redisSet_stores (w : World) (id : String) (v : Session) (d : Int)
    (hf : w.faulty = false) :
    (redisSet w id v d).1 = none ∧
      ∃ deadline, (redisSet w id v d).2.sessions id = some ⟨v, deadline⟩ := by
  unfold redisSet
  simp [hf]

theorem redisSAdd_ok (w : World) (uid member : String) (hf : w.faulty = false) :
    (redisSAdd w uid member).1 = none := by
  unfold redisSAdd
  rw [hf]
  simp only [Bool.false_eq_true, if_false]
  split <;> rfl

theorem redisExpire_ok (w : World) (uid : String) (d : Int) (hf : w.faulty = false) :
    (redisExpire w uid d).1 = none := by
  unfold redisExpire
  rw [hf]
  simp only [Bool.false_eq_true, if_false]
  split <;> rfl

/-- When no command fails, `Create` of the session repository succeeds and the session
is stored under its id. -/
theorem sessionCreate_stores (w : World) (s : Session) (hf : w.faults = []) :
    (redisSessionRepository.Create w s).1 = none ∧
      ∃ deadline, (redisSessionRepository.Create w s).2.sessions s.ID = some ⟨s, deadline⟩ := by
  have hf1 : w.tick.faulty = false := faulty_of_no_faults (by simpa using hf)
  obtain ⟨h1, dl, h1s⟩ := redisSet_stores w.tick s.ID s (s.ExpiresAt - w.tick.now) hf1
  have e1 := redisSet_env w.tick s.ID s (s.ExpiresAt - w.tick.now)
  have hf2 := e1.faults (by simpa using hf)
  have h2 := redisSAdd_ok (redisSet w.tick s.ID s (s.ExpiresAt - w.tick.now)).2 s.UserID s.ID
    (faulty_of_no_faults hf2)
  have e2 := redisSAdd_env (redisSet w.tick s.ID s (s.ExpiresAt - w.tick.now)).2 s.UserID s.ID
  have h3 := redisExpire_ok _ s.UserID (s.ExpiresAt - w.tick.now)
    (faulty_of_no_faults (e2.faults hf2))
  unfold redisSessionRepository.Create
  simp only [timeNow, h1, h2, h3]
  exact ⟨trivial, dl, by simpa using h1s⟩

/-! ### Registration, step by step -/

/-- A successful `Create` of the user repository appended the record it returns; no
document had the address before. -/
theorem userCreate_ok (w : World) (u : User) (h : (mongoUserRepository.Create w u).1 = none) :
    (mongoUserRepository.Create w u).2.2.users = w.users ++ [(mongoUserRepository.Create w u).2.1] ∧
      (mongoUserRepository.Create w u).2.1.Email = u.Email ∧
      (mongoUserRepository.Create w u).2.1.Password = u.Password ∧
      (mongoUserRepository.Create w u).2.1.IsActive = true ∧
      (∀ v ∈ w.users, v.Email ≠ u.Email) := by
  unfold mongoUserRepository.Create at h ⊢
  simp only [] at h ⊢
  split at h
  · split at h <;> simp at h
  · rename_i hins
    unfold mongoInsertOne at hins ⊢
    split at hins
    · simp at hins
    · split at hins
      · simp at hins
      · rename_i hfa hany
        simp only [hfa, hany, if_false, hins]
        refine ⟨by simp [timeNow, NewObjectID], trivial, trivial, trivial, ?_⟩
        intro v hv hEq
        apply hany
        simp only [List.any_eq_true]
        exact ⟨v, by simpa [timeNow, NewObjectID] using hv, by simp [hEq]⟩

theorem HashPassword_ok (deps : Deps) (w : World) (p hash : String)
    (h : (utils.HashPassword deps w p).1 = .ok hash) :
    ∃ salt, deps.bcryptGenerate salt p = .ok hash := by
  unfold utils.HashPassword at h
  split at h
  · simp at h
  · split at h
    · simp at h
    · rename_i salt _
      exact ⟨salt, h⟩

theorem issue_ok (deps : Deps) (w : World) (u : User) (resp : AuthResponse)
    (h : (authService.issue deps w u).1 = .ok resp) :
    ∃ token, deps.GenerateJWT u deps.config.JWTSecret deps.config.JWTExpiresIn = .ok token := by
  unfold authService.issue at h
  split at h
  · simp at h
  · rename_i token htok
    exact ⟨token, htok⟩

/-- What a successful `Register` established. -/
theorem Register_ok (deps : Deps) (w : World) (req : RegisterRequest) (resp : AuthResponse)
    (h : (authService.Register deps w req).1 = .ok resp) :
    ∃ user : User,
      (authService.Register deps w req).2.users = w.users ++ [user] ∧
      user.Email = req.Email ∧ user.IsActive = true ∧
      (∃ salt, deps.bcryptGenerate salt req.Password = .ok user.Password) ∧
      (∀ v ∈ w.users, v.Email ≠ req.Email) ∧
      (∃ token,
        deps.GenerateJWT user deps.config.JWTSecret deps.config.JWTExpiresIn = .ok token) := by
  unfold authService.Register at h ⊢
  simp only [] at h ⊢
  cases h1 : (mongoUserRepository.GetByEmail w req.Email).1 with
  | ok _ => simp only [h1] at h; simp at h
  | error e1 =>
    simp only [h1] at h ⊢
    by_cases hrole : (!req.Role.IsValid) = true
    · simp [hrole] at h
    · simp only [hrole] at h ⊢
      cases h2 : (utils.HashPassword deps (mongoUserRepository.GetByEmail w req.Email).2
          req.Password).1 with
      | error e2 => simp only [h2] at h; simp at h
      | ok hashed =>
        simp only [h2] at h ⊢
        cases h3 : (mongoUserRepository.Create
            (utils.HashPassword deps (mongoUserRepository.GetByEmail w req.Email).2
              req.Password).2
            { ID := ⟨"000000000000000000000000"⟩, Email := req.Email,
              Password := hashed, FirstName := req.FirstName,
              LastName := req.LastName, Role := req.Role, IsActive := false,
              EmailVerified := false, LastLogin := none, PasswordResetToken := none,
              PasswordResetExpiry := none, CreatedAt := 0, UpdatedAt := 0 }).1 with
        | some e3 => simp only [h3] at h; simp at h
        | none =>
          simp only [h3] at h ⊢
          obtain ⟨hu, hemail, hpw, hact, hfresh⟩ := userCreate_ok _ _ h3
          refine ⟨_, ?_, hemail, hact, ?_, ?_, issue_ok _ _ _ _ h⟩
          · simp only [if_false, Bool.false_eq_true, issue_users, hu]
            simp
          · rw [hpw]; exact HashPassword_ok _ _ _ _ h2
          · simpa using hfresh

/-! ## C7: a login after a registration -/

theorem find?_append_new (us : List User) (u : User) (email : String)
    (hfresh : ∀ v ∈ us, v.Email ≠ email) (hu : u.Email = email) :
    (us ++ [u]).find? (fun v => v.Email == email) = some u := by
  induction us with
  | nil => simp [List.find?, hu]
  | cons v rest ih =>
    have hv : v.Email ≠ email := hfresh v (by simp)
    simp only [List.cons_append, List.find?]
    have : (v.Email == email) = false := by simpa using hv
    rw [this]
    exact ih (fun x hx => hfresh x (by simp [hx]))

/-- The session that `newSession` builds expires one tick and one lifetime after the
instant it records as its creation. -/
theorem newSession_times (deps : Deps) (w : World) (u : User) :
    ∃ k : Nat, (k = 0 ∨ k ∈ w.ticks) ∧
      (authService.newSession deps w u).1.ExpiresAt =
        (authService.newSession deps w u).1.CreatedAt + k + deps.config.SessionExpiresIn := by
  refine ⟨(uuidNew w).2.tick.ticks.headD 0, ?_, ?_⟩
  · cases hl : (uuidNew w).2.tick.ticks with
    | nil => left; rfl
    | cons a rest =>
      right
      have : a ∈ (uuidNew w).2.tick.ticks := by rw [hl]; simp
      simpa using (tick_env (uuidNew w).2).ticks a this
  · simp [authService.newSession, timeNow, tick_now]

/-- C7, by the letter, fails: with a clock that advances by one between the two
readings `CreatedAt: time.Now()` and `ExpiresAt: time.Now().Add(...)`, the session of
the login that follows a registration expires one nanosecond later than its creation
instant plus the configured lifetime. -/
theorem Login_session_expiry_not_exact :
    (authService.Register sampleDeps twoUsers
      newcomer).1.toBool = true ∧
    ((authService.Login sampleDeps
        (authService.Register sampleDeps twoUsers
          newcomer).2
        ⟨"n@x.com", "pw12345678"⟩).1.map (fun r => r.SessionID)) = .ok "s2" ∧
    ((authService.Login sampleDeps
        (authService.Register sampleDeps twoUsers
          newcomer).2
        ⟨"n@x.com", "pw12345678"⟩).2.sessions "s2").map
      (fun e => (e.val.CreatedAt, e.val.ExpiresAt))
      = some (1007, 1008 + sampleDeps.config.SessionExpiresIn) ∧
    (1008 + sampleDeps.config.SessionExpiresIn : Int)
      ≠ 1007 + sampleDeps.config.SessionExpiresIn := by
  decide

/-- C7, amended: after a successful `Register`, if no store command fails and `bcrypt`
verifies a password against the hash it generated from it, `Login` with the same
address and password succeeds; the session it stores under the returned id expires
at its recorded creation instant plus the clock's advance `k` between the two
consecutive readings plus the configured lifetime (exactly creation plus lifetime
when the clock did not advance), and the returned `ExpiresAt` is that instant in
epoch seconds. -/
theorem Register_then_Login (deps : Deps) (w : World) (req : RegisterRequest)
    (resp : AuthResponse)
    (hreg : (authService.Register deps w req).1 = .ok resp)
    (hf : (authService.Register deps w req).2.faults = [])
    (hbcrypt : ∀ salt password hash,
      deps.bcryptGenerate salt password = .ok hash → deps.bcryptCompare hash password = true) :
    ∃ (resp2 : AuthResponse) (s : Session) (deadline : Option Int) (k : Nat),
      (authService.Login deps (authService.Register deps w req).2
        ⟨req.Email, req.Password⟩).1 = .ok resp2 ∧
      (authService.Login deps (authService.Register deps w req).2
        ⟨req.Email, req.Password⟩).2.sessions resp2.SessionID = some ⟨s, deadline⟩ ∧
      s.ID = resp2.SessionID ∧
      (k = 0 ∨ k ∈ (authService.Register deps w req).2.ticks) ∧
      s.ExpiresAt = s.CreatedAt + k + deps.config.SessionExpiresIn ∧
      resp2.ExpiresAt = Unix s.ExpiresAt := by
  obtain ⟨user, husers, hemail, hact, ⟨salt, hgen⟩, hfresh, token, htok⟩ :=
    Register_ok deps w req resp hreg
  generalize (authService.Register deps w req).2 = w1 at husers hf ⊢
  have hfind : w1.users.find? (fun v => v.Email == req.Email) = some user := by
    rw [husers]; exact find?_append_new _ _ _ hfresh hemail
  have hget := GetByEmail_found w1 req.Email user (faulty_of_no_faults hf) hfind
  have hpw : utils.CheckPassword deps req.Password user.Password = true :=
    hbcrypt salt req.Password user.Password hgen
  have e2 : Env w1 (mongoUserRepository.UpdateLastLogin w1.sent user.ID.Hex).2 :=
    (sent_env w1).trans (UpdateLastLogin_env _ _)
  generalize hw2 : (mongoUserRepository.UpdateLastLogin w1.sent user.ID.Hex).2 = w2 at e2
  have e3 := e2.trans (newSession_env deps w2 user)
  obtain ⟨hc1, dl, hc2⟩ := sessionCreate_stores (authService.newSession deps w2 user).2
    (authService.newSession deps w2 user).1 (e3.faults hf)
  obtain ⟨k, hk, hexp⟩ := newSession_times deps w2 user
  have hlogin : authService.Login deps w1 ⟨req.Email, req.Password⟩ =
      (.ok { User := ToUserResponse user, Token := token,
             SessionID := (authService.newSession deps w2 user).1.ID,
             ExpiresAt := Unix (authService.newSession deps w2 user).1.ExpiresAt },
        (redisSessionRepository.Create (authService.newSession deps w2 user).2
          (authService.newSession deps w2 user).1).2) := by
    simp only [authService.Login, hget, hact, hpw, GetByEmail_snd, hw2, authService.issue,
      htok, hc1]
    simp
  refine ⟨_, (authService.newSession deps w2 user).1, dl, k, by rw [hlogin], ?_, rfl, ?_,
    hexp, rfl⟩
  · rw [hlogin]; exact hc2
  · rcases hk with h0 | hmem
    · exact Or.inl h0
    · exact Or.inr (e2.ticks k hmem)

/-- The stand-in for `bcrypt` verifies what it generated. -/
theorem sampleDeps_bcrypt (salt : List Nat) (password hash : String)
    (h : sampleDeps.bcryptGenerate salt password = .ok hash) :
    sampleDeps.bcryptCompare hash password = true := by
  simp only [sampleDeps, Except.ok.injEq] at h
  simp [sampleDeps, ← h]

/-- C7, amended, at work: `newcomer` registers in `twoUsers` and logs in. -/
theorem Register_then_Login_witness :
    (authService.Register sampleDeps twoUsers newcomer).1 = .ok newcomerResponse ∧
    ∃ (resp2 : AuthResponse) (s : Session) (deadline : Option Int) (k : Nat),
      (authService.Login sampleDeps (authService.Register sampleDeps twoUsers newcomer).2
        ⟨newcomer.Email, newcomer.Password⟩).1 = .ok resp2 ∧
      (authService.Login sampleDeps (authService.Register sampleDeps twoUsers newcomer).2
        ⟨newcomer.Email, newcomer.Password⟩).2.sessions resp2.SessionID
          = some ⟨s, deadline⟩ ∧
      s.ID = resp2.SessionID ∧
      (k = 0 ∨ k ∈ (authService.Register sampleDeps twoUsers newcomer).2.ticks) ∧
      s.ExpiresAt = s.CreatedAt + k + sampleDeps.config.SessionExpiresIn ∧
      resp2.ExpiresAt = Unix s.ExpiresAt :=
  ⟨by decide,
   Register_then_Login sampleDeps twoUsers newcomer newcomerResponse (by decide) (by decide)
     sampleDeps_bcrypt⟩

/-! ## C8: registering an address twice -/

theorem map_Email_updateFirst (p : User → Bool) (f : User → User) (us : List User)
    (h : ∀ v, us.find? p = some v → (f v).Email = v.Email) :
    (updateFirst p f us).map (fun u => u.Email) = us.map (fun u => u.Email) := by
  induction us with
  | nil => rfl
  | cons u rest ih =>
    unfold updateFirst
    by_cases hp : p u = true
    · have := h u (by simp [List.find?, hp])
      simp [hp, this]
    · have hp' : p u = false := by simpa using hp
      rw [hp']
      simp only [Bool.false_eq_true, if_false, List.map_cons, List.cons.injEq, true_and]
      exact ih (fun v hv => h v (by simpa [List.find?, hp'] using hv))

/-- An update that keeps each address, or moves the document to an address that some
document already has, leaves the list of addresses as it was: the unique index
refuses the second kind. -/
theorem mongoUpdateOne_emails (w : World) (p : User → Bool) (f : User → User)
    (h : ∀ v, w.users.find? p = some v →
      (f v).Email = v.Email ∨ HasEmail w.users (f v).Email) :
    (mongoUpdateOne w p f).2.users.map (fun u => u.Email) = w.users.map (fun u => u.Email) := by
  unfold mongoUpdateOne
  split
  · rfl
  · split
    · rfl
    · rename_i v hv
      split
      · rfl
      · rename_i hguard
        have hsame : (f v).Email = v.Email := by
          rcases h v hv with h1 | ⟨x, hx, hxe⟩
          · exact h1
          · by_contra hne
            apply hguard
            refine ⟨hne, ?_⟩
            simp only [List.any_eq_true]
            exact ⟨x, hx, by simp [hxe]⟩
        show (updateFirst p f w.users).map _ = _
        apply map_Email_updateFirst
        intro v' hv'
        rw [hv] at hv'
        cases hv'
        exact hsame

theorem HasEmail_of_map_eq {us us' : List User} {email : String}
    (h : us'.map (fun u => u.Email) = us.map (fun u => u.Email)) (he : HasEmail us email) :
    HasEmail us' email := by
  obtain ⟨u, hu, hue⟩ := he
  have : email ∈ us'.map (fun u => u.Email) := by
    rw [h]; exact List.mem_map.mpr ⟨u, hu, hue⟩
  obtain ⟨u', hu', hue'⟩ := List.mem_map.mp this
  exact ⟨u', hu', hue'⟩

theorem UpdateLastLogin_emails (w : World) (id : String) :
    (mongoUserRepository.UpdateLastLogin w id).2.users.map (fun u => u.Email)
      = w.users.map (fun u => u.Email) := by
  unfold mongoUserRepository.UpdateLastLogin
  split
  · rfl
  · rename_i objectID _
    have h := mongoUpdateOne_emails w.tick (fun v => v.ID == objectID)
      (fun v => { v with LastLogin := some w.tick.now, UpdatedAt := w.tick.now })
      (fun _ _ => Or.inl rfl)
    simp only [timeNow]
    split
    · exact h
    · split <;> exact h

theorem SetPasswordResetToken_emails (w : World) (email token : String) (expiry : Int) :
    (mongoUserRepository.SetPasswordResetToken w email token expiry).2.users.map
      (fun u => u.Email) = w.users.map (fun u => u.Email) := by
  have h := mongoUpdateOne_emails w.tick (fun v => v.Email == email)
    (fun v => { v with
      PasswordResetToken := some token, PasswordResetExpiry := some (timeUnix expiry),
      UpdatedAt := w.tick.now })
    (fun _ _ => Or.inl rfl)
  unfold mongoUserRepository.SetPasswordResetToken
  simp only [timeNow]
  split
  · exact h
  · split <;> exact h

theorem ClearPasswordResetToken_emails (w : World) (id : String) :
    (mongoUserRepository.ClearPasswordResetToken w id).2.users.map (fun u => u.Email)
      = w.users.map (fun u => u.Email) := by
  unfold mongoUserRepository.ClearPasswordResetToken
  split
  · rfl
  · rename_i objectID _
    have h := mongoUpdateOne_emails w.tick (fun v => v.ID == objectID)
      (fun v => { v with
        PasswordResetToken := none, PasswordResetExpiry := none, UpdatedAt := w.tick.now })
      (fun _ _ => Or.inl rfl)
    simp only [timeNow]
    split
    · exact h
    · split <;> exact h

theorem Update_emails (w : World) (u : User) (h : HasEmail w.users u.Email) :
    (mongoUserRepository.Update w u).2.users.map (fun u => u.Email)
      = w.users.map (fun u => u.Email) := by
  have h' := mongoUpdateOne_emails w.tick (fun v => v.ID == u.ID)
    (fun _ => { u with UpdatedAt := w.tick.now }) (fun _ _ => Or.inr h)
  unfold mongoUserRepository.Update
  simp only [timeNow]
  split
  · exact h'
  · split <;> exact h'

/-- `Get` and `Delete` of the session repository never touch the user documents. -/
theorem Get_Delete_frame (fuel : Nat) :
    ∀ (w : World) (id : String),
      (∀ r, redisSessionRepository.Get fuel w id = some r → r.2.users = w.users ∧ Env w r.2) ∧
      (∀ r, redisSessionRepository.Delete fuel w id = some r →
        r.2.users = w.users ∧ Env w r.2) := by
  induction fuel with
  | zero =>
    intro w id
    constructor <;> intro r h <;> simp [redisSessionRepository.Get, redisSessionRepository.Delete] at h
  | succ n ih =>
    intro w id
    constructor
    · intro r h
      unfold redisSessionRepository.Get at h
      simp only [redisGet_snd] at h
      split at h
      · split at h <;> (cases h; exact ⟨rfl, sent_env w⟩)
      · rename_i session _
        split at h
        · cases h
          exact ⟨rfl, (sent_env w).trans (tick_env _)⟩
        · split at h
          · cases h
          · rename_i r' hr'
            cases h
            have := (ih (session.IsValid w.sent).2 id).2 r' hr'
            exact ⟨this.1, ((sent_env w).trans (tick_env _)).trans this.2⟩
    · intro r h
      unfold redisSessionRepository.Delete at h
      split at h
      · cases h
      · rename_i r' hr'
        have hg := (ih w id).1 r' hr'
        split at h
        · cases h
          exact hg
        · rename_i session _
          cases h
          refine ⟨by simp [hg.1], ?_⟩
          exact (hg.2.trans (redisSRem_env _ _ _)).trans (redisDelSession_env _ _)

theorem afterCall_users {α : Type} (w : World) (c : Option (α × World))
    (h : ∀ r, c = some r → r.2.users = w.users) : (afterCall w c).users = w.users := by
  cases c with
  | none => rfl
  | some r => exact h r rfl

theorem ValidateSession_users (fuel : Nat) (w : World) (id : String) :
    ∀ r, authService.ValidateSession fuel w id = some r → r.2.users = w.users := by
  intro r h
  unfold authService.ValidateSession at h
  split at h
  · cases h
  · rename_i r1 hr1
    have hg := ((Get_Delete_frame fuel w id).1 r1 hr1).1
    split at h
    · cases h; exact hg
    · simp only [] at h
      split at h
      · cases h; simp [hg]
      · split at h <;> (cases h; simp [hg])

/-- The addresses of the user documents after a call of the service: those before,
and at most a new one at the end. -/
theorem userCreate_users (w : World) (u : User) :
    (mongoUserRepository.Create w u).2.2.users = w.users ∨
      ∃ v, (mongoUserRepository.Create w u).2.2.users = w.users ++ [v] := by
  unfold mongoUserRepository.Create
  simp only []
  have key : ∀ (w' : World) (v : User), w'.users = w.users →
      ((mongoInsertOne w' v).2.users = w.users ∨
        ∃ x, (mongoInsertOne w' v).2.users = w.users ++ [x]) := by
    intro w' v hw'
    unfold mongoInsertOne
    split
    · exact Or.inl hw'
    · split
      · exact Or.inl hw'
      · exact Or.inr ⟨v, by simp [hw']⟩
  split
  · split <;> exact key _ _ rfl
  · exact key _ _ rfl

theorem HasEmail_append {us : List User} {email : String} (l : List User)
    (h : HasEmail us email) : HasEmail (us ++ l) email := by
  obtain ⟨u, hu, hue⟩ := h
  exact ⟨u, by simp [hu], hue⟩

theorem Register_keeps_emails (deps : Deps) (w : World) (req : RegisterRequest)
    (email : String) (h : HasEmail w.users email) :
    HasEmail (authService.Register deps w req).2.users email := by
  unfold authService.Register
  simp only [GetByEmail_snd]
  split
  · exact h
  · split
    · exact h
    · split
      · simpa using h
      · split
        · rcases userCreate_users (utils.HashPassword deps w.sent req.Password).2 _ with h1 | ⟨v, h1⟩
          · rw [h1]; simpa using h
          · rw [h1]; simpa using HasEmail_append [v] h
        · rw [issue_users]
          rcases userCreate_users (utils.HashPassword deps w.sent req.Password).2 _ with h1 | ⟨v, h1⟩
          · rw [h1]; simpa using h
          · rw [h1]; simpa using HasEmail_append [v] h

theorem Login_keeps_emails (deps : Deps) (w : World) (req : LoginRequest)
    (email : String) (h : HasEmail w.users email) :
    HasEmail (authService.Login deps w req).2.users email := by
  unfold authService.Login
  simp only [GetByEmail_snd]
  split
  · exact h
  · split
    · exact h
    · split
      · exact h
      · rw [issue_users]
        exact HasEmail_of_map_eq (UpdateLastLogin_emails _ _) h

theorem RequestPasswordReset_keeps_emails (deps : Deps) (w : World) (addr : String)
    (email : String) (h : HasEmail w.users email) :
    HasEmail (authService.RequestPasswordReset deps w addr).2.users email := by
  unfold authService.RequestPasswordReset
  simp only [GetByEmail_snd]
  split
  · exact h
  · split
    · simpa using h
    · split <;>
        exact HasEmail_of_map_eq
          ((SetPasswordResetToken_emails _ _ _ _).trans (by simp [timeNow])) h

theorem GetByPasswordResetToken_mem (w : World) (token : String) (u : User)
    (h : (mongoUserRepository.GetByPasswordResetToken w token).1 = .ok u) :
    w.users.find? (mongoUserRepository.resetTokenFilter token w.tick.now) = some u := by
  rw [GetByPasswordResetToken_eq] at h
  split at h
  · simp at h
  · split at h
    · rename_i v hv
      simp only [Except.ok.injEq] at h
      rw [← h]; exact hv
    · simp at h

theorem ResetPassword_keeps_emails (deps : Deps) (w : World) (req : ResetPasswordRequest)
    (email : String) (h : HasEmail w.users email) :
    HasEmail (authService.ResetPassword deps w req).2.users email := by
  unfold authService.ResetPassword
  simp only [GetByPasswordResetToken_snd]
  split
  · exact h
  · rename_i user huser
    have hmem : user ∈ w.users := List.mem_of_find?_eq_some (GetByPasswordResetToken_mem _ _ _ huser)
    split
    · simpa using h
    · rename_i hashed _
      have hupd := Update_emails (utils.HashPassword deps w.tick.sent req.NewPassword).2
        { user with Password := hashed } (⟨user, by simpa using hmem, rfl⟩)
      have h3 : HasEmail (mongoUserRepository.Update
          (utils.HashPassword deps w.tick.sent req.NewPassword).2
          { user with Password := hashed }).2.users email :=
        HasEmail_of_map_eq (hupd.trans (by simp)) h
      split
      · exact h3
      · split
        · exact HasEmail_of_map_eq (ClearPasswordResetToken_emails _ _) h3
        · rw [DeleteAllUserSessions_users]
          exact HasEmail_of_map_eq (ClearPasswordResetToken_emails _ _) h3

/-- No call of the service removes an address from the user documents. -/
theorem step_keeps_emails (deps : Deps) (w : World) (op : Op) (email : String)
    (h : HasEmail w.users email) : HasEmail (step deps w op).users email := by
  cases op with
  | register req => exact Register_keeps_emails deps w req email h
  | login req => exact Login_keeps_emails deps w req email h
  | logout fuel id =>
    have := afterCall_users w (authService.Logout fuel w id)
      (fun r hr => ((Get_Delete_frame fuel w id).2 r hr).1)
    show HasEmail (afterCall w (authService.Logout fuel w id)).users email
    rw [this]; exact h
  | requestPasswordReset addr => exact RequestPasswordReset_keeps_emails deps w addr email h
  | resetPassword req => exact ResetPassword_keeps_emails deps w req email h
  | getSession fuel id =>
    have := afterCall_users w (authService.GetSession fuel w id)
      (fun r hr => ((Get_Delete_frame fuel w id).1 r hr).1)
    show HasEmail (afterCall w (authService.GetSession fuel w id)).users email
    rw [this]; exact h
  | validateSession fuel id =>
    have := afterCall_users w (authService.ValidateSession fuel w id)
      (ValidateSession_users fuel w id)
    show HasEmail (afterCall w (authService.ValidateSession fuel w id)).users email
    rw [this]; exact h

theorem run_keeps_emails (deps : Deps) (ops : List Op) :
    ∀ (w : World) (email : String), HasEmail w.users email →
      HasEmail (run deps w ops).users email := by
  induction ops with
  | nil => intro w email h; exact h
  | cons op rest ih =>
    intro w email h
    exact ih (step deps w op) email (step_keeps_emails deps w op email h)

/-- An insertion under an address that some document has is refused. -/
theorem userCreate_dup (w : World) (u : User) (h : HasEmail w.users u.Email) :
    (∃ e, (mongoUserRepository.Create w u).1 = some e) ∧
      (mongoUserRepository.Create w u).2.2.users = w.users := by
  have key : ∀ (w' : World) (v : User), w'.users = w.users → v.Email = u.Email →
      (∃ e, (mongoInsertOne w' v).1 = some e) ∧ (mongoInsertOne w' v).2.users = w.users := by
    intro w' v hw' hv
    unfold mongoInsertOne
    split
    · exact ⟨⟨_, rfl⟩, hw'⟩
    · have hany : w'.users.any (fun x => x.ID == v.ID || x.Email == v.Email) = true := by
        obtain ⟨x, hx, hxe⟩ := h
        simp only [List.any_eq_true]
        exact ⟨x, by rw [hw']; exact hx, by simp [hxe, hv]⟩
      rw [if_pos hany]
      exact ⟨⟨_, rfl⟩, hw'⟩
  unfold mongoUserRepository.Create
  simp only []
  obtain ⟨⟨e, he⟩, hu⟩ := key (timeNow (timeNow (NewObjectID w).2).2).2
    { u with
      ID := (NewObjectID w).1, CreatedAt := (timeNow (NewObjectID w).2).1,
      UpdatedAt := (timeNow (timeNow (NewObjectID w).2).2).1, IsActive := true,
      EmailVerified := false } rfl rfl
  rw [he]
  simp only []
  split
  · exact ⟨⟨_, rfl⟩, hu⟩
  · exact ⟨⟨_, rfl⟩, hu⟩

theorem find?_email_of_HasEmail {us : List User} {email : String} (h : HasEmail us email) :
    ∃ u, us.find? (fun u => u.Email == email) = some u := by
  obtain ⟨x, hx, hxe⟩ := h
  cases hf : us.find? (fun u => u.Email == email) with
  | some u => exact ⟨u, rfl⟩
  | none =>
    rw [List.find?_eq_none] at hf
    exact absurd (by simp [hxe]) (hf x hx)

/-- In a world where some document has the address, `Register` fails and changes
nothing in the stores, whatever the schedule of driver failures; when the lookup by
address is answered, the error is `user with this email already exists`. -/
theorem Register_existing_email (deps : Deps) (w : World) (req : RegisterRequest)
    (h : HasEmail w.users req.Email) :
    (∃ e, (authService.Register deps w req).1 = .error e) ∧
      (w.faulty = false → (authService.Register deps w req).1 = .error ErrEmailTaken) ∧
      (authService.Register deps w req).2.users = w.users ∧
      SameRedis w (authService.Register deps w req).2 := by
  obtain ⟨u, hu⟩ := find?_email_of_HasEmail h
  refine ⟨?_, ?_, ?_⟩
  · unfold authService.Register
    simp only [GetByEmail_snd]
    split
    · exact ⟨_, rfl⟩
    · split
      · exact ⟨_, rfl⟩
      · split
        · exact ⟨_, rfl⟩
        · rename_i hashed _
          obtain ⟨⟨e, he⟩, _⟩ := userCreate_dup
            (utils.HashPassword deps w.sent req.Password).2
            { ID := ⟨"000000000000000000000000"⟩, Email := req.Email,
              Password := hashed, FirstName := req.FirstName,
              LastName := req.LastName, Role := req.Role, IsActive := false,
              EmailVerified := false, LastLogin := none, PasswordResetToken := none,
              PasswordResetExpiry := none, CreatedAt := 0, UpdatedAt := 0 }
            (by simpa using h)
          rw [he]
          exact ⟨_, rfl⟩
  · intro hf
    have := GetByEmail_found w req.Email u hf hu
    simp [authService.Register, this, ErrEmailTaken]
  · unfold authService.Register
    simp only [GetByEmail_snd]
    split
    · exact ⟨rfl, sent_redis w⟩
    · split
      · exact ⟨rfl, sent_redis w⟩
      · split
        · exact ⟨by simp, (sent_redis w).rtrans (HashPassword_redis _ _ _)⟩
        · rename_i hashed _
          obtain ⟨⟨e, he⟩, hus⟩ := userCreate_dup
            (utils.HashPassword deps w.sent req.Password).2
            { ID := ⟨"000000000000000000000000"⟩, Email := req.Email,
              Password := hashed, FirstName := req.FirstName,
              LastName := req.LastName, Role := req.Role, IsActive := false,
              EmailVerified := false, LastLogin := none, PasswordResetToken := none,
              PasswordResetExpiry := none, CreatedAt := 0, UpdatedAt := 0 }
            (by simpa using h)
          rw [he]
          exact ⟨by simp [hus],
            ((sent_redis w).rtrans (HashPassword_redis _ _ _)).rtrans (userCreate_redis _ _)⟩

/-- C8: after a `Register` with an address has succeeded, and after any further calls
of the service, a `Register` with the same address, whatever its other fields,
fails, and leaves the user documents and the session store as they were: neither a
second user record nor a session is created.  This holds whatever the schedule of
driver failures; when the store answers the lookup by address, the error is
`user with this email already exists`. -/
theorem Register_twice (deps : Deps) (w : World) (req : RegisterRequest)
    (resp : AuthResponse) (ops : List Op) (req2 : RegisterRequest)
    (hreg : (authService.Register deps w req).1 = .ok resp)
    (hsame : req2.Email = req.Email) :
    (∃ e, (authService.Register deps
        (run deps (authService.Register deps w req).2 ops) req2).1 = .error e) ∧
      ((run deps (authService.Register deps w req).2 ops).faulty = false →
        (authService.Register deps
          (run deps (authService.Register deps w req).2 ops) req2).1 = .error ErrEmailTaken) ∧
      (authService.Register deps
        (run deps (authService.Register deps w req).2 ops) req2).2.users
          = (run deps (authService.Register deps w req).2 ops).users ∧
      SameRedis (run deps (authService.Register deps w req).2 ops)
        (authService.Register deps (run deps (authService.Register deps w req).2 ops) req2).2 := by
  obtain ⟨user, husers, hemail, _⟩ := Register_ok deps w req resp hreg
  have h1 : HasEmail (authService.Register deps w req).2.users req2.Email :=
    ⟨user, by rw [husers]; simp, by rw [hemail, hsame]⟩
  exact Register_existing_email deps _ req2 (run_keeps_emails deps ops _ _ h1)

/-- C8 at work: `newcomer` registers, logs in, asks for a password reset, and the
address is then registered again under another name, password and role. -/
theorem Register_twice_witness :
    (authService.Register sampleDeps
      (run sampleDeps (authService.Register sampleDeps twoUsers newcomer).2
        [.login ⟨"n@x.com", "pw12345678"⟩, .requestPasswordReset "n@x.com"])
      ⟨"n@x.com", "anotherpassword", "X", "Y", RoleAdmin⟩).1 = .error ErrEmailTaken :=
  (Register_twice sampleDeps twoUsers newcomer newcomerResponse
    [.login ⟨"n@x.com", "pw12345678"⟩, .requestPasswordReset "n@x.com"]
    ⟨"n@x.com", "anotherpassword", "X", "Y", RoleAdmin⟩ (by decide) rfl).2.1 (by decide)

/-! ## A successful password reset, step by step -/

/-- An `UpdateOne` that reports a match rewrote the first matching document. -/
theorem mongoUpdateOne_ok (w : World) (p : User → Bool) (f : User → User) (n : Nat)
    (h : (mongoUpdateOne w p f).1 = .ok n) (hn : n ≠ 0) :
    (mongoUpdateOne w p f).2.users = updateFirst p f w.users := by
  unfold mongoUpdateOne at h ⊢
  split at h
  · simp at h
  · rename_i hf
    simp only [hf]
    split at h
    · simp only [Except.ok.injEq] at h
      exact absurd h.symm hn
    · rename_i v hv
      split at h
      · simp at h
      · rename_i hg
        simp only [hg]
        rfl

/-- A successful `Update` wrote the record over the first document with its
identifier. -/
theorem Update_ok (w : World) (u : User) (h : (mongoUserRepository.Update w u).1 = none) :
    (mongoUserRepository.Update w u).2.users =
      updateFirst (fun v => v.ID == u.ID) (fun _ => { u with UpdatedAt := w.tick.now })
        w.users := by
  unfold mongoUserRepository.Update at h ⊢
  simp only [timeNow] at h ⊢
  cases hr : (mongoUpdateOne w.tick (fun v => v.ID == u.ID)
      (fun _ => { u with UpdatedAt := w.tick.now })).1 with
  | error e => simp only [hr] at h; simp at h
  | ok n =>
    simp only [hr] at h ⊢
    by_cases hn : n = 0
    · simp [hn] at h
    · simp only [hn, if_false]
      exact mongoUpdateOne_ok _ _ _ n hr hn

/-- A successful `ClearPasswordResetToken` parsed the identifier and removed both
fields from the first document with it. -/
theorem ClearPasswordResetToken_ok (w : World) (id : String)
    (h : (mongoUserRepository.ClearPasswordResetToken w id).1 = none) :
    ∃ objectID, ObjectIDFromHex id = some objectID ∧
      (mongoUserRepository.ClearPasswordResetToken w id).2.users =
        updateFirst (fun v => v.ID == objectID)
          (fun v => { v with
            PasswordResetToken := none, PasswordResetExpiry := none,
            UpdatedAt := w.tick.now }) w.users := by
  unfold mongoUserRepository.ClearPasswordResetToken at h ⊢
  cases hid : ObjectIDFromHex id with
  | none => simp [hid] at h
  | some objectID =>
    refine ⟨objectID, rfl, ?_⟩
    simp only [hid, timeNow] at h ⊢
    cases hr : (mongoUpdateOne w.tick (fun v => v.ID == objectID)
        (fun v => { v with
          PasswordResetToken := none, PasswordResetExpiry := none,
          UpdatedAt := w.tick.now })).1 with
    | error e => simp only [hr] at h; simp at h
    | ok n =>
      simp only [hr] at h ⊢
      by_cases hn : n = 0
      · simp [hn] at h
      · simp only [hn, if_false]
        exact mongoUpdateOne_ok _ _ _ n hr hn

/-- What a successful `ResetPassword` did: it found `user` by the token, hashed the
new password, wrote the hash on the document with the identifier of `user`, cleared
the token fields on the document with the parsed identifier, all without touching
Redis, and ended with `DeleteAllUserSessions`. -/
theorem ResetPassword_ok (deps : Deps) (w : World) (req : ResetPasswordRequest)
    (h : (authService.ResetPassword deps w req).1 = none) :
    ∃ (user : User) (hashed : String) (salt : List Nat) (objectID : ObjectID) (w4 : World)
      (t1 t2 : Int),
      (mongoUserRepository.GetByPasswordResetToken w req.Token).1 = .ok user ∧
      deps.bcryptGenerate salt req.NewPassword = .ok hashed ∧
      ObjectIDFromHex user.ID.Hex = some objectID ∧
      w4.users =
        updateFirst (fun v => v.ID == objectID)
          (fun v => { v with
            PasswordResetToken := none, PasswordResetExpiry := none, UpdatedAt := t2 })
          (updateFirst (fun v => v.ID == user.ID)
            (fun _ => { user with Password := hashed, UpdatedAt := t1 }) w.users) ∧
      SameRedis w w4 ∧ Env w w4 ∧
      (authService.ResetPassword deps w req).2 =
        (redisSessionRepository.DeleteAllUserSessions w4 user.ID.Hex).2 := by
  unfold authService.ResetPassword at h ⊢
  simp only [GetByPasswordResetToken_snd] at h ⊢
  cases h1 : (mongoUserRepository.GetByPasswordResetToken w req.Token).1 with
  | error e => simp only [h1] at h; simp at h
  | ok user =>
    simp only [h1] at h ⊢
    cases h2 : (utils.HashPassword deps w.tick.sent req.NewPassword).1 with
    | error e => simp only [h2] at h; simp at h
    | ok hashed =>
      simp only [h2] at h ⊢
      obtain ⟨salt, hsalt⟩ := HashPassword_ok _ _ _ _ h2
      cases h3 : (mongoUserRepository.Update
          (utils.HashPassword deps w.tick.sent req.NewPassword).2
          { user with Password := hashed }).1 with
      | some e => simp only [h3] at h; simp at h
      | none =>
        simp only [h3] at h ⊢
        have hu3 := Update_ok _ _ h3
        cases h4 : (mongoUserRepository.ClearPasswordResetToken
            (mongoUserRepository.Update
              (utils.HashPassword deps w.tick.sent req.NewPassword).2
              { user with Password := hashed }).2
            user.ID.Hex).1 with
        | some e => simp only [h4] at h; simp at h
        | none =>
          simp only [h4] at h ⊢
          obtain ⟨objectID, hid, hu4⟩ := ClearPasswordResetToken_ok _ _ h4
          refine ⟨user, hashed, salt, objectID, _,
            (utils.HashPassword deps w.tick.sent req.NewPassword).2.tick.now,
            (mongoUserRepository.Update
              (utils.HashPassword deps w.tick.sent req.NewPassword).2
              { user with Password := hashed }).2.tick.now,
            rfl, hsalt, hid, ?_, ?_, ?_, rfl⟩
          · rw [hu4, hu3]
            simp
          · exact ((((show SameRedis w w.tick.sent from ⟨rfl, rfl⟩).rtrans
              (HashPassword_redis deps w.tick.sent req.NewPassword)).rtrans
              (Update_redis _ _)).rtrans (ClearPasswordResetToken_redis _ _))
          · exact ((((tick_env w).trans (sent_env _)).trans
              (HashPassword_env deps w.tick.sent req.NewPassword)).trans
              (Update_env _ _)).trans (ClearPasswordResetToken_env _ _)

/-! ### The user documents after the two writes -/

theorem updateFirst_eq_map (id : ObjectID) (g : User → User) (us : List User)
    (hnd : (us.map (fun u => u.ID)).Nodup) :
    updateFirst (fun v => v.ID == id) g us = us.map (fun v => if v.ID = id then g v else v) := by
  induction us with
  | nil => rfl
  | cons u rest ih =>
    simp only [List.map_cons, List.nodup_cons, List.mem_map, not_exists, not_and] at hnd
    unfold updateFirst
    by_cases hu : u.ID = id
    · have hrest : rest.map (fun v => if v.ID = id then g v else v) = rest := by
        conv_rhs => rw [← List.map_id rest]
        apply List.map_congr_left
        intro v hv
        have : v.ID ≠ id := fun h => hnd.1 v hv (h.trans hu.symm)
        simp [this]
      simp [hu, hrest]
    · have : (u.ID == id) = false := by simpa using hu
      simp only [this, Bool.false_eq_true, if_false, List.map_cons, hu]
      rw [ih hnd.2]

/-- With distinct identifiers, and the identifier of `user` in canonical form, the
two writes of a successful reset amount to replacing the document of `user` by the
record with the new hash and without reset token. -/
theorem reset_users (users : List User) (user : User) (hashed : String) (t1 t2 : Int)
    (hnd : (users.map (fun u => u.ID)).Nodup) :
    updateFirst (fun v => v.ID == user.ID)
        (fun v => { v with
          PasswordResetToken := none, PasswordResetExpiry := none, UpdatedAt := t2 })
        (updateFirst (fun v => v.ID == user.ID)
          (fun _ => { user with Password := hashed, UpdatedAt := t1 }) users)
      = users.map (fun v =>
          if v.ID = user.ID then
            { user with
              Password := hashed, PasswordResetToken := none, PasswordResetExpiry := none,
              UpdatedAt := t2 }
          else v) := by
  rw [updateFirst_eq_map user.ID _ users hnd]
  have hnd' : ((users.map (fun v =>
      if v.ID = user.ID then { user with Password := hashed, UpdatedAt := t1 } else v)).map
      (fun u => u.ID)).Nodup := by
    have : (users.map (fun v =>
        if v.ID = user.ID then { user with Password := hashed, UpdatedAt := t1 } else v)).map
        (fun u => u.ID) = users.map (fun u => u.ID) := by
      rw [List.map_map]
      apply List.map_congr_left
      intro v _
      by_cases hv : v.ID = user.ID <;> simp [hv]
    rw [this]; exact hnd
  rw [updateFirst_eq_map user.ID _ _ hnd', List.map_map]
  apply List.map_congr_left
  intro v _
  by_cases hv : v.ID = user.ID <;> simp [hv]

/-- A reset whose token no document holds with an expiry in the future fails and
changes nothing in the stores. -/
theorem ResetPassword_unmatched (deps : Deps) (w : World) (req : ResetPasswordRequest)
    (hnone : w.users.find? (mongoUserRepository.resetTokenFilter req.Token w.tick.now) = none) :
    (authService.ResetPassword deps w req).1 = some ErrInvalidOrExpiredToken ∧
      (authService.ResetPassword deps w req).2.users = w.users ∧
      (authService.ResetPassword deps w req).2.sessions = w.sessions ∧
      (authService.ResetPassword deps w req).2.userSessions = w.userSessions := by
  by_cases hf : w.faulty = true <;>
    simp [authService.ResetPassword, GetByPasswordResetToken_eq, hf, hnone,
      ErrInvalidOrExpiredToken]

/-! ## C6: the reset token is used up -/

/-- C6: let the token be held by `user` alone, whose identifier is in canonical form,
among documents with distinct identifiers.  After a successful `ResetPassword` the
document of `user` is still there, with neither reset token nor expiry; and in every
world with these user documents, whatever its clock and its schedule of failures, a
`ResetPassword` with the same token fails with `invalid or expired reset token` and
leaves the documents as they are, so every further attempt fails as well. -/
theorem ResetPassword_single_use (deps : Deps) (w : World) (req : ResetPasswordRequest)
    (user : User)
    (hnd : (w.users.map (fun u => u.ID)).Nodup)
    (hwf : ObjectIDFromHex user.ID.Hex = some user.ID)
    (hlookup : (mongoUserRepository.GetByPasswordResetToken w req.Token).1 = .ok user)
    (huniq : ∀ v ∈ w.users, v.PasswordResetToken = some req.Token → v.ID = user.ID)
    (hreset : (authService.ResetPassword deps w req).1 = none) :
    (∃ v ∈ (authService.ResetPassword deps w req).2.users, v.ID = user.ID) ∧
    (∀ v ∈ (authService.ResetPassword deps w req).2.users, v.ID = user.ID →
      v.PasswordResetToken = none ∧ v.PasswordResetExpiry = none) ∧
    (∀ (w' : World) (req' : ResetPasswordRequest),
      w'.users = (authService.ResetPassword deps w req).2.users → req'.Token = req.Token →
      (authService.ResetPassword deps w' req').1 = some ErrInvalidOrExpiredToken ∧
        (authService.ResetPassword deps w' req').2.users = w'.users) := by
  obtain ⟨user', hashed, salt, objectID, w4, t1, t2, hl, _, hid, hu4, _, _, hfin⟩ :=
    ResetPassword_ok deps w req hreset
  rw [hlookup] at hl
  cases hl
  rw [hwf] at hid
  cases hid
  rw [reset_users w.users user hashed t1 t2 hnd] at hu4
  have husers : (authService.ResetPassword deps w req).2.users = w.users.map (fun v =>
      if v.ID = user.ID then
        { user with
          Password := hashed, PasswordResetToken := none, PasswordResetExpiry := none,
          UpdatedAt := t2 }
      else v) := by
    rw [hfin, DeleteAllUserSessions_users, hu4]
  have hmem : user ∈ w.users :=
    List.mem_of_find?_eq_some (GetByPasswordResetToken_mem _ _ _ hlookup)
  refine ⟨?_, ?_, ?_⟩
  · rw [husers]
    exact ⟨_, List.mem_map.mpr ⟨user, hmem, rfl⟩, by simp⟩
  · intro v hv hvid
    rw [husers] at hv
    obtain ⟨x, _, hxv⟩ := List.mem_map.mp hv
    by_cases hx : x.ID = user.ID
    · simp only [hx, if_true] at hxv
      rw [← hxv]
      exact ⟨rfl, rfl⟩
    · simp only [hx, if_false] at hxv
      rw [hxv] at hx
      exact absurd hvid hx
  · intro w' req' hw' htok
    have hnone : w'.users.find?
        (mongoUserRepository.resetTokenFilter req'.Token w'.tick.now) = none := by
      rw [List.find?_eq_none]
      intro v hv
      rw [hw', husers] at hv
      obtain ⟨x, hxmem, hxv⟩ := List.mem_map.mp hv
      by_cases hx : x.ID = user.ID
      · simp only [hx, if_true] at hxv
        rw [← hxv]
        simp [mongoUserRepository.resetTokenFilter]
      · simp only [hx, if_false] at hxv
        rw [← hxv]
        have : x.PasswordResetToken ≠ some req.Token := fun h => hx (huniq x hxmem h)
        simp [mongoUserRepository.resetTokenFilter, htok, this]
    have := ResetPassword_unmatched deps w' req' hnone
    exact ⟨this.1, this.2.1⟩

/-- C6 at work: `carol` resets her password with `tok`; the token is gone from her
document and a second reset with `tok` fails. -/
theorem ResetPassword_single_use_witness :
    (authService.ResetPassword sampleDeps (carolWorld 1000) ⟨"tok", "newpassword"⟩).1 = none ∧
    (∀ v ∈ (authService.ResetPassword sampleDeps (carolWorld 1000)
        ⟨"tok", "newpassword"⟩).2.users,
      v.ID = carol.ID → v.PasswordResetToken = none ∧ v.PasswordResetExpiry = none) ∧
    (authService.ResetPassword sampleDeps
      (authService.ResetPassword sampleDeps (carolWorld 1000) ⟨"tok", "newpassword"⟩).2
      ⟨"tok", "thirdpassword"⟩).1 = some ErrInvalidOrExpiredToken :=
  have h := ResetPassword_single_use sampleDeps (carolWorld 1000) ⟨"tok", "newpassword"⟩ carol
    (by decide) (by decide) (by decide) (by decide) (by decide)
  ⟨by decide, h.2.1, (h.2.2 _ ⟨"tok", "thirdpassword"⟩ rfl rfl).1⟩

/-! ## C4: logging in after a password reset -/

theorem setKey_setKey {α : Type} (m : String → Option α) (k : String) (a b : Option α) :
    setKey (setKey m k a) k b = setKey m k b := by
  funext k'
  by_cases h : k' = k <;> simp [setKey, h]

theorem userSessionsAt_some {w : World} {uid : String} {ie : Entry (List String)}
    (h : w.userSessionsAt uid = some ie) :
    w.userSessions uid = some ie ∧ ie.live w.now = true := by
  unfold World.userSessionsAt at h
  split at h
  · rename_i e he
    split at h
    · rename_i hl
      cases h
      exact ⟨he, hl⟩
    · cases h
  · cases h

theorem userSessionsAt_of {w : World} {uid : String} {ie : Entry (List String)}
    (h : w.userSessions uid = some ie) (hl : ie.live w.now = true) :
    w.userSessionsAt uid = some ie := by
  simp [World.userSessionsAt, h, hl]

/-- What `formatMs` sends for a positive duration: at least one millisecond, less than
a millisecond under the duration, and no more than the duration once that is a
millisecond or longer. -/
theorem formatMs_bounds {d : Int} (hd : 0 < d) :
    0 < formatMs d ∧ d < formatMs d * Millisecond + Millisecond ∧
      (Millisecond ≤ d → formatMs d * Millisecond ≤ d) := by
  unfold formatMs Millisecond
  by_cases h : d < 1000000
  · rw [if_pos ⟨hd, h⟩]
    omega
  · rw [if_neg (by omega), Int.tdiv_eq_ediv (by omega) (by decide)]
    omega

/-- What `formatSec` sends for a positive duration: at least one second, less than a
second under the duration, and no more than the duration once that is a second or
longer. -/
theorem formatSec_bounds {d : Int} (hd : 0 < d) :
    0 < formatSec d ∧ d < formatSec d * Second + Second ∧
      (Second ≤ d → formatSec d * Second ≤ d) := by
  unfold formatSec Second
  by_cases h : d < 1000000000
  · rw [if_pos ⟨hd, h⟩]
    omega
  · rw [if_neg (by omega), Int.tdiv_eq_ediv (by omega) (by decide)]
    omega

theorem formatSec_nonpos {d : Int} (hd : d ≤ 0) : formatSec d ≤ 0 := by
  unfold formatSec
  rw [if_neg (by omega)]
  have h1 : d = -(-d) := by omega
  rw [h1, Int.neg_tdiv]
  have h2 := Int.tdiv_nonneg (a := -d) (b := Second) (by omega) (by decide)
  omega

/-- A duration that `Set` sends in seconds is sent exactly. -/
theorem formatSec_exact {d : Int} (h : usePrecise d = false) : formatSec d * Second = d := by
  unfold usePrecise at h
  simp only [Bool.or_eq_false_iff, decide_eq_false_iff_not, bne_eq_false_iff_eq, not_lt] at h
  obtain ⟨h1, h2⟩ := h
  unfold formatSec
  unfold Second at *
  rw [if_neg (by omega), Int.tdiv_eq_ediv (by omega) (by decide)]
  rw [Int.tmod_eq_emod (by omega) (by decide)] at h2
  omega

/-- The command `SET` with a positive expiration, when it does not fail: the key lives
until a deadline that lies less than a millisecond before the end of the expiration,
and not after it once the expiration is a millisecond or longer. -/
theorem redisSet_effect (w : World) (id : String) (v : Session) (d : Int)
    (hf : w.faults = []) (hd : 0 < d) :
    (redisSet w id v d).1 = none ∧
      (∃ dl, (redisSet w id v d).2.sessions = setKey w.sessions id (some ⟨v, some dl⟩) ∧
        w.now + d < dl + Millisecond ∧ (Millisecond ≤ d → dl ≤ w.now + d)) ∧
      (redisSet w id v d).2.userSessions = w.userSessions ∧
      (redisSet w id v d).2.now = w.now ∧ (redisSet w id v d).2.faults = [] := by
  have h1 : (redisSet w id v d).1 = none := by simp [redisSet, faulty_of_no_faults hf]
  have h3 : (redisSet w id v d).2.userSessions = w.userSessions := by
    simp [redisSet, faulty_of_no_faults hf]
  have h4 : (redisSet w id v d).2.now = w.now := by simp [redisSet, faulty_of_no_faults hf]
  have h5 : (redisSet w id v d).2.faults = [] := by
    simp [redisSet, faulty_of_no_faults hf, sent_of_no_faults hf, hf]
  refine ⟨h1, ?_, h3, h4, h5⟩
  cases hp : usePrecise d with
  | true =>
    obtain ⟨_, h2, h3⟩ := formatMs_bounds hd
    refine ⟨w.now + formatMs d * Millisecond, ?_, by omega, fun h => ?_⟩
    · simp [redisSet, faulty_of_no_faults hf, hd, hp]
    · have := h3 h
      omega
  | false =>
    have := formatSec_exact hp
    refine ⟨w.now + formatSec d * Second, ?_, by unfold Millisecond; omega, fun _ => by omega⟩
    simp [redisSet, faulty_of_no_faults hf, hd, hp]

theorem redisSAdd_effect (w : World) (uid member : String) (hf : w.faults = []) :
    (redisSAdd w uid member).1 = none ∧
      (redisSAdd w uid member).2.sessions = w.sessions ∧
      (redisSAdd w uid member).2.now = w.now ∧ (redisSAdd w uid member).2.faults = [] ∧
      ∃ ie : Entry (List String),
        (redisSAdd w uid member).2.userSessions = setKey w.userSessions uid (some ie) ∧
        ie.live w.now = true ∧ member ∈ ie.val ∧
        ∀ old, w.userSessionsAt uid = some old → ∀ x ∈ old.val, x ∈ ie.val := by
  unfold redisSAdd
  rw [faulty_of_no_faults hf, sent_of_no_faults hf]
  simp only [Bool.false_eq_true, if_false]
  cases hidx : w.userSessionsAt uid with
  | none =>
    refine ⟨rfl, rfl, rfl, hf, ⟨[member], none⟩, rfl, rfl, by simp, ?_⟩
    intro old hold
    cases hold
  | some old =>
    refine ⟨rfl, rfl, rfl, hf, ⟨_, old.deadline⟩, rfl, (userSessionsAt_some hidx).2, ?_, ?_⟩
    · by_cases hm : member ∈ old.val <;> simp [hm]
    · intro old' hold' x hx
      cases hold'
      by_cases hm : member ∈ old.val <;> simp [hm, hx]

/-- The command `EXPIRE` with a positive expiration on a key that is present, when it
does not fail: the key lives for the whole seconds of the expiration. -/
theorem redisExpire_effect (w : World) (uid : String) (d : Int) (ie : Entry (List String))
    (hf : w.faults = []) (hd : 0 < d) (h : w.userSessions uid = some ie)
    (hl : ie.live w.now = true) :
    (redisExpire w uid d).1 = none ∧
      (redisExpire w uid d).2.sessions = w.sessions ∧
      (redisExpire w uid d).2.now = w.now ∧ (redisExpire w uid d).2.faults = [] ∧
      (redisExpire w uid d).2.userSessions
        = setKey w.userSessions uid (some ⟨ie.val, some (w.now + formatSec d * Second)⟩) := by
  unfold redisExpire
  rw [faulty_of_no_faults hf, sent_of_no_faults hf, userSessionsAt_of h hl]
  simp [(formatSec_bounds hd).1, hf]

/-- The command `EXPIRE` with an expiration that is not positive on a key that is
present, when it does not fail: the key is deleted. -/
theorem redisExpire_expired (w : World) (uid : String) (d : Int) (ie : Entry (List String))
    (hf : w.faults = []) (hd : d ≤ 0) (h : w.userSessions uid = some ie)
    (hl : ie.live w.now = true) :
    (redisExpire w uid d).1 = none ∧
      (redisExpire w uid d).2.sessions = w.sessions ∧
      (redisExpire w uid d).2.now = w.now ∧ (redisExpire w uid d).2.faults = [] ∧
      (redisExpire w uid d).2.userSessions = setKey w.userSessions uid none := by
  unfold redisExpire
  rw [faulty_of_no_faults hf, sent_of_no_faults hf, userSessionsAt_of h hl]
  have := formatSec_nonpos hd
  simp [not_lt.mpr this, hf]

/-- The session store after a `Create` that no command fails and that finds the
session unexpired.  The session is stored under its id; its key lives until a
deadline less than a millisecond before the expiry instant, and not after that
instant when the session has a millisecond or more to live.  The index of its user,
extended by the id, is set to expire less than a second before the expiry instant. -/
theorem sessionCreate_effect (w : World) (s : Session) (hf : w.faults = [])
    (hd : w.tick.now < s.ExpiresAt) :
    (redisSessionRepository.Create w s).2.now = w.tick.now ∧
    (∃ dl, (redisSessionRepository.Create w s).2.sessions
        = setKey w.sessions s.ID (some ⟨s, some dl⟩) ∧
      s.ExpiresAt < dl + Millisecond ∧
      (w.tick.now + Millisecond ≤ s.ExpiresAt → dl ≤ s.ExpiresAt)) ∧
    ∃ (members : List String) (dli : Int),
      (redisSessionRepository.Create w s).2.userSessions
        = setKey w.userSessions s.UserID (some ⟨members, some dli⟩) ∧
      s.ExpiresAt < dli + Second ∧ w.tick.now < dli ∧
      s.ID ∈ members ∧
      ∀ ie, w.tick.userSessionsAt s.UserID = some ie → ∀ x ∈ ie.val, x ∈ members := by
  have hf1 : w.tick.faults = [] := by simpa using hf
  have hd' : 0 < s.ExpiresAt - w.tick.now := by omega
  obtain ⟨a1, ⟨dl, a2, a2a, a2b⟩, a3, a4, a5⟩ := redisSet_effect w.tick s.ID s _ hf1 hd'
  obtain ⟨b1, b2, b3, b4, ie, b5, b6, b7, b8⟩ :=
    redisSAdd_effect (redisSet w.tick s.ID s (s.ExpiresAt - w.tick.now)).2 s.UserID s.ID a5
  obtain ⟨c1, c2, c3, c4, c5⟩ := redisExpire_effect
    (redisSAdd (redisSet w.tick s.ID s (s.ExpiresAt - w.tick.now)).2 s.UserID s.ID).2
    s.UserID (s.ExpiresAt - w.tick.now) ie b4 hd' (by rw [b5]; simp) (by rw [b3]; exact b6)
  obtain ⟨f1, f2, _⟩ := formatSec_bounds hd'
  unfold redisSessionRepository.Create
  simp only [timeNow, a1, b1, c1]
  refine ⟨by rw [c3, b3, a4], ⟨dl, by rw [c2, b2, a2]; rfl, by omega, fun h => ?_⟩,
    ie.val, w.tick.now + formatSec (s.ExpiresAt - w.tick.now) * Second, ?_, by omega,
    by unfold Second at *; omega, b7, ?_⟩
  · have := a2b (by omega)
    omega
  · rw [c5, b5, setKey_setKey, a3, b3, a4]; rfl
  · intro old hold x hx
    have : World.userSessionsAt (redisSet w.tick s.ID s (s.ExpiresAt - w.tick.now)).2
        s.UserID = some old := by
      obtain ⟨h1, h2⟩ := userSessionsAt_some hold
      exact userSessionsAt_of (by rw [a3]; exact h1) (by rw [a4]; exact h2)
    exact b8 old this x hx

theorem redisSet_ok (w : World) (id : String) (v : Session) (d : Int) (hf : w.faults = []) :
    (redisSet w id v d).1 = none ∧
      (∃ dl, (redisSet w id v d).2.sessions = setKey w.sessions id (some ⟨v, dl⟩)) ∧
      (redisSet w id v d).2.userSessions = w.userSessions ∧
      (redisSet w id v d).2.now = w.now ∧ (redisSet w id v d).2.faults = [] := by
  unfold redisSet
  rw [faulty_of_no_faults hf, sent_of_no_faults hf]
  exact ⟨rfl, ⟨_, rfl⟩, rfl, rfl, hf⟩

/-- The session store after a `Create` that no command fails and that finds the
session expired: the session is stored under its id, and the index of its user is
deleted. -/
theorem sessionCreate_expired (w : World) (s : Session) (hf : w.faults = [])
    (hd : s.ExpiresAt ≤ w.tick.now) :
    (redisSessionRepository.Create w s).2.now = w.tick.now ∧
    (∃ dl, (redisSessionRepository.Create w s).2.sessions
      = setKey w.sessions s.ID (some ⟨s, dl⟩)) ∧
    (redisSessionRepository.Create w s).2.userSessions
      = setKey w.userSessions s.UserID none := by
  have hf1 : w.tick.faults = [] := by simpa using hf
  have hd' : s.ExpiresAt - w.tick.now ≤ 0 := by omega
  obtain ⟨a1, ⟨dl, a2⟩, a3, a4, a5⟩ :=
    redisSet_ok w.tick s.ID s (s.ExpiresAt - w.tick.now) hf1
  obtain ⟨b1, b2, b3, b4, ie, b5, b6, b7, b8⟩ :=
    redisSAdd_effect (redisSet w.tick s.ID s (s.ExpiresAt - w.tick.now)).2 s.UserID s.ID a5
  obtain ⟨c1, c2, c3, c4, c5⟩ := redisExpire_expired
    (redisSAdd (redisSet w.tick s.ID s (s.ExpiresAt - w.tick.now)).2 s.UserID s.ID).2
    s.UserID (s.ExpiresAt - w.tick.now) ie b4 hd' (by rw [b5]; simp) (by rw [b3]; exact b6)
  unfold redisSessionRepository.Create
  simp only [timeNow, a1, b1, c1]
  exact ⟨by rw [c3, b3, a4], ⟨dl, by rw [c2, b2, a2]; rfl⟩,
    by rw [c5, b5, setKey_setKey, a3]; rfl⟩

/-! ## The invariant `Listed` along the calls -/

/-- The invariant survives every call that leaves Redis alone, and every later
bound. -/
theorem Listed.weaken {bound bound2 : Int} {w w' : World} (h : Listed bound w)
    (hr : SameRedis w w') (hn : w.now ≤ w'.now) (hb : bound ≤ bound2) :
    Listed bound2 w' := by
  intro id e he
  rw [hr.sessions] at he
  obtain ⟨h1, h3⟩ := h id e he
  refine ⟨by omega, ?_⟩
  intro hlt
  obtain ⟨ie, hie, hmem, hdl⟩ := h3 (by omega)
  exact ⟨ie, by rw [hr.userSessions]; exact hie, hmem, hdl⟩

/-- The invariant survives every call that leaves Redis alone. -/
theorem Indexed.mono {lifetime : Int} {w w' : World} (h : Indexed lifetime w)
    (hr : SameRedis w w') (hn : w.now ≤ w'.now) : Indexed lifetime w' :=
  Listed.weaken h hr hn (by omega)

/-- A key that expires less than a second before `expiry` is present as long as
`expiry` is a second or more away. -/
theorem Entry.live_of_deadline_gt {ie : Entry (List String)} {now expiry : Int}
    (hdl : ∀ d, ie.deadline = some d → expiry < d + Second) (hlt : now + Second ≤ expiry) :
    ie.live now = true := by
  unfold Entry.live
  cases hd : ie.deadline with
  | none => rfl
  | some d =>
    have := hdl d hd
    simp
    omega

/-- The invariant `Listed` survives the `Create` of a session that expires no earlier
than the sessions stored so far, whether or not the session has already expired. -/
theorem Listed.after_create {bound : Int} {w : World} (s : Session) (h : Listed bound w)
    (hf : w.faults = []) (hb : bound ≤ s.ExpiresAt) :
    Listed s.ExpiresAt (redisSessionRepository.Create w s).2 := by
  have hge := tick_now_ge w
  by_cases hlt : w.tick.now < s.ExpiresAt
  · obtain ⟨hnow, ⟨dl, hsess, _, _⟩, members, dli, hidx, hdli, _, hmem, hold⟩ :=
      sessionCreate_effect w s hf hlt
    intro id e he
    rw [hsess] at he
    rw [hnow, hidx]
    by_cases hid : id = s.ID
    · subst hid
      simp only [setKey_same, Option.some.injEq] at he
      subst he
      refine ⟨le_refl _, fun _ => ?_⟩
      exact ⟨⟨members, some dli⟩, by simp, hmem, by intro d hd; cases hd; exact hdli⟩
    · rw [setKey_other _ _ hid] at he
      obtain ⟨h1, h3⟩ := h id e he
      refine ⟨by omega, ?_⟩
      intro hlt'
      obtain ⟨ie, hie, hmem', hdl⟩ := h3 (by omega)
      by_cases hu : e.val.UserID = s.UserID
      · have hlive : ie.live w.tick.now = true := Entry.live_of_deadline_gt hdl hlt'
        have hat : w.tick.userSessionsAt s.UserID = some ie :=
          userSessionsAt_of (by rw [← hu]; exact hie) hlive
        refine ⟨⟨members, some dli⟩, by rw [hu]; simp, hold ie hat id hmem', ?_⟩
        intro d hd
        cases hd
        omega
      · exact ⟨ie, by rw [setKey_other _ _ hu]; exact hie, hmem', hdl⟩
  · obtain ⟨hnow, ⟨dl, hsess⟩, _⟩ := sessionCreate_expired w s hf (by omega)
    intro id e he
    rw [hsess] at he
    have hexp : e.val.ExpiresAt ≤ s.ExpiresAt := by
      by_cases hid : id = s.ID
      · subst hid
        simp only [setKey_same, Option.some.injEq] at he
        subst he
        exact le_refl _
      · rw [setKey_other _ _ hid] at he
        exact le_trans (h id e he).1 hb
    refine ⟨hexp, fun hlt' => ?_⟩
    rw [hnow] at hlt'
    unfold Second at hlt'
    omega

/-- The invariant survives the `Create` of a session that expires one lifetime after
the current instant, whatever the clock does. -/
theorem Indexed.create {lifetime : Int} {w : World} (s : Session) (h : Indexed lifetime w)
    (hf : w.faults = []) (hexp : s.ExpiresAt = w.now + lifetime) :
    Indexed lifetime (redisSessionRepository.Create w s).2 := by
  have h1 : Listed s.ExpiresAt (redisSessionRepository.Create w s).2 :=
    @Listed.after_create (w.now + lifetime) w s h hf (by omega)
  have hnow := (sessionCreate_env w s).now_le
  exact Listed.weaken h1 (SameRedis.rrefl _) (le_refl _) (by omega)

theorem newSession_expiry (deps : Deps) (w : World) (u : User) :
    (authService.newSession deps w u).1.ExpiresAt
      = (authService.newSession deps w u).2.now + deps.config.SessionExpiresIn := rfl

theorem newSession_redis (deps : Deps) (w : World) (u : User) :
    SameRedis w (authService.newSession deps w u).2 := ⟨rfl, rfl⟩

/-- The invariant survives the tail of `Register` and `Login`. -/
theorem Indexed.issue (deps : Deps) (w : World) (u : User)
    (h : Indexed deps.config.SessionExpiresIn w) (hf : w.faults = []) :
    Indexed deps.config.SessionExpiresIn (authService.issue deps w u).2 := by
  have e1 := newSession_env deps w u
  have h1 := h.mono (newSession_redis deps w u) e1.now_le
  have h2 := Indexed.create (authService.newSession deps w u).1 h1 (e1.faults hf)
    (newSession_expiry deps w u)
  unfold authService.issue
  split
  · exact h
  · simp only []
    split <;> exact h2

/-! ### Deletions -/

theorem redisDelSession_effect (w : World) (id : String) (hf : w.faults = []) :
    (redisDelSession w id).2.sessions = setKey w.sessions id none ∧
      (redisDelSession w id).2.userSessions = w.userSessions ∧
      (redisDelSession w id).2.now = w.now ∧ (redisDelSession w id).2.faults = [] := by
  simp [redisDelSession, faulty_of_no_faults hf, sent_of_no_faults hf, hf]

theorem redisSRem_effect (w : World) (uid member : String) (hf : w.faults = []) :
    (redisSRem w uid member).2.sessions = w.sessions ∧
      (redisSRem w uid member).2.now = w.now ∧ (redisSRem w uid member).2.faults = [] ∧
      ((redisSRem w uid member).2.userSessions = w.userSessions ∨
        ∃ ie, w.userSessions uid = some ie ∧
          (redisSRem w uid member).2.userSessions = setKey w.userSessions uid
            (if ie.val.erase member = [] then none
             else some ⟨ie.val.erase member, ie.deadline⟩)) := by
  unfold redisSRem
  rw [faulty_of_no_faults hf, sent_of_no_faults hf]
  simp only [Bool.false_eq_true, if_false]
  cases hidx : w.userSessionsAt uid with
  | none => exact ⟨rfl, rfl, hf, Or.inl rfl⟩
  | some ie => exact ⟨rfl, rfl, hf, Or.inr ⟨ie, (userSessionsAt_some hidx).1, rfl⟩⟩

theorem redisGet_absent (w : World) (id : String) (hf : w.faults = [])
    (h : w.sessionAt id = none) : (redisGet w id).1 = .error .redisNil := by
  simp [redisGet, faulty_of_no_faults hf, h]

/-- An id whose key is absent: `Get` answers `session not found`. -/
theorem Get_absent (fuel : Nat) (w : World) (id : String) (hf : w.faults = [])
    (h : w.sessionAt id = none) :
    redisSessionRepository.Get (fuel + 1) w id = some (.error ErrSessionNotFound, w.sent) := by
  simp [redisSessionRepository.Get, redisGet_absent w id hf h, redisGet_snd,
    ErrSessionNotFound]

/-- An id whose key is absent: `Delete` leaves Redis alone. -/
theorem Delete_absent (fuel : Nat) (w : World) (id : String) (hf : w.faults = [])
    (h : w.sessionAt id = none) :
    ∀ r, redisSessionRepository.Delete fuel w id = some r → SameRedis w r.2 := by
  intro r hr
  cases fuel with
  | zero => simp [redisSessionRepository.Delete] at hr
  | succ n =>
    cases n with
    | zero => simp [redisSessionRepository.Delete, redisSessionRepository.Get] at hr
    | succ m =>
      simp only [redisSessionRepository.Delete, Get_absent m w id hf h] at hr
      cases hr
      exact sent_redis w

theorem redisGet_ok (w : World) (id : String) (s : Session)
    (h : (redisGet w id).1 = .ok s) : ∃ e, w.sessionAt id = some e ∧ e.val = s := by
  unfold redisGet at h
  split at h
  · simp at h
  · split at h
    · rename_i e he
      simp only [Except.ok.injEq] at h
      exact ⟨e, he, h⟩
    · simp at h

theorem sessionAt_some {w : World} {id : String} {e : Entry Session}
    (h : w.sessionAt id = some e) : w.sessions id = some e ∧ e.live w.now = true := by
  unfold World.sessionAt at h
  split at h
  · rename_i e' he
    split at h
    · rename_i hl
      cases h
      exact ⟨he, hl⟩
    · cases h
  · cases h

theorem utf8ByteSize_go_ge (cs : List Char) : cs.length ≤ String.utf8ByteSize.go cs := by
  induction cs with
  | nil => simp [String.utf8ByteSize.go]
  | cons c rest ih =>
    have hc : 0 < c.utf8Size := Char.utf8Size_pos c
    simp only [String.utf8ByteSize.go, List.length_cons]
    omega

/-- A string has at least as many bytes as characters. -/
theorem length_le_utf8ByteSize (s : String) : s.length ≤ s.utf8ByteSize := by
  cases s with
  | mk cs => exact utf8ByteSize_go_ge cs

theorem utf8ByteSize_go_ascii (cs : List Char) (h : ∀ c ∈ cs, c.val.toNat < 128) :
    String.utf8ByteSize.go cs = cs.length := by
  induction cs with
  | nil => simp [String.utf8ByteSize.go]
  | cons c rest ih =>
    have hc : c.utf8Size = 1 := by
      have := h c (by simp)
      unfold Char.utf8Size
      simp only []
      have h1 : c.val ≤ UInt32.ofNatCore 127 (by decide) := by
        show c.val.toNat ≤ 127
        omega
      have h2 : ¬ (127 : UInt32) < c.val := by
        show ¬ (127 < c.val.toNat)
        omega
      simp [h1, h2]
    simp only [String.utf8ByteSize.go, List.length_cons, hc]
    rw [ih (fun c hc => h c (by simp [hc]))]

/-- A string of ASCII characters has as many bytes as characters. -/
theorem utf8ByteSize_ascii (s : String) (h : ∀ c ∈ s.data, c.val.toNat < 128) :
    s.utf8ByteSize = s.length := by
  cases s with
  | mk cs => exact utf8ByteSize_go_ascii cs h

/-- C13 on the code: the password `éééé` has four characters, and `HashPassword` hashes
it: the length test counts the eight bytes of its UTF-8 encoding. -/
theorem HashPassword_accepts_four_characters :
    "éééé".length = 4 ∧ "éééé".utf8ByteSize = 8 ∧
    (utils.HashPassword sampleDeps emptyWorld "éééé").1 = .ok "$2a$éééé" ∧
    (utils.HashPassword sampleDeps emptyWorld "éééé").1 ≠ .error ErrWeakPassword := by
  decide

/-- C13 as far as it holds: `HashPassword` answers `password must be at least 8
characters long`, without drawing a salt and whatever `bcrypt` would do, for every
password whose UTF-8 encoding is shorter than 8 bytes, hence for every password
shorter than 8 characters that is made of ASCII characters.  A password of 8 or more
characters passes the test: the answer is then that of the salt draw and of
`bcrypt`, so the error is not returned unless `bcrypt` itself returns it. -/
theorem HashPassword_weak_password (deps : Deps) (w : World) (password : String) :
    (password.utf8ByteSize < 8 →
      utils.HashPassword deps w password = (.error ErrWeakPassword, w)) ∧
    (password.length < 8 → (∀ c ∈ password.data, c.val.toNat < 128) →
      utils.HashPassword deps w password = (.error ErrWeakPassword, w)) ∧
    (8 ≤ password.length →
      utils.HashPassword deps w password =
        (match (randRead w 16).1 with
         | none => .error .randomSource
         | some salt => deps.bcryptGenerate salt password, (randRead w 16).2) ∧
      ((∀ salt, deps.bcryptGenerate salt password ≠ .error ErrWeakPassword) →
        (utils.HashPassword deps w password).1 ≠ .error ErrWeakPassword)) := by
  have hshort : password.utf8ByteSize < 8 →
      utils.HashPassword deps w password = (.error ErrWeakPassword, w) := by
    intro h
    simp [utils.HashPassword, h, ErrWeakPassword]
  refine ⟨hshort, ?_, ?_⟩
  · intro hlen hascii
    exact hshort (by rw [utf8ByteSize_ascii password hascii]; exact hlen)
  · intro hlen
    have hbytes : ¬ password.utf8ByteSize < 8 := by
      have := length_le_utf8ByteSize password
      omega
    have heq : utils.HashPassword deps w password =
        (match (randRead w 16).1 with
         | none => .error .randomSource
         | some salt => deps.bcryptGenerate salt password, (randRead w 16).2) := by
      unfold utils.HashPassword
      simp only [hbytes, if_false]
      cases (randRead w 16).1 <;> rfl
    refine ⟨heq, ?_⟩
    intro hb
    rw [heq]
    cases hr : (randRead w 16).1 with
    | none => simp [ErrWeakPassword]
    | some salt => exact hb salt

/-- C13 at work: `short` is refused before any salt is drawn, `pw12345678` is hashed. -/
theorem HashPassword_weak_password_witness :
    utils.HashPassword sampleDeps twoUsers "short" = (.error ErrWeakPassword, twoUsers) ∧
    (utils.HashPassword sampleDeps twoUsers "pw12345678").1 = .ok "$2a$pw12345678" ∧
    (utils.HashPassword sampleDeps twoUsers "pw12345678").1 ≠ .error ErrWeakPassword :=
  ⟨(HashPassword_weak_password sampleDeps twoUsers "short").1 (by decide),
   by decide,
   ((HashPassword_weak_password sampleDeps twoUsers "pw12345678").2.2 (by decide)).2
     (by intro salt; simp [sampleDeps, ErrWeakPassword])⟩

/-! ## C14: the random token -/

theorem hexEncodeToString_length (bytes : List Nat) :
    (utils.hexEncodeToString bytes).length = 2 * bytes.length := by
  unfold utils.hexEncodeToString
  show (bytes.flatMap _).length = _
  induction bytes with
  | nil => rfl
  | cons b rest ih =>
    simp only [List.flatMap_cons, List.length_append, List.length_cons, List.length_nil, ih]
    omega

theorem hextable_getD (i : Nat) : utils.hextable.getD i '0' ∈ "0123456789abcdef".data := by
  by_cases h : i < 16
  · have : ∀ j, j < 16 → utils.hextable.getD j '0' ∈ "0123456789abcdef".data := by decide
    exact this i h
  · have hlen : utils.hextable.length ≤ i := by
      have : utils.hextable.length = 16 := by decide
      omega
    rw [List.getD_eq_default _ _ hlen]
    decide

theorem hexEncodeToString_digits (bytes : List Nat) :
    ∀ c ∈ (utils.hexEncodeToString bytes).data, c ∈ "0123456789abcdef".data := by
  unfold utils.hexEncodeToString
  intro c hc
  simp only [List.mem_flatMap, List.mem_cons, List.mem_singleton] at hc
  obtain ⟨b, _, hb⟩ := hc
  have hb' : c = utils.hextable.getD (b / 16) '0' ∨ c = utils.hextable.getD (b % 16) '0' := by
    simpa using hb
  rcases hb' with h | h <;> (rw [h]; exact hextable_getD _)

theorem randRead_length (w : World) (n : Nat) (bytes : List Nat)
    (h : (randRead w n).1 = some bytes) : bytes.length = n ∧ ∀ b ∈ bytes, b < 256 := by
  unfold randRead at h
  split at h
  · cases h
  · simp only [Option.some.injEq] at h
    subst h
    refine ⟨by simp, ?_⟩
    intro b hb
    simp only [List.mem_map] at hb
    obtain ⟨i, _, hi⟩ := hb
    omega

theorem find?_updateFirst (p : User → Bool) (f : User → User) (us : List User) (u : User)
    (h : us.find? p = some u) (hp : p (f u) = true) :
    (updateFirst p f us).find? p = some (f u) := by
  induction us with
  | nil => simp at h
  | cons v rest ih =>
    by_cases hv : p v = true
    · simp only [List.find?, hv] at h
      cases h
      simp [updateFirst, hv, List.find?, hp]
    · have hv' : p v = false := by simpa using hv
      simp only [List.find?, hv'] at h
      simp [updateFirst, hv', List.find?, ih h]

/-- A `SetPasswordResetToken` that returns no error has written the token on the first
document with the address. -/
theorem SetPasswordResetToken_ok (w : World) (email token : String) (expiry : Int) (u : User)
    (hfind : w.users.find? (fun v => v.Email == email) = some u)
    (h : (mongoUserRepository.SetPasswordResetToken w email token expiry).1 = none) :
    ((mongoUserRepository.SetPasswordResetToken w email token expiry).2.users.find?
      (fun v => v.Email == email)).map (fun v => v.PasswordResetToken) = some (some token) := by
  have hue : u.Email = email := by simpa using List.find?_some hfind
  unfold mongoUserRepository.SetPasswordResetToken mongoUpdateOne at h ⊢
  simp only [timeNow, tick_users, hfind] at h ⊢
  by_cases hf : w.tick.faulty = true
  · simp [hf] at h
  · simp only [hf, if_false, ne_eq, not_true_eq_false, false_and, Bool.false_eq_true] at h ⊢
    have h10 : ¬ ((1 : Nat) = 0) := by decide
    simp only [h10, if_false]
    rw [find?_updateFirst _ _ _ u hfind (by simpa using hue)]
    rfl

/-- C14: when the random source delivers, `GenerateRandomToken n` returns a string of
exactly `2 * n` characters, each of them one of `0123456789abcdef`.  In particular
the token that a successful `RequestPasswordReset` stores on the document of the
address, drawn with 32 bytes, has 64 such characters. -/
theorem GenerateRandomToken_hex (w : World) (n : Nat) :
    (∀ bytes, (randRead w n).1 = some bytes →
      ∃ token, (utils.GenerateRandomToken w n).1 = .ok token ∧
        token.length = 2 * n ∧ ∀ c ∈ token.data, c ∈ "0123456789abcdef".data) ∧
    (∀ (deps : Deps) (email : String) (u : User), w.faulty = false →
      w.users.find? (fun v => v.Email == email) = some u →
      (authService.RequestPasswordReset deps w email).1 = none →
      ∃ token, token.length = 64 ∧ (∀ c ∈ token.data, c ∈ "0123456789abcdef".data) ∧
        ((authService.RequestPasswordReset deps w email).2.users.find?
          (fun v => v.Email == email)).map (fun v => v.PasswordResetToken)
            = some (some token)) := by
  constructor
  · intro bytes h
    obtain ⟨hlen, _⟩ := randRead_length w n bytes h
    have htok : (utils.GenerateRandomToken w n).1 = .ok (utils.hexEncodeToString bytes) := by
      simp [utils.GenerateRandomToken, h]
    exact ⟨_, htok, by rw [hexEncodeToString_length, hlen], hexEncodeToString_digits bytes⟩
  · intro deps email u hf hfind hres
    have hget := GetByEmail_found w email u hf hfind
    have hw := (GetByEmail_cases w email).1
    have hue : u.Email = email := by simpa using List.find?_some hfind
    unfold authService.RequestPasswordReset at hres ⊢
    simp only [hget, hw] at hres ⊢
    cases hr : (randRead w.sent 32).1 with
    | none => simp [utils.GenerateRandomToken, hr] at hres
    | some bytes =>
      obtain ⟨hlen, _⟩ := randRead_length w.sent 32 bytes hr
      have htok : (utils.GenerateRandomToken w.sent 32).1
          = .ok (utils.hexEncodeToString bytes) := by
        simp [utils.GenerateRandomToken, hr]
      simp only [htok] at hres ⊢
      refine ⟨utils.hexEncodeToString bytes, by rw [hexEncodeToString_length, hlen],
        hexEncodeToString_digits bytes, ?_⟩
      split at hres
      · cases hres
      · rename_i hset
        simp only [hset]
        rw [hue] at hset ⊢
        exact SetPasswordResetToken_ok _ email _ _ u (by simpa [timeNow] using hfind) hset

/-- C14 at work. -/
theorem GenerateRandomToken_hex_witness :
    (utils.GenerateRandomToken { emptyWorld with entropy := [0, 255, 16, 171] } 4).1
      = .ok "00ff10ab" ∧
    (∃ token, (utils.GenerateRandomToken twoUsers 32).1 = .ok token ∧
      token.length = 2 * 32 ∧ ∀ c ∈ token.data, c ∈ "0123456789abcdef".data) :=
  ⟨by decide, (GenerateRandomToken_hex twoUsers 32).1 _ rfl⟩

/-! ## C18: where the session identifier is taken from -/

theorem TrimPrefix_empty (s pre : String) (h : strings.HasPrefix s pre = true)
    (he : strings.TrimPrefix s pre = "") : s = pre := by
  unfold strings.TrimPrefix at he
  rw [if_pos h] at he
  unfold strings.HasPrefix at h
  rw [List.isPrefixOf_iff_prefix] at h
  obtain ⟨t, ht⟩ := h
  have hd : s.data.drop pre.data.length = [] := by
    have := congrArg String.data he
    simpa using this
  rw [← ht] at hd
  simp at hd
  apply String.ext
  rw [← ht, hd]
  simp

/-- C18 on the code: the header `Authorization: Bearer ` carries no identifier, the
cookie `session_id` carries `abc`, and `getSessionID` answers the empty string: a
header that starts with `Bearer ` ends the search even when nothing follows it. -/
theorem getSessionID_empty_bearer :
    bearerOnly.header "X-Session-ID" = "" ∧
    middleware.bearerToken (bearerOnly.header "Authorization") = "" ∧
    bearerOnly.cookie "session_id" = some "abc" ∧
    middleware.firstIdentifier bearerOnly = "abc" ∧
    middleware.getSessionID bearerOnly = "" := by
  decide

/-- C18 as far as it holds: unless the header `X-Session-ID` is empty and the header
`Authorization` is exactly `Bearer `, `getSessionID` returns the first identifier that
is not empty among the header `X-Session-ID`, the token of `Authorization: Bearer
<token>`, the cookie `session_id` and the query parameter `session_id`, in this
order, and the empty string only when none of them carries one.  In the excepted
case it returns the empty string whatever the cookie and the query parameter
hold. -/
theorem getSessionID_priority (c : echo.Context) :
    (c.header "X-Session-ID" ≠ "" ∨ c.header "Authorization" ≠ "Bearer " →
      middleware.getSessionID c = middleware.firstIdentifier c) ∧
    (c.header "X-Session-ID" = "" → c.header "Authorization" = "Bearer " →
      middleware.getSessionID c = "") := by
  constructor
  · intro h
    unfold middleware.getSessionID middleware.firstIdentifier middleware.bearerToken
    by_cases hx : c.header "X-Session-ID" = ""
    · have hauth : c.header "Authorization" ≠ "Bearer " := by
        rcases h with h | h
        · exact absurd hx h
        · exact h
      by_cases hp : strings.HasPrefix (c.header "Authorization") "Bearer " = true
      · have hne : c.header "Authorization" ≠ "" := by
          intro h0
          rw [h0] at hp
          revert hp
          decide
        have htrim : strings.TrimPrefix (c.header "Authorization") "Bearer " ≠ "" :=
          fun he => hauth (TrimPrefix_empty _ _ hp he)
        have htrim' : String.mk ((c.header "Authorization").data.drop 7) ≠ "" := by
          have : strings.TrimPrefix (c.header "Authorization") "Bearer "
              = String.mk ((c.header "Authorization").data.drop 7) := by
            simp [strings.TrimPrefix, hp]
          rw [← this]; exact htrim
        have : strings.TrimPrefix (c.header "Authorization") "Bearer "
              = String.mk ((c.header "Authorization").data.drop 7) := by
            simp [strings.TrimPrefix, hp]
        simp [hx, hp, hne, middleware.firstNonEmpty, htrim', this]
      · cases hc : c.cookie "session_id" with
        | none =>
          by_cases hq : c.queryParam "session_id" = "" <;>
            simp [hx, hp, hc, hq, middleware.firstNonEmpty]
        | some v =>
          by_cases hv : v = ""
          · by_cases hq : c.queryParam "session_id" = "" <;>
              simp [hx, hp, hc, hv, hq, middleware.firstNonEmpty]
          · simp [hx, hp, hc, hv, middleware.firstNonEmpty]
    · simp [hx, middleware.firstNonEmpty]
  · intro hx ha
    unfold middleware.getSessionID
    rw [hx, ha]
    have h1 : (("" : String) != "") = false := by decide
    have h2 : (("Bearer " : String) != "" && strings.HasPrefix "Bearer " "Bearer ") = true := by
      decide
    have h3 : strings.TrimPrefix "Bearer " "Bearer " = "" := by decide
    simp only [h1, h2, h3, if_true, Bool.false_eq_true, if_false]

/-- C18 at work: a request with nothing but the cookie `abc` and the query parameter
`q1`, and the same request with the header `Authorization: Bearer tok` added. -/
theorem getSessionID_priority_witness :
    middleware.getSessionID
      { header := fun _ => "", cookie := fun _ => some "abc", queryParam := fun _ => "q1" }
      = "abc" ∧
    middleware.getSessionID
      { header := fun name => if name = "Authorization" then "Bearer tok" else "",
        cookie := fun _ => some "abc", queryParam := fun _ => "q1" }
      = "tok" :=
  ⟨((getSessionID_priority
      { header := fun _ => "", cookie := fun _ => some "abc",
        queryParam := fun _ => "q1" }).1 (Or.inr (by decide))).trans (by decide),
   ((getSessionID_priority
      { header := fun name => if name = "Authorization" then "Bearer tok" else "",
        cookie := fun _ => some "abc", queryParam := fun _ => "q1" }).1
      (Or.inr (by decide))).trans (by decide)⟩

/-! ## The clock along the calls -/

theorem SameClock.crefl (w : World) : SameClock w w := ⟨rfl, rfl⟩

theorem SameClock.ctrans {a b c : World} (h1 : SameClock a b) (h2 : SameClock b c) :
    SameClock a c :=
  ⟨h2.1.trans h1.1, h2.2.trans h1.2⟩

theorem sent_clock (w : World) : SameClock w w.sent := ⟨rfl, rfl⟩

theorem SameClock.next_now {w w' : World} (h : SameClock w w') : w'.tick.now = w.tick.now := by
  show w'.now + _ = w.now + _
  rw [h.1, h.2]

theorem SameClock.next {w w' : World} (h : SameClock w w') : SameClock w.tick w'.tick :=
  ⟨h.next_now, by show w'.ticks.tail = w.ticks.tail; rw [h.2]⟩

theorem uuidNew_clock (w : World) : SameClock w (uuidNew w).2 := ⟨rfl, rfl⟩

theorem NewObjectID_clock (w : World) : SameClock w (NewObjectID w).2 := ⟨rfl, rfl⟩

theorem randRead_clock (w : World) (n : Nat) : SameClock w (randRead w n).2 := by
  unfold randRead; split <;> exact ⟨rfl, rfl⟩

theorem mongoFindOne_clock (w : World) (p : User → Bool) : SameClock w (mongoFindOne w p).2 := by
  rw [mongoFindOne_snd]; exact sent_clock w

theorem redisGet_clock (w : World) (id : String) : SameClock w (redisGet w id).2 := by
  rw [redisGet_snd]; exact sent_clock w

theorem redisSRem_clock (w : World) (uid member : String) :
    SameClock w (redisSRem w uid member).2 := by
  unfold redisSRem
  split
  · exact ⟨rfl, rfl⟩
  · split <;> exact ⟨rfl, rfl⟩

theorem redisDelSession_clock (w : World) (id : String) :
    SameClock w (redisDelSession w id).2 := by
  unfold redisDelSession
  split <;> exact ⟨rfl, rfl⟩

theorem redisDelUserSessions_clock (w : World) (uid : String) :
    SameClock w (redisDelUserSessions w uid).2 := by
  unfold redisDelUserSessions
  split <;> exact ⟨rfl, rfl⟩

theorem GetByID_clock (w : World) (id : String) :
    SameClock w (mongoUserRepository.GetByID w id).2 := by
  unfold mongoUserRepository.GetByID
  split
  · exact SameClock.crefl w
  · simp only [mongoFindOne_snd]
    split
    · split <;> exact sent_clock w
    · exact sent_clock w

/-! ## C19: whether `Get` and `Delete` return -/

theorem sessionAt_tick_of_some {w : World} {id : String} {e e' : Entry Session}
    (h : w.sessionAt id = some e) (h' : w.tick.sessionAt id = some e') : e' = e := by
  have h1 := (sessionAt_some h).1
  have h2 := (sessionAt_some h').1
  simp only [tick_sessions] at h2
  rw [h1] at h2
  cases h2
  rfl

/-- An entry that is not stale: `Get` returns with three units of fuel, whatever the
schedule of driver failures. -/
theorem Get_returns (fuel : Nat) (w : World) (id : String) (hs : ¬ Stale w id) :
    ∃ r, redisSessionRepository.Get (fuel + 3) w id = some r := by
  unfold redisSessionRepository.Get
  cases hg : (redisGet w id).1 with
  | error e =>
    simp only []
    split <;> exact ⟨_, rfl⟩
  | ok session =>
    simp only [redisGet_snd]
    by_cases hv : (session.IsValid w.sent).1 = true
    · simp only [hv, if_true]
      exact ⟨_, rfl⟩
    · simp only [hv]
      have hinner : ∃ r, redisSessionRepository.Get (fuel + 1) (session.IsValid w.sent).2 id
          = some r ∧ ∃ err, r.1 = .error err := by
        unfold redisSessionRepository.Get
        cases hg2 : (redisGet (session.IsValid w.sent).2 id).1 with
        | error e2 =>
          simp only []
          split
          · exact ⟨_, rfl, _, rfl⟩
          · exact ⟨_, rfl, _, rfl⟩
        | ok session2 =>
          exfalso
          obtain ⟨e, he, hval⟩ := redisGet_ok w id session hg
          obtain ⟨e2, he2, _⟩ := redisGet_ok _ id session2 hg2
          have he2' : w.tick.sessionAt id = some e2 := he2
          have := sessionAt_tick_of_some he he2'
          subst this
          apply hs
          refine ⟨e2, he2', ?_⟩
          have hnot : ¬ w.tick.now < session.ExpiresAt := by
            simpa [Session.IsValid, timeNow] using hv
          rw [hval]
          omega
      obtain ⟨r, hr, err, herr⟩ := hinner
      have hd : redisSessionRepository.Delete (fuel + 2) (session.IsValid w.sent).2 id
          = some (none, r.2) := by
        unfold redisSessionRepository.Delete
        simp only [hr, herr]
      simp only [hd, ite_false, Bool.false_eq_true]
      exact ⟨_, rfl⟩

/-- An entry that is not stale: `Delete` returns with four units of fuel. -/
theorem Delete_returns (fuel : Nat) (w : World) (id : String) (hs : ¬ Stale w id) :
    ∃ r, redisSessionRepository.Delete (fuel + 4) w id = some r := by
  obtain ⟨r, hr⟩ := Get_returns fuel w id hs
  unfold redisSessionRepository.Delete
  simp only [hr]
  split <;> exact ⟨_, rfl⟩

/-- An entry whose key does not outlive its session is never stale: the key has gone
when the session has expired.  `Create` stores such an entry whenever the session has
a millisecond or more to live. -/
theorem not_stale_of_deadline {w : World} {id : String} {e : Entry Session} {d : Int}
    (hs : w.sessions id = some e) (hd : e.deadline = some d) (hle : d ≤ e.val.ExpiresAt) :
    ¬ Stale w id := by
  rintro ⟨e', he, hexp⟩
  obtain ⟨hstored, hlive⟩ := sessionAt_some he
  simp only [tick_sessions] at hstored
  rw [hs] at hstored
  cases hstored
  simp [Entry.live, hd] at hlive
  omega

/-- C19 on the code: `staleSession` is stored under `s1` without time-to-live and has
expired; no amount of fuel makes `Get` or `Delete` return for `s1`. -/
theorem Get_Delete_stale_entry_diverge :
    staleWorld.sessions "s1" = some ⟨staleSession, none⟩ ∧
    staleSession.ExpiresAt ≤ staleWorld.now ∧
    Stale staleWorld "s1" ∧
    ∀ fuel, redisSessionRepository.Get fuel staleWorld "s1" = none ∧
      redisSessionRepository.Delete fuel staleWorld "s1" = none :=
  ⟨rfl, by decide, ⟨⟨staleSession, none⟩, by decide, by decide⟩,
   fun fuel => Get_Delete_stale fuel staleWorld "s1" ⟨staleSession, none⟩ rfl rfl
     (by decide) rfl⟩

/-- C19 as far as it holds.  For an id whose entry is not stale, `Get` returns with
three units of fuel and `Delete` with four, whatever the store holds otherwise and
whatever the schedule of driver failures; no entry is stale whose key does not
outlive its session.  For an entry stored without time-to-live whose session has
expired, neither returns with any fuel when no command fails. -/
theorem Get_Delete_return_unless_stale (w : World) (sessionID : String) :
    (¬ Stale w sessionID →
      ∀ fuel, (∃ r, redisSessionRepository.Get (fuel + 3) w sessionID = some r) ∧
        ∃ r, redisSessionRepository.Delete (fuel + 4) w sessionID = some r) ∧
    (∀ e d, w.sessions sessionID = some e → e.deadline = some d → d ≤ e.val.ExpiresAt →
      ¬ Stale w sessionID) ∧
    (∀ e, w.sessions sessionID = some e → e.deadline = none → e.val.ExpiresAt ≤ w.now →
      w.faults = [] →
      ∀ fuel, redisSessionRepository.Get fuel w sessionID = none ∧
        redisSessionRepository.Delete fuel w sessionID = none) :=
  ⟨fun hs fuel => ⟨Get_returns fuel w sessionID hs, Delete_returns fuel w sessionID hs⟩,
   fun _ _ hs hd hle => not_stale_of_deadline hs hd hle,
   fun e hs hd hexp hf fuel => Get_Delete_stale fuel w sessionID e hs hd hexp hf⟩

/-- C19 at work: in `bobSessionWorld` the session `b1` is unexpired and an id `zz` is
unknown; `Get` and `Delete` return for both. -/
theorem Get_Delete_return_unless_stale_witness :
    (∃ r, redisSessionRepository.Get 3 bobSessionWorld "b1" = some r) ∧
    (∃ r, redisSessionRepository.Delete 4 bobSessionWorld "b1" = some r) ∧
    (∃ r, redisSessionRepository.Get 3 bobSessionWorld "zz" = some r) ∧
    (∃ r, redisSessionRepository.Delete 4 bobSessionWorld "zz" = some r) :=
  have hb : ¬ Stale bobSessionWorld "b1" := by
    rintro ⟨e, he, hexp⟩
    have h1 : bobSessionWorld.tick.sessionAt "b1" = some ⟨bobSession, some 8000⟩ := by decide
    rw [h1] at he
    cases he
    revert hexp
    decide
  have hz : ¬ Stale bobSessionWorld "zz" := by
    rintro ⟨e, he, _⟩
    have h1 : bobSessionWorld.tick.sessionAt "zz" = none := by decide
    rw [h1] at he
    cases he
  ⟨((Get_Delete_return_unless_stale bobSessionWorld "b1").1 hb 0).1,
   ((Get_Delete_return_unless_stale bobSessionWorld "b1").1 hb 0).2,
   ((Get_Delete_return_unless_stale bobSessionWorld "zz").1 hz 0).1,
   ((Get_Delete_return_unless_stale bobSessionWorld "zz").1 hz 0).2⟩

/-! ## C11: logging out -/

theorem redisDelSession_ok (w : World) (id : String) (hf : w.faults = []) :
    (redisDelSession w id).1 = none := by
  simp [redisDelSession, faulty_of_no_faults hf]

/-- A `Delete` that no command fails and that does not meet a stale entry returns no
error and leaves the key of the id absent; it touches no user document and no other
session, and reads the clock at most once. -/
theorem Delete_ok (fuel : Nat) (w : World) (id : String) (hf : w.faults = [])
    (hs : ¬ Stale w id) :
    ∃ w1, redisSessionRepository.Delete (fuel + 4) w id = some (none, w1) ∧
      w1.faults = [] ∧ w1.sessionAt id = none ∧ w1.users = w.users ∧
      (∀ k, k ≠ id → w1.sessions k = w.sessions k) ∧
      ((w1.now = w.now ∧ w1.ticks = w.ticks) ∨
        (w1.now = w.tick.now ∧ w1.ticks = w.tick.ticks)) := by
  cases hat : w.sessionAt id with
  | none =>
    refine ⟨w.sent, ?_, (sent_env w).faults hf, by rw [sent_of_no_faults hf]; exact hat, rfl,
      fun _ _ => rfl, Or.inl ⟨rfl, rfl⟩⟩
    unfold redisSessionRepository.Delete
    simp only [Get_absent (fuel + 2) w id hf hat]
  | some e =>
    obtain ⟨hstored, hlive⟩ := sessionAt_some hat
    by_cases hv : w.tick.now < e.val.ExpiresAt
    · obtain ⟨r1, r2, r3, _⟩ := redisSRem_effect w.tick e.val.UserID id (by simpa using hf)
      obtain ⟨d1, _, d3, d4⟩ :=
        redisDelSession_effect (redisSRem w.tick e.val.UserID id).2 id r3
      refine ⟨(redisDelSession (redisSRem w.tick e.val.UserID id).2 id).2, ?_, d4, ?_, ?_, ?_,
        Or.inr ((redisSRem_clock _ _ _).ctrans (redisDelSession_clock _ _))⟩
      · unfold redisSessionRepository.Delete
        simp only [Get_valid (fuel + 2) w id e hf hstored hlive hv]
        exact congrArg some (Prod.ext (redisDelSession_ok _ id r3) rfl)
      · simp [World.sessionAt, d1]
      · rw [redisDelSession_users, redisSRem_users]
        rfl
      · intro k hk
        rw [d1, r1, setKey_other _ _ hk]
        rfl
    · have habs : w.tick.sessionAt id = none := by
        cases h2 : w.tick.sessionAt id with
        | none => rfl
        | some e2 =>
          exfalso
          apply hs
          have h2' := (sessionAt_some h2).1
          simp only [tick_sessions] at h2'
          rw [hstored] at h2'
          cases h2'
          exact ⟨e, h2, by omega⟩
      have hf1 : w.tick.faults = [] := by simpa using hf
      have hvalid : (e.val.IsValid w).1 = false := by
        simpa [Session.IsValid, timeNow] using hv
      have hw2 : (e.val.IsValid w).2 = w.tick := rfl
      have hinner : redisSessionRepository.Delete (fuel + 2) w.tick id
          = some (none, w.tick) := by
        unfold redisSessionRepository.Delete
        simp only [Get_absent fuel w.tick id hf1 habs, sent_of_no_faults hf1]
      have hget : redisSessionRepository.Get (fuel + 3) w id
          = some (.error ErrSessionExpired, w.tick) := by
        unfold redisSessionRepository.Get
        simp [redisGet_eq w id hf, hat, hvalid, hw2, hinner, ErrSessionExpired]
      refine ⟨w.tick, ?_, hf1, habs, rfl, fun _ _ => rfl, Or.inr ⟨rfl, rfl⟩⟩
      unfold redisSessionRepository.Delete
      simp only [hget]

/-- C11 on the code: the entry `s1` of `staleWorld` is stored and has expired; `Logout`
returns for no amount of fuel.  Such an entry is within reach of the service: after
the registration of `newcomer` under a session lifetime of zero, `Logout` of the
session just issued does not return either. -/
theorem Logout_stale_entry_never_returns :
    staleWorld.sessions "s1" = some ⟨staleSession, none⟩ ∧
    staleSession.ExpiresAt ≤ staleWorld.now ∧
    (∀ fuel, authService.Logout fuel staleWorld "s1" = none) ∧
    ((authService.Register zeroLifetimeDeps twoUsers newcomer).1.map
      (fun r => r.SessionID)) = .ok "s1" ∧
    (∀ fuel, authService.Logout fuel
      (authService.Register zeroLifetimeDeps twoUsers newcomer).2 "s1" = none) := by
  have hs : (authService.Register zeroLifetimeDeps twoUsers newcomer).2.sessions "s1"
      = some ⟨{ ID := "s1", UserID := "00000000000000000000000d", Email := "n@x.com",
                Role := RoleStaff, CreatedAt := 1003, ExpiresAt := 1004 }, none⟩ := by
    decide
  exact ⟨rfl, by decide,
    fun fuel => (Get_Delete_stale fuel staleWorld "s1" ⟨staleSession, none⟩ rfl rfl
      (by decide) rfl).2,
    by decide,
    fun fuel => (Get_Delete_stale fuel _ "s1" _ hs rfl (by decide) (by decide)).2⟩

/-- C11 as far as it holds: when no command fails and the entry of the id is not
stale, `Logout` returns no error, whether or not a session is stored under the id,
and leaves the user documents as they were; a second `Logout` returns no error
either and changes nothing more, and `ValidateSession` and `GetSession` fail with
`session not found`. -/
theorem Logout_idempotent (fuel : Nat) (w : World) (sessionID : String)
    (hf : w.faults = []) (hs : ¬ Stale w sessionID) :
    ∃ w1, authService.Logout (fuel + 4) w sessionID = some (none, w1) ∧
      w1.users = w.users ∧
      authService.Logout (fuel + 4) w1 sessionID = some (none, w1) ∧
      authService.ValidateSession (fuel + 1) w1 sessionID
        = some (.error ErrSessionNotFound, w1) ∧
      authService.GetSession (fuel + 1) w1 sessionID
        = some (.error ErrSessionNotFound, w1) := by
  obtain ⟨w1, hdel, hf1, habs, husers, _, _⟩ := Delete_ok fuel w sessionID hf hs
  have hget : ∀ n, redisSessionRepository.Get (n + 1) w1 sessionID
      = some (.error ErrSessionNotFound, w1) := by
    intro n
    rw [Get_absent n w1 sessionID hf1 habs, sent_of_no_faults hf1]
  refine ⟨w1, hdel, husers, ?_, ?_, hget fuel⟩
  · show redisSessionRepository.Delete (fuel + 4) w1 sessionID = some (none, w1)
    unfold redisSessionRepository.Delete
    simp only [hget (fuel + 2)]
  · simp [authService.ValidateSession, hget fuel]

/-- C11 at work: the session `b1` of `bobSessionWorld` is logged out, and so is the
unknown id `zz`. -/
theorem Logout_idempotent_witness :
    bobSessionWorld.sessions "b1" = some ⟨bobSession, some 8000⟩ ∧
    bobSessionWorld.sessions "zz" = none ∧
    (∃ w1, authService.Logout 4 bobSessionWorld "b1" = some (none, w1) ∧
      w1.users = bobSessionWorld.users ∧
      authService.Logout 4 w1 "b1" = some (none, w1) ∧
      authService.ValidateSession 1 w1 "b1" = some (.error ErrSessionNotFound, w1) ∧
      authService.GetSession 1 w1 "b1" = some (.error ErrSessionNotFound, w1)) ∧
    (∃ w1, authService.Logout 4 bobSessionWorld "zz" = some (none, w1) ∧
      w1.users = bobSessionWorld.users ∧
      authService.Logout 4 w1 "zz" = some (none, w1) ∧
      authService.ValidateSession 1 w1 "zz" = some (.error ErrSessionNotFound, w1) ∧
      authService.GetSession 1 w1 "zz" = some (.error ErrSessionNotFound, w1)) :=
  have hb : ¬ Stale bobSessionWorld "b1" := by
    rintro ⟨e, he, hexp⟩
    have h1 : bobSessionWorld.tick.sessionAt "b1" = some ⟨bobSession, some 8000⟩ := by decide
    rw [h1] at he
    cases he
    revert hexp
    decide
  have hz : ¬ Stale bobSessionWorld "zz" := by
    rintro ⟨e, he, _⟩
    have h1 : bobSessionWorld.tick.sessionAt "zz" = none := by decide
    rw [h1] at he
    cases he
  ⟨rfl, rfl, Logout_idempotent 0 bobSessionWorld "b1" rfl hb,
   Logout_idempotent 0 bobSessionWorld "zz" rfl hz⟩

/-! ## C15: the two instants of a session -/

/-- Whatever the driver does, `Create` of the session repository leaves the keys
`session:<id>` as they were or writes the session under its id; when it returns no
error it has written it. -/
theorem sessionCreate_sessions (w : World) (s : Session) :
    ((redisSessionRepository.Create w s).2.sessions = w.sessions ∨
      ∃ deadline, (redisSessionRepository.Create w s).2.sessions
        = setKey w.sessions s.ID (some ⟨s, deadline⟩)) ∧
    ((redisSessionRepository.Create w s).1 = none →
      ∃ deadline, (redisSessionRepository.Create w s).2.sessions
        = setKey w.sessions s.ID (some ⟨s, deadline⟩)) := by
  have key : ((redisSet w.tick s.ID s (s.ExpiresAt - w.tick.now)).1 ≠ none ∧
        (redisSet w.tick s.ID s (s.ExpiresAt - w.tick.now)).2.sessions = w.sessions) ∨
      ((redisSet w.tick s.ID s (s.ExpiresAt - w.tick.now)).1 = none ∧
        ∃ deadline, (redisSet w.tick s.ID s (s.ExpiresAt - w.tick.now)).2.sessions
          = setKey w.sessions s.ID (some ⟨s, deadline⟩)) := by
    unfold redisSet
    by_cases hf : w.tick.faulty = true
    · left
      simp [hf]
    · right
      simp only [hf, Bool.false_eq_true, if_false, true_and]
      exact ⟨_, rfl⟩
  unfold redisSessionRepository.Create
  simp only [timeNow]
  rcases key with ⟨h1, h2⟩ | ⟨h1, dl, h2⟩
  · cases hr : (redisSet w.tick s.ID s (s.ExpiresAt - w.tick.now)).1 with
    | none => exact absurd hr h1
    | some e =>
      simp only []
      exact ⟨Or.inl h2, fun h => by cases h⟩
  · simp only [h1]
    have hall : ∃ deadline,
        (redisExpire (redisSAdd (redisSet w.tick s.ID s (s.ExpiresAt - w.tick.now)).2
          s.UserID s.ID).2 s.UserID (s.ExpiresAt - w.tick.now)).2.sessions
          = setKey w.sessions s.ID (some ⟨s, deadline⟩) :=
      ⟨dl, by rw [redisExpire_sessions, redisSAdd_sessions, h2]⟩
    have hsadd : ∃ deadline,
        (redisSAdd (redisSet w.tick s.ID s (s.ExpiresAt - w.tick.now)).2
          s.UserID s.ID).2.sessions = setKey w.sessions s.ID (some ⟨s, deadline⟩) :=
      ⟨dl, by rw [redisSAdd_sessions, h2]⟩
    split
    · exact ⟨Or.inr hsadd, fun h => by cases h⟩
    · split
      · exact ⟨Or.inr hall, fun h => by cases h⟩
      · exact ⟨Or.inr hall, fun _ => hall⟩

/-- The session of `newSession` expires no earlier than one lifetime after the instant
it records as its creation. -/
theorem newSession_span (deps : Deps) (w : World) (u : User) :
    (authService.newSession deps w u).1.CreatedAt + deps.config.SessionExpiresIn
      ≤ (authService.newSession deps w u).1.ExpiresAt := by
  obtain ⟨k, _, hk⟩ := newSession_times deps w u
  rw [hk]
  omega

/-- Every session that the tail of `Register` and `Login` writes. -/
theorem issue_sessions (deps : Deps) (w : World) (u : User) :
    (∀ id e, (authService.issue deps w u).2.sessions id = some e →
      w.sessions id = some e ∨
        e.val.CreatedAt + deps.config.SessionExpiresIn ≤ e.val.ExpiresAt) ∧
    (∀ resp, (authService.issue deps w u).1 = .ok resp →
      ∃ e, (authService.issue deps w u).2.sessions resp.SessionID = some e ∧
        e.val.ID = resp.SessionID ∧
        e.val.CreatedAt + deps.config.SessionExpiresIn ≤ e.val.ExpiresAt) := by
  unfold authService.issue
  split
  · exact ⟨fun id e h => Or.inl h, fun resp h => by cases h⟩
  · simp only []
    obtain ⟨hany, hok⟩ := sessionCreate_sessions (authService.newSession deps w u).2
      (authService.newSession deps w u).1
    have hspan := newSession_span deps w u
    have hsame : (authService.newSession deps w u).2.sessions = w.sessions :=
      (newSession_redis deps w u).sessions
    have hfirst : ∀ id e,
        (redisSessionRepository.Create (authService.newSession deps w u).2
          (authService.newSession deps w u).1).2.sessions id = some e →
        w.sessions id = some e ∨
          e.val.CreatedAt + deps.config.SessionExpiresIn ≤ e.val.ExpiresAt := by
      intro id e h
      rcases hany with h0 | ⟨dl, h1⟩
      · rw [h0, hsame] at h
        exact Or.inl h
      · rw [h1, hsame] at h
        by_cases hid : id = (authService.newSession deps w u).1.ID
        · subst hid
          simp only [setKey_same, Option.some.injEq] at h
          subst h
          exact Or.inr hspan
        · rw [setKey_other _ _ hid] at h
          exact Or.inl h
    split
    · exact ⟨hfirst, fun resp h => by cases h⟩
    · rename_i hnone
      refine ⟨hfirst, ?_⟩
      intro resp h
      simp only [Except.ok.injEq] at h
      subst h
      obtain ⟨dl, h1⟩ := hok hnone
      exact ⟨⟨(authService.newSession deps w u).1, dl⟩, by rw [h1]; simp, rfl, hspan⟩
/-- The statement about the sessions written, for one call. -/
theorem written_of_issue (deps : Deps) (w w1 : World) (u : User) (hr : SameRedis w w1) :
    (∀ id e, (authService.issue deps w1 u).2.sessions id = some e →
      w.sessions id = some e ∨
        e.val.CreatedAt + deps.config.SessionExpiresIn ≤ e.val.ExpiresAt) ∧
    (∀ resp, (authService.issue deps w1 u).1 = .ok resp →
      ∃ e, (authService.issue deps w1 u).2.sessions resp.SessionID = some e ∧
        e.val.ID = resp.SessionID ∧
        e.val.CreatedAt + deps.config.SessionExpiresIn ≤ e.val.ExpiresAt) := by
  obtain ⟨h1, h2⟩ := issue_sessions deps w1 u
  refine ⟨?_, h2⟩
  intro id e h
  rcases h1 id e h with h0 | h0
  · exact Or.inl (by rw [← hr.sessions]; exact h0)
  · exact Or.inr h0

theorem Register_sessions (deps : Deps) (w : World) (req : RegisterRequest) :
    (∀ id e, (authService.Register deps w req).2.sessions id = some e →
      w.sessions id = some e ∨
        e.val.CreatedAt + deps.config.SessionExpiresIn ≤ e.val.ExpiresAt) ∧
    (∀ resp, (authService.Register deps w req).1 = .ok resp →
      ∃ e, (authService.Register deps w req).2.sessions resp.SessionID = some e ∧
        e.val.ID = resp.SessionID ∧
        e.val.CreatedAt + deps.config.SessionExpiresIn ≤ e.val.ExpiresAt) := by
  have early : ∀ (w1 : World) (err : Err), SameRedis w w1 →
      (∀ id e, w1.sessions id = some e →
        w.sessions id = some e ∨
          e.val.CreatedAt + deps.config.SessionExpiresIn ≤ e.val.ExpiresAt) ∧
      (∀ resp, (Except.error err : Except Err AuthResponse) = .ok resp →
        ∃ e, w1.sessions resp.SessionID = some e ∧
          e.val.ID = resp.SessionID ∧
          e.val.CreatedAt + deps.config.SessionExpiresIn ≤ e.val.ExpiresAt) := by
    intro w1 err hr
    exact ⟨fun id e h => Or.inl (by rw [← hr.sessions]; exact h), fun resp h => by cases h⟩
  unfold authService.Register
  simp only [GetByEmail_snd]
  have r1 := sent_redis w
  split
  · exact early _ _ r1
  · split
    · exact early _ _ r1
    · have r2 := r1.rtrans (HashPassword_redis deps w.sent req.Password)
      split
      · exact early _ _ r2
      · split
        · exact early _ _ (r2.rtrans (userCreate_redis _ _))
        · exact written_of_issue deps w _ _ (r2.rtrans (userCreate_redis _ _))

theorem Login_sessions (deps : Deps) (w : World) (req : LoginRequest) :
    (∀ id e, (authService.Login deps w req).2.sessions id = some e →
      w.sessions id = some e ∨
        e.val.CreatedAt + deps.config.SessionExpiresIn ≤ e.val.ExpiresAt) ∧
    (∀ resp, (authService.Login deps w req).1 = .ok resp →
      ∃ e, (authService.Login deps w req).2.sessions resp.SessionID = some e ∧
        e.val.ID = resp.SessionID ∧
        e.val.CreatedAt + deps.config.SessionExpiresIn ≤ e.val.ExpiresAt) := by
  have early : ∀ (w1 : World) (err : Err), SameRedis w w1 →
      (∀ id e, w1.sessions id = some e →
        w.sessions id = some e ∨
          e.val.CreatedAt + deps.config.SessionExpiresIn ≤ e.val.ExpiresAt) ∧
      (∀ resp, (Except.error err : Except Err AuthResponse) = .ok resp →
        ∃ e, w1.sessions resp.SessionID = some e ∧
          e.val.ID = resp.SessionID ∧
          e.val.CreatedAt + deps.config.SessionExpiresIn ≤ e.val.ExpiresAt) := by
    intro w1 err hr
    exact ⟨fun id e h => Or.inl (by rw [← hr.sessions]; exact h), fun resp h => by cases h⟩
  unfold authService.Login
  simp only [GetByEmail_snd]
  have r1 := sent_redis w
  split
  · exact early _ _ r1
  · split
    · exact early _ _ r1
    · split
      · exact early _ _ r1
      · exact written_of_issue deps w _ _ (r1.rtrans (UpdateLastLogin_redis _ _))

/-- C15, by the letter, fails.  With a session lifetime of zero and a clock that does
not advance between the two readings, the session that `Register` stores has
`ExpiresAt` equal to `CreatedAt`; with a negative lifetime the session that `Login`
stores expires before it was created. -/
theorem session_expiry_not_after_creation :
    ((authService.Register zeroLifetimeDeps { twoUsers with ticks := [] } newcomer).1.map
      (fun r => r.SessionID)) = .ok "s1" ∧
    ((authService.Register zeroLifetimeDeps { twoUsers with ticks := [] }
      newcomer).2.sessions "s1").map (fun e => (e.val.CreatedAt, e.val.ExpiresAt))
        = some (1000, 1000) ∧
    ((authService.Login negativeLifetimeDeps twoUsers ⟨"a@x.com", "pw12345678"⟩).1.map
      (fun r => r.SessionID)) = .ok "s1" ∧
    ((authService.Login negativeLifetimeDeps twoUsers
      ⟨"a@x.com", "pw12345678"⟩).2.sessions "s1").map
        (fun e => (e.val.CreatedAt, decide (e.val.ExpiresAt < e.val.CreatedAt)))
        = some (1002, true) := by
  decide

/-- C15, amended: every session found in the store after a `Register` or a `Login`,
whatever the driver does, was there before or has `ExpiresAt` no earlier than
`CreatedAt` plus the configured lifetime, hence later than `CreatedAt` when the
lifetime is positive; a call that succeeds has stored such a session under the id
it returns.  And `IsValid` is true exactly when the instant it reads from the clock
is strictly before `ExpiresAt`. -/
theorem session_expires_after_creation (deps : Deps) (w : World) :
    (∀ (req : RegisterRequest) id e,
      (authService.Register deps w req).2.sessions id = some e →
      w.sessions id = some e ∨
        (e.val.CreatedAt + deps.config.SessionExpiresIn ≤ e.val.ExpiresAt ∧
          (0 < deps.config.SessionExpiresIn → e.val.CreatedAt < e.val.ExpiresAt))) ∧
    (∀ (req : LoginRequest) id e,
      (authService.Login deps w req).2.sessions id = some e →
      w.sessions id = some e ∨
        (e.val.CreatedAt + deps.config.SessionExpiresIn ≤ e.val.ExpiresAt ∧
          (0 < deps.config.SessionExpiresIn → e.val.CreatedAt < e.val.ExpiresAt))) ∧
    (∀ (req : RegisterRequest) resp, (authService.Register deps w req).1 = .ok resp →
      ∃ e, (authService.Register deps w req).2.sessions resp.SessionID = some e ∧
        e.val.ID = resp.SessionID ∧
        e.val.CreatedAt + deps.config.SessionExpiresIn ≤ e.val.ExpiresAt) ∧
    (∀ (req : LoginRequest) resp, (authService.Login deps w req).1 = .ok resp →
      ∃ e, (authService.Login deps w req).2.sessions resp.SessionID = some e ∧
        e.val.ID = resp.SessionID ∧
        e.val.CreatedAt + deps.config.SessionExpiresIn ≤ e.val.ExpiresAt) ∧
    (∀ s : Session, (s.IsValid w).1 = true ↔ w.tick.now < s.ExpiresAt) := by
  refine ⟨?_, ?_, fun req => (Register_sessions deps w req).2,
    fun req => (Login_sessions deps w req).2, ?_⟩
  · intro req id e h
    rcases (Register_sessions deps w req).1 id e h with h0 | h0
    · exact Or.inl h0
    · exact Or.inr ⟨h0, fun hpos => by omega⟩
  · intro req id e h
    rcases (Login_sessions deps w req).1 id e h with h0 | h0
    · exact Or.inl h0
    · exact Or.inr ⟨h0, fun hpos => by omega⟩
  · intro s
    simp [Session.IsValid, timeNow]

/-- C15, amended, at work: the session of `newcomer`, registered in `twoUsers` under
the default lifetime of 7200 seconds; and a session that expires at 1001 read at
1001. -/
theorem session_expires_after_creation_witness :
    (∃ e, (authService.Register sampleDeps twoUsers newcomer).2.sessions "s1" = some e ∧
      e.val.ID = "s1" ∧
      e.val.CreatedAt + sampleDeps.config.SessionExpiresIn ≤ e.val.ExpiresAt) ∧
    twoUsers.tick.now = 1001 ∧
    ({ staleSession with ExpiresAt := 1001 }.IsValid twoUsers).1 = false ∧
    ({ staleSession with ExpiresAt := 1002 }.IsValid twoUsers).1 = true :=
  ⟨(session_expires_after_creation sampleDeps twoUsers).2.2.1 newcomer newcomerResponse
      (by decide),
   by decide,
   by
     have h := ((session_expires_after_creation sampleDeps twoUsers).2.2.2.2
       { staleSession with ExpiresAt := 1001 }).not
     simpa using h.mpr (by decide),
   ((session_expires_after_creation sampleDeps twoUsers).2.2.2.2
      { staleSession with ExpiresAt := 1002 }).mpr (by decide)⟩

/-! ## C16: the index of the sessions of a user -/

/-- No command was sent: none failed. -/
theorem FailedAt.zero {i : Nat} {w w' : World} (h : FailedAt i w w')
    (h1 : w'.faults = w.faults) : False := by
  obtain ⟨_, h3⟩ := h
  rw [h1] at h3
  omega

/-- A call in two parts: the failed command was sent in the first part or in the
second. -/
theorem FailedAt.split {i : Nat} {w w1 w2 : World} (a : Nat) (h : FailedAt i w w2)
    (h1 : w1.faults = w.faults.drop a) :
    (i < a ∧ FailedAt i w w1) ∨ (a ≤ i ∧ FailedAt (i - a) w1 w2) := by
  obtain ⟨h2, h3⟩ := h
  have hi : i < w.faults.length := by
    by_contra hc
    rw [List.getElem?_eq_none (by omega)] at h2
    cases h2
  by_cases hia : i < a
  · left
    refine ⟨hia, h2, ?_⟩
    rw [h1, List.length_drop]
    omega
  · right
    refine ⟨by omega, ?_, ?_⟩
    · rw [h1, List.getElem?_drop]
      have : a + (i - a) = i := by omega
      rw [this]
      exact h2
    · rw [h1, List.length_drop]
      omega

theorem sent_faults (w : World) : w.sent.faults = w.faults.tail := rfl

end FutureStar
